import Mathlib

/-!
# klineio: price monitoring pipeline

A shallow embedding of the price-monitoring core of the repository:

* `pkg/exchange` (`binance.go`, `okex.go`, `exchange.go`): the ticker ranking of
  `GetTopVolumeTickers` and the symbol translation of the OKEX client;
* `internal/repository/crypto.go`: `UpsertExchangePrice` over a table of
  `model.ExchangePrice` rows;
* `internal/service/pricemonitor.go`: `RunMonitor`, `FetchAndStorePrice` and
  `CalculateAveragePrice`;
* `internal/job/price_monitor.go` and `internal/server/task.go`: the job and
  the function the task server hands to its scheduler, `Start` and `Stop`.

Conventions of the embedding.

* Go `float64` values are IEEE 754 binary64 values (`float64` below): the
  arithmetic rounds to nearest, ties to even, overflows to the infinities and
  propagates NaN, and every comparison with NaN is false.
* Go strings are Lean strings, handled through their character lists; the
  patterns the source searches for are ASCII, for which the byte-wise functions
  of package `strings` and the character-wise ones below agree on valid UTF-8.
* Everything outside the process (HTTP replies, the clock, the database session,
  the notifier, the cancellation of the context) is an explicit input.
-/

namespace Klineio

/-! ## Package `strings` -/

namespace strings

/-- Go `strings.HasSuffix`. -/
def HasSuffix (s suffix : String) : Bool :=
  suffix.data.isSuffixOf s.data

/-- Go `strings.Contains`: `substr` starts at some position of `s`. -/
def Contains (s substr : String) : Bool :=
  s.data.tails.any (fun t => substr.data.isPrefixOf t)

/-- Go `strings.Replace` for an empty `old`: `new` is inserted before every
character and at the end, at most `n` times (`none`: no limit). -/
def replaceEmpty (new : List Char) : Option Nat → List Char → List Char
  | some 0, s => s
  | _, [] => new
  | n, c :: s => new ++ c :: replaceEmpty new (n.map (· - 1)) s

/-- Go `strings.Replace` for a non-empty `old`, scanning left to right: `n` is
the number of replacements still allowed (`none`: no limit), `skip` the number
of characters of the occurrence just replaced that are still to be passed
over. -/
def replaceAux (old new : List Char) : Option Nat → Nat → List Char → List Char
  | _, _, [] => []
  | n, skip + 1, _ :: s => replaceAux old new n skip s
  | some 0, 0, c :: s => c :: replaceAux old new (some 0) 0 s
  | n, 0, c :: s =>
    if old.isPrefixOf (c :: s) then
      new ++ replaceAux old new (n.map (· - 1)) (old.length - 1) s
    else
      c :: replaceAux old new n 0 s

/-- Go `strings.Replace`: the first `n` non-overlapping instances of `old`
replaced by `new`; `n < 0` means no limit. -/
def Replace (s old new : String) (n : Int) : String :=
  let count : Option Nat := if n < 0 then none else some n.toNat
  if old.data = [] then ⟨replaceEmpty new.data count s.data⟩
  else ⟨replaceAux old.data new.data count 0 s.data⟩

/-- Go `strings.ReplaceAll`, which is `Replace` with `n = -1`. -/
def ReplaceAll (s old new : String) : String :=
  Replace s old new (-1)

end strings

/-! ## Results of calls -/

/-- Outcome of a Go call returning `(value, error)`: a value with a nil error,
a non-nil error, or a run-time panic. -/
inductive Result (α : Type) where
  | ok (value : α)
  | error (msg : String)
  | panic (msg : String)
  deriving Repr, DecidableEq

/-- What reading and decoding the body of an HTTP answer gives: `β` is the Go
type `json.Unmarshal` fills in. -/
inductive Body (β : Type) where
  | readError (msg : String)
  | unmarshalError (msg : String)
  | decoded (value : β)
  deriving Repr

/-- Outcome of one HTTP round trip as the clients observe it. -/
inductive HttpReply (β : Type) where
  | requestError (msg : String)
  | sendError (msg : String)
  | answered (StatusCode : Int) (Status : String) (body : Body β)
  deriving Repr

/-- Go `http.StatusOK`. -/
def StatusOK : Int := 200

/-! ## Go `float64` -/

/-- A Go `float64`, an IEEE 754 binary64 value. A finite value is a sign and a
magnitude counted in units of 2^-1074, the smallest positive value: `finite
false 1` is 5e-324, `finite false (2 ^ 1074)` is 1 and `finite true 0` is
negative zero. The values of the type are the magnitudes with at most 53
significant bits below 2^2098 units (2^1024); the operations below return only
such magnitudes. -/
inductive float64 where
  | NaN
  | Inf (negative : Bool)
  | finite (negative : Bool) (units : Nat)
  deriving Repr, DecidableEq

namespace float64

/-- The number of units in 1: 2^1074. -/
def one : Nat := 1 <<< 1074

/-- Bisection for the number of bits of `q`: `b` bits are known to be there,
and fewer than `b + 2 ^ (j + 1)`. -/
def bitsFrom : Nat → Nat → Nat → Nat
  | 0, _, b => b
  | j + 1, q, b => bitsFrom j q (if q >>> (b + 2 ^ j - 1) = 0 then b else b + 2 ^ j)

/-- The number of bits of `q`, for `q` below 2^4095 (beyond, 4095): 0 for 0, 1
for 1, 2 for 2 and 3. -/
def bits (q : Nat) : Nat := bitsFrom 12 q 0

/-- Rounding to nearest, ties to even: the `float64` of the given sign nearest
to the magnitude of `n / d` units. The spacing of the values around `n / d` is
`2 ^ (b - 53)` units, `b` the number of bits of the integer part of `n / d`,
and 1 unit below 2^53 units; a magnitude that rounds to 2^2098 units (2^1024)
or more overflows to infinity. -/
def round (negative : Bool) (n d : Nat) : float64 :=
  let step := 1 <<< (bits (n / d) - 53)
  let m := n / (d * step)
  let r := n % (d * step)
  let m1 :=
    if 2 * r < d * step then m
    else if d * step < 2 * r then m + 1
    else if m % 2 = 0 then m else m + 1
  if m1 * step ≥ 1 <<< 2098 then Inf negative else finite negative (m1 * step)

/-- The conversion `float64(n)` of a non-negative integer, and the value of an
integer constant. -/
def ofNat (n : Nat) : float64 := round false (n * one) 1

/-- The power `10 ^ e`. -/
def pow10 : Nat → Nat
  | 0 => 1
  | e + 1 => 10 * pow10 e

/-- The value of the decimal constant `mantissa * 10 ^ exponent` (`mantissa /
10 ^ exponent` for a negative exponent), as the Go compiler and
`strconv.ParseFloat` round it. -/
def ofDecimal (mantissa : Nat) (negativeExponent : Bool) (exponent : Nat) : float64 :=
  if negativeExponent then round false (mantissa * one) (pow10 exponent)
  else round false (mantissa * pow10 exponent * one) 1

/-- Unary minus. -/
def neg : float64 → float64
  | NaN => NaN
  | Inf s => Inf (!s)
  | finite s u => finite (!s) u

/-- The operator `+`. An exact sum of zero is negative only if both operands
are. -/
def add : float64 → float64 → float64
  | NaN, _ => NaN
  | _, NaN => NaN
  | Inf s, Inf t => if s = t then Inf s else NaN
  | Inf s, finite _ _ => Inf s
  | finite _ _, Inf t => Inf t
  | finite s u, finite t v =>
    let z : Int := (if s then -(u : Int) else u) + (if t then -(v : Int) else v)
    if z = 0 then finite (s && t) 0 else round (decide (z < 0)) z.natAbs 1

/-- The operator `-`. -/
def sub (a b : float64) : float64 := add a (neg b)

/-- The operator `*`. -/
def mul : float64 → float64 → float64
  | NaN, _ => NaN
  | _, NaN => NaN
  | Inf s, Inf t => Inf (s != t)
  | Inf s, finite t v => if v = 0 then NaN else Inf (s != t)
  | finite s u, Inf t => if u = 0 then NaN else Inf (s != t)
  | finite s u, finite t v => round (s != t) (u * v) one

/-- The operator `/`. -/
def div : float64 → float64 → float64
  | NaN, _ => NaN
  | _, NaN => NaN
  | Inf _, Inf _ => NaN
  | Inf s, finite t _ => Inf (s != t)
  | finite s _, Inf t => finite (s != t) 0
  | finite s u, finite t v =>
    if v = 0 then (if u = 0 then NaN else Inf (s != t))
    else round (s != t) (u * one) v

/-- The position of a value other than NaN in the order of the comparison
operators; both zeros have the same position. -/
def position : float64 → Option Int
  | NaN => none
  | Inf false => some ((1 <<< 2098 : Nat) : Int)
  | Inf true => some (-((1 <<< 2098 : Nat) : Int))
  | finite false u => some (u : Int)
  | finite true u => some (-(u : Int))

/-- The operator `<`: false when an operand is NaN. -/
def lt (a b : float64) : Bool :=
  match position a, position b with
  | some x, some y => decide (x < y)
  | _, _ => false

/-- The operator `<=`: false when an operand is NaN. -/
def le (a b : float64) : Bool :=
  match position a, position b with
  | some x, some y => decide (x ≤ y)
  | _, _ => false

instance : Zero float64 := ⟨ofNat 0⟩
instance : NatCast float64 := ⟨ofNat⟩
instance : OfNat float64 n := ⟨ofNat n⟩
instance : OfScientific float64 := ⟨ofDecimal⟩
instance : Neg float64 := ⟨neg⟩
instance : Add float64 := ⟨add⟩
instance : Sub float64 := ⟨sub⟩
instance : Mul float64 := ⟨mul⟩
instance : Div float64 := ⟨div⟩
instance : LT float64 := ⟨fun a b => lt a b = true⟩
instance : LE float64 := ⟨fun a b => le a b = true⟩
instance (a b : float64) : Decidable (a < b) := inferInstanceAs (Decidable (lt a b = true))
instance (a b : float64) : Decidable (a ≤ b) := inferInstanceAs (Decidable (le a b = true))

/-- The exact value of a finite `float64` as a rational number (0 for NaN and
the infinities, which have none). -/
def val : float64 → ℚ
  | finite false u => (u : ℚ) / 2 ^ 1074
  | finite true u => -((u : ℚ) / 2 ^ 1074)
  | _ => 0

/-- A value other than NaN and the infinities. -/
def IsFinite : float64 → Prop
  | finite _ _ => True
  | _ => False

/-- The operation that gave `result` did not round: `result` is finite and its
value is `exact`, the result of the operation on the exact values of the
operands. -/
def Exact (result : float64) (exact : ℚ) : Prop :=
  result.IsFinite ∧ result.val = exact

/-- No addition of the loop `for _, price := range prices { sum += price }`
rounds, `sum` being the value of the variable before the loop. -/
def ExactSum : float64 → List float64 → Prop
  | _, [] => True
  | sum, price :: prices =>
    Exact (sum + price) (sum.val + price.val) ∧ ExactSum (sum + price) prices

end float64

/-! ## Package `sort` -/

/-- One round of the loop of Go's `insertionSortLessFunc`: the element `x =
data[i]` is swapped to the left while it is `less` than its left neighbour.
The sorted part `data[a:i]` is given from right to left, and so is the
result. -/
def insertLeftwards {α : Type} (less : α → α → Bool) (x : α) : List α → List α
  | [] => [x]
  | y :: ys => if less x y then y :: insertLeftwards less x ys else x :: y :: ys

/-- Go `sort.Slice(x, less)` as the insertion sort `insertionSortLessFunc`,
which is what `sort.Slice` runs on a short slice (of at most 12 elements in
the current library). On a longer slice Go runs a quicksort, whose result is
the same up to the order of elements that `less` does not separate whenever
`less` is a strict weak order. -/
def sortSlice {α : Type} (less : α → α → Bool) (x : List α) : List α :=
  (x.foldl (fun sortedPart a => insertLeftwards less a sortedPart) []).reverse

/-! ## Package `exchange` -/

namespace exchange

/-- Candlestick of `exchange.go`; times are nanoseconds since the Unix epoch. -/
structure Kline where
  OpenTime : Int
  Open : float64
  High : float64
  Low : float64
  Close : float64
  Volume : float64
  CloseTime : Int
  deriving Repr, DecidableEq

/-- Ticker of `exchange.go`. -/
structure Ticker where
  Symbol : String
  Price : float64
  Volume : float64
  deriving Repr, DecidableEq

/-- The `less` function both clients pass to `sort.Slice`:
`tickers[i].Volume > tickers[j].Volume`. -/
def volumeLess (a b : Ticker) : Bool :=
  decide (a.Volume > b.Volume)

/-- The tail shared by both `GetTopVolumeTickers`: sort by volume descending and
return the top `limit`; `tickers[:limit]` panics for a negative `limit`. -/
def topN (tickers : List Ticker) (limit : Int) : Result (List Ticker) :=
  let sorted := sortSlice volumeLess tickers
  if (sorted.length : Int) > limit then
    if limit < 0 then .panic "slice bounds out of range"
    else .ok (sorted.take limit.toNat)
  else .ok sorted

/-- Element type of `rawTickers` in `BinanceClient.GetTopVolumeTickers`. -/
structure BinanceRawTicker where
  Symbol : String
  LastPrice : String
  Volume : String
  deriving Repr, DecidableEq

/-- Body of the loop of `BinanceClient.GetTopVolumeTickers` for one raw ticker:
`none` when the loop continues without appending. -/
def BinanceClient.tickerOfRaw (ParseFloat : String → Option float64) (raw : BinanceRawTicker) :
    Option Ticker :=
  match ParseFloat raw.LastPrice with
  | none => none
  | some price =>
    match ParseFloat raw.Volume with
    | none => none
    | some volume =>
      if !strings.HasSuffix raw.Symbol "USDT" then none
      else some { Symbol := raw.Symbol, Price := price, Volume := volume }

/-- `BinanceClient.GetTopVolumeTickers` as a function of the HTTP reply;
`ParseFloat` is `strconv.ParseFloat(·, 64)`. -/
def BinanceClient.GetTopVolumeTickers (ParseFloat : String → Option float64)
    (reply : HttpReply (List BinanceRawTicker)) (limit : Int) : Result (List Ticker) :=
  match reply with
  | .requestError e => .error ("failed to create request: " ++ e)
  | .sendError e => .error ("failed to send request: " ++ e)
  | .answered code status body =>
    if code ≠ StatusOK then .error ("binance API returned non-OK status: " ++ status)
    else
      match body with
      | .readError e => .error ("failed to read response body: " ++ e)
      | .unmarshalError e => .error ("failed to unmarshal tickers response: " ++ e)
      | .decoded rawTickers =>
        topN (rawTickers.filterMap (BinanceClient.tickerOfRaw ParseFloat)) limit

/-- Element type of `response.Data` in `OKEXClient.GetTopVolumeTickers`. -/
structure OKEXRawTicker where
  InstID : String
  LastPrice : String
  Vol24h : String
  deriving Repr, DecidableEq

/-- The `response` struct of `OKEXClient.GetTopVolumeTickers`. -/
structure OKEXTickersResponse where
  Code : String
  Msg : String
  Data : List OKEXRawTicker
  deriving Repr

/-- Body of the loop of `OKEXClient.GetTopVolumeTickers` for one raw ticker:
`none` when the loop continues without appending. -/
def OKEXClient.tickerOfRaw (ParseFloat : String → Option float64) (raw : OKEXRawTicker) :
    Option Ticker :=
  if !strings.HasSuffix raw.InstID "-USDT" then none
  else
    match ParseFloat raw.LastPrice with
    | none => none
    | some price =>
      match ParseFloat raw.Vol24h with
      | none => none
      | some volume =>
        some { Symbol := strings.ReplaceAll raw.InstID "-" "", Price := price, Volume := volume }

/-- `OKEXClient.GetTopVolumeTickers` as a function of the HTTP reply. -/
def OKEXClient.GetTopVolumeTickers (ParseFloat : String → Option float64)
    (reply : HttpReply OKEXTickersResponse) (limit : Int) : Result (List Ticker) :=
  match reply with
  | .requestError e => .error ("failed to create request: " ++ e)
  | .sendError e => .error ("failed to send request: " ++ e)
  | .answered code status body =>
    if code ≠ StatusOK then .error ("OKEX API returned non-OK status: " ++ status)
    else
      match body with
      | .readError e => .error ("failed to read response body: " ++ e)
      | .unmarshalError e => .error ("failed to unmarshal tickers response: " ++ e)
      | .decoded response =>
        if response.Code ≠ "0" then
          .error ("OKEX API error: " ++ response.Code ++ " - " ++ response.Msg)
        else
          topN (response.Data.filterMap (OKEXClient.tickerOfRaw ParseFloat)) limit

/-- The raw tickers the specification counts as available on Binance: the
symbol matches the USDT filter and price and volume parse as numbers. -/
def BinanceClient.eligible (ParseFloat : String → Option float64) (raw : BinanceRawTicker) : Bool :=
  strings.HasSuffix raw.Symbol "USDT" && (ParseFloat raw.LastPrice).isSome &&
    (ParseFloat raw.Volume).isSome

/-- The raw tickers the specification counts as available on OKEX: the
instrument id matches the USDT filter and price and volume parse as numbers. -/
def OKEXClient.eligible (ParseFloat : String → Option float64) (raw : OKEXRawTicker) : Bool :=
  strings.HasSuffix raw.InstID "-USDT" && (ParseFloat raw.LastPrice).isSome &&
    (ParseFloat raw.Vol24h).isSome

/-- The `instId` that `OKEXClient.GetLatestPrice` and `OKEXClient.GetKlines`
put in their request for `symbol` (the same three lines in both). -/
def OKEXClient.instId (symbol : String) : String :=
  if !strings.Contains symbol "-" && strings.HasSuffix symbol "USDT" then
    strings.Replace symbol "USDT" "-USDT" 1
  else symbol

/-- The symbol `OKEXClient.GetTopVolumeTickers` emits for a raw `instId`. -/
def OKEXClient.symbolOfInstID (instID : String) : String :=
  strings.ReplaceAll instID "-" ""

/-- The symbol `BinanceClient.GetLatestPrice` and `BinanceClient.GetKlines` put
in their request: the argument itself. -/
def BinanceClient.requestSymbol (symbol : String) : String := symbol

/-- The symbol `BinanceClient.GetTopVolumeTickers` emits for a raw ticker:
`raw.Symbol` itself. -/
def BinanceClient.symbolOfRaw (rawSymbol : String) : String := rawSymbol

end exchange

/-! ## Package `time` -/

namespace time

/-- A Go `time.Time` as an instant: nanoseconds since the Unix epoch (location
and monotonic reading play no part in the code embedded here). -/
abbrev Time := Int

/-- Go `time.Millisecond`, in nanoseconds as every `time.Duration`. -/
def Millisecond : Int := 1000000

/-- Go `time.Second`. -/
def Second : Int := 1000 * Millisecond

/-- Go `time.Hour`. -/
def Hour : Int := 3600 * Second

/-- Go's `unixToInternal`: seconds from January 1 of year 1 (the zero time) to
the Unix epoch. -/
def unixToInternal : Int := 62135596800

/-- The zero `time.Time`. -/
def zero : Time := -(unixToInternal * Second)

/-- Go `time.UnixMilli`. -/
def UnixMilli (msec : Int) : Time := msec * Millisecond

/-- Go `Time.Truncate`: round `t` down to a multiple of `d` since the zero
time; `t` itself when `d <= 0`. -/
def Truncate (t : Time) (d : Int) : Time :=
  if d ≤ 0 then t else t - (t + unixToInternal * Second) % d

end time

/-! ## Package `model` -/

namespace model

/-- The struct `ExchangePrice` of `internal/model/crypto.go`, one row of its
table. `DeletedAt` is `none` for SQL NULL. -/
structure ExchangePrice where
  ID : Nat := 0
  CreatedAt : time.Time := time.zero
  UpdatedAt : time.Time := time.zero
  DeletedAt : Option time.Time := none
  Symbol : String
  Exchange : String
  Price : float64
  Timestamp : Int
  Date : time.Time := time.zero
  deriving Repr, DecidableEq

end model

/-! ## Package `repository` -/

namespace repository

open model

/-- What the database session contributes to one statement: the current time
GORM stamps on the row, the id the table would give a new row, and the error of
the session, if it fails. -/
structure DbCall where
  now : time.Time
  newID : Nat
  failure : Option String
  deriving Repr

/-- The conflict target of the upsert, `(symbol, exchange, date)`: the unique
index `idx_symbol_exchange_date` of the model. -/
def conflicts (a b : ExchangePrice) : Bool :=
  decide (a.Symbol = b.Symbol ∧ a.Exchange = b.Exchange ∧ a.Date = b.Date)

/-- The row GORM's `Create` proposes for insertion: a zero id is assigned by the
table, zero `CreatedAt` and `UpdatedAt` become the current time. -/
def proposed (c : DbCall) (price : ExchangePrice) : ExchangePrice :=
  { price with
    ID := if price.ID = 0 then c.newID else price.ID
    CreatedAt := if price.CreatedAt = time.zero then c.now else price.CreatedAt
    UpdatedAt := if price.UpdatedAt = time.zero then c.now else price.UpdatedAt }

/-- `DoUpdates: clause.AssignmentColumns([]string{"price", "timestamp", "updated_at"})`:
what a conflicting row becomes. -/
def doUpdates (excluded row : ExchangePrice) : ExchangePrice :=
  { row with Price := excluded.Price, Timestamp := excluded.Timestamp,
             UpdatedAt := excluded.UpdatedAt }

/-- The statement `Clauses(clause.OnConflict{...}).Create(price)` on the table:
rows that conflict with the proposed row on `(symbol, exchange, date)` get the
assigned columns, and without a conflict the proposed row is inserted. -/
def createOnConflict (table : List ExchangePrice) (row : ExchangePrice) : List ExchangePrice :=
  if table.any (conflicts row) then
    table.map (fun r => if conflicts row r then doUpdates row r else r)
  else table ++ [row]

/-- The date `UpsertExchangePrice` derives:
`time.UnixMilli(price.Timestamp).UTC().Truncate(24 * time.Hour)`. -/
def dateOf (timestamp : Int) : time.Time :=
  time.Truncate (time.UnixMilli timestamp) (24 * time.Hour)

/-- `exchangePriceRepository.UpsertExchangePrice`: the table after the call and
the error returned (`none` for nil). A failing statement leaves the table as it
was. -/
def UpsertExchangePrice (c : DbCall) (table : List ExchangePrice) (price : ExchangePrice) :
    List ExchangePrice × Option String :=
  let price := { price with Date := dateOf price.Timestamp }
  match c.failure with
  | some err => (table, some ("failed to upsert exchange price: " ++ err))
  | none => (createOnConflict table (proposed c price), none)

/-- The key of a row under the unique index. -/
def key (r : ExchangePrice) : String × String × time.Time :=
  (r.Symbol, r.Exchange, r.Date)

/-- At most one row per `(symbol, exchange, date)`. -/
def UniqueKeys (table : List ExchangePrice) : Prop :=
  (table.map key).Nodup

/-- Every key of `before` is still a key of `after`: no record was lost. -/
def KeysKept (before after : List ExchangePrice) : Prop :=
  ∀ r ∈ before, ∃ r' ∈ after, key r' = key r

/-- The table after a sequence of upserts, failed ones included. -/
def upsertAll (table : List ExchangePrice) (calls : List (DbCall × ExchangePrice)) :
    List ExchangePrice :=
  calls.foldl (fun t call => (UpsertExchangePrice call.1 t call.2).1) table

end repository

/-! ## Package `service` -/

namespace service

open exchange model

/-- `KlineInterval` of `pricemonitor.go`. -/
def KlineInterval : String := "1d"

/-- `KlineLimit` of `pricemonitor.go`. -/
def KlineLimit : Int := 30

/-- The interface `exchange.ExchangeClient`. The first argument of each method
is the step of the pass at which the call is made: it stands for whatever the
exchange answers at that moment. -/
structure ExchangeClient where
  GetLatestPrice : Nat → String → Result float64
  GetKlines : Nat → String → String → Int → Result (List Kline)
  GetTopVolumeTickers : Nat → Int → Result (List Ticker)

/-- The interactions of a pass with the outside, in the order they happen. -/
inductive Event where
  | tickers (exchangeName : String) (limit : Int)
  | ctxCheck (exchangeName symbol : String)
  | latestPrice (exchangeName symbol : String)
  | upsert (price : ExchangePrice) (failed : Bool)
  | klines (exchangeName symbol interval : String) (limit : Int)
  | alert (exchangeName symbol : String)
      (latestPrice averagePrice dropPercentage thresholdPercent : float64) (failed : Bool)
  | delay (exchangeName : String) (duration : Int)
  deriving Repr, DecidableEq

/-- State of a pass: the interactions so far and the table of exchange
prices. -/
structure World where
  trace : List Event
  store : List ExchangePrice
  deriving Repr, DecidableEq

/-- The step of the next interaction. -/
def World.clock (w : World) : Nat := w.trace.length

/-- Record one more interaction. -/
def World.log (w : World) (e : Event) : World :=
  { w with trace := w.trace ++ [e] }

/-- The outside of a pass, by step: whether `ctx.Done()` is closed, the error
`ctx.Err()` then returns, `time.Now().UnixMilli()`, the database session and
the error of the notifier (`none` for nil). -/
structure Env where
  ctxDone : Nat → Bool
  ctxErr : String
  now : Nat → Int
  db : Nat → repository.DbCall
  notifier : Nat → Option String

/-- The fields of `PriceMonitorService` that `RunMonitor` reads.
`exchangeClients` lists the entries of the map in the order `range` visits
them in this pass. -/
structure PriceMonitorService where
  exchangeClients : List (String × ExchangeClient)
  defaultThreshold : float64
  topNSymbols : Int
  apiRequestDelay : Int

/-- `PriceMonitorService.CalculateAveragePrice`. -/
def CalculateAveragePrice (prices : List float64) : float64 :=
  if prices.length = 0 then 0
  else prices.foldl (fun sum price => sum + price) 0 / (prices.length : float64)

/-- `PriceMonitorService.FetchAndStorePrice`. -/
def FetchAndStorePrice (env : Env) (client : ExchangeClient) (symbol exchangeName : String)
    (w : World) : World × Result float64 :=
  match client.GetLatestPrice w.clock symbol with
  | .panic m => (w.log (.latestPrice exchangeName symbol), .panic m)
  | .error err =>
    (w.log (.latestPrice exchangeName symbol),
      .error ("failed to get latest price for " ++ symbol ++ " from " ++ exchangeName ++ ": " ++ err))
  | .ok price =>
    let w1 := w.log (.latestPrice exchangeName symbol)
    let exchangePrice : ExchangePrice :=
      { Symbol := symbol, Exchange := exchangeName, Price := price, Timestamp := env.now w1.clock }
    match repository.UpsertExchangePrice (env.db w1.clock) w1.store exchangePrice with
    | (store, some err) =>
      ({ trace := w1.trace ++ [.upsert exchangePrice true], store := store },
        .error ("failed to upsert exchange price: " ++ err))
    | (store, none) =>
      ({ trace := w1.trace ++ [.upsert exchangePrice false], store := store }, .ok price)

/-- How one iteration of the ticker loop of `RunMonitor` ends after the
cancellation check: by a `continue`, by reaching the delay at the end of the
body, or by a panic of a client. -/
inductive Step where
  | continue_
  | reachedDelay
  | panic (msg : String)
  deriving Repr, DecidableEq

/-- The body of the ticker loop of `RunMonitor` from `symbol := ticker.Symbol`
to the end of the alert block. -/
def processTicker (env : Env) (s : PriceMonitorService) (exchangeName : String)
    (client : ExchangeClient) (ticker : Ticker) (w : World) : World × Step :=
  let symbol := ticker.Symbol
  match FetchAndStorePrice env client symbol exchangeName w with
  | (w1, .panic m) => (w1, .panic m)
  | (w1, .error _) => (w1, .continue_)
  | (w1, .ok latestPrice) =>
    let w2 := w1.log (.klines exchangeName symbol KlineInterval KlineLimit)
    match client.GetKlines w1.clock symbol KlineInterval KlineLimit with
    | .panic m => (w2, .panic m)
    | .error _ => (w2, .continue_)
    | .ok klines =>
      if klines.length = 0 then (w2, .continue_)
      else
        let closePrices := klines.map (fun kline => kline.Close)
        let averagePrice := CalculateAveragePrice closePrices
        if averagePrice > 0 ∧ latestPrice < averagePrice * (1 - s.defaultThreshold) then
          let dropPercentage := (1 - latestPrice / averagePrice) * 100
          (w2.log (.alert exchangeName symbol latestPrice averagePrice dropPercentage
            (s.defaultThreshold * 100) (env.notifier w2.clock).isSome), .reachedDelay)
        else (w2, .reachedDelay)

/-- How `RunMonitor` ends: `return nil`, `return ctx.Err()`, or a panic. -/
inductive Exit where
  | nil
  | err (msg : String)
  | panic (msg : String)
  deriving Repr, DecidableEq

/-- The loop `for i, ticker := range tickers` of `RunMonitor`, from index `i`
on; `len` is `len(tickers)`. -/
def tickerLoop (env : Env) (s : PriceMonitorService) (exchangeName : String)
    (client : ExchangeClient) (len : Nat) : Nat → List Ticker → World → World × Exit
  | _, [], w => (w, .nil)
  | i, ticker :: rest, w =>
    if env.ctxDone w.clock then (w, .err env.ctxErr)
    else
      match processTicker env s exchangeName client ticker
          (w.log (.ctxCheck exchangeName ticker.Symbol)) with
      | (w1, .panic m) => (w1, .panic m)
      | (w1, .continue_) => tickerLoop env s exchangeName client len (i + 1) rest w1
      | (w1, .reachedDelay) =>
        if s.apiRequestDelay > 0 ∧ (i : Int) < (len : Int) - 1 then
          if env.ctxDone w1.clock then (w1, .err env.ctxErr)
          else tickerLoop env s exchangeName client len (i + 1) rest
            (w1.log (.delay exchangeName s.apiRequestDelay))
        else tickerLoop env s exchangeName client len (i + 1) rest w1

/-- The loop `for exchangeName, client := range s.exchangeClients` of
`RunMonitor`. -/
def exchangeLoop (env : Env) (s : PriceMonitorService) :
    List (String × ExchangeClient) → World → World × Exit
  | [], w => (w, .nil)
  | (exchangeName, client) :: rest, w =>
    let w1 := w.log (.tickers exchangeName s.topNSymbols)
    match client.GetTopVolumeTickers w.clock s.topNSymbols with
    | .panic m => (w1, .panic m)
    | .error _ => exchangeLoop env s rest w1
    | .ok tickers =>
      if tickers.length = 0 then exchangeLoop env s rest w1
      else
        match tickerLoop env s exchangeName client tickers.length 0 tickers w1 with
        | (w2, .nil) => exchangeLoop env s rest w2
        | (w2, exit) => (w2, exit)

/-- `PriceMonitorService.RunMonitor`. -/
def RunMonitor (env : Env) (s : PriceMonitorService) (w : World) : World × Exit :=
  exchangeLoop env s s.exchangeClients w

end service

/-! ## Concrete passes -/

namespace demo

open exchange model service

/-- A candle with the given close. -/
def kline (close : float64) : Kline :=
  { OpenTime := 0, Open := close, High := close, Low := close, Close := close, Volume := 1,
    CloseTime := 0 }

/-- A client that ranks BTCUSDT alone, quotes `price` for it and returns one
candle per element of `closes`. -/
def client (price : float64) (closes : List float64) : ExchangeClient :=
  { GetLatestPrice := fun _ _ => .ok price
    GetKlines := fun _ _ _ _ => .ok (closes.map kline)
    GetTopVolumeTickers := fun _ _ => .ok [{ Symbol := "BTCUSDT", Price := price, Volume := 1 }] }

/-- An outside in which the context is never cancelled and nothing fails. -/
def env : Env :=
  { ctxDone := fun _ => false
    ctxErr := "context canceled"
    now := fun _ => 1700000000000
    db := fun k => { now := 1700000000000000000, newID := k + 1, failure := none }
    notifier := fun _ => none }

/-- A service with one exchange and the threshold 0.20. -/
def svc (c : ExchangeClient) (delay : Int) : PriceMonitorService :=
  { exchangeClients := [("BINANCE", c)], defaultThreshold := 0.2, topNSymbols := 10,
    apiRequestDelay := delay }

/-- The start of a pass on an empty table. -/
def start : World := { trace := [], store := [] }

/-- The ticker of BTCUSDT. -/
def btc : Ticker := { Symbol := "BTCUSDT", Price := 1, Volume := 1 }

/-- A client whose price and candle requests fail once the context is
cancelled, as requests built with `http.NewRequestWithContext` do. -/
def cancelledClient : ExchangeClient :=
  { GetLatestPrice := fun _ _ => .error "context canceled"
    GetKlines := fun _ _ _ _ => .error "context canceled"
    GetTopVolumeTickers := fun _ _ => .ok [btc] }

/-- An outside whose context is cancelled from step 2 on. -/
def cancelledEnv : Env :=
  { env with ctxDone := fun k => decide (2 ≤ k) }

end demo

/-- A decimal reader standing in for `strconv.ParseFloat` on digit strings. -/
def parseDigits (s : String) : Option float64 :=
  if s.data = [] ∨ s.data.any (fun c => !c.isDigit) then none
  else some (float64.ofNat (s.data.foldl (fun n c => 10 * n + (c.toNat - 48)) 0))

/-- A reader standing in for `strconv.ParseFloat` on digit strings and on
"NaN", which `strconv.ParseFloat` reads as NaN with a nil error. -/
def parseDigitsOrNaN (s : String) : Option float64 :=
  if s = "NaN" then some .NaN else parseDigits s

/-- A reader of decimal digit strings standing in for
`strconv.ParseInt(·, 10, 64)`. -/
def parseIntDigits (s : String) : Option Int :=
  if s.data = [] ∨ s.data.any (fun c => !c.isDigit) then none
  else some ((s.data.foldl (fun n c => 10 * n + (c.toNat - 48)) 0 : Nat) : Int)

/-! ## Sequencing -/

/-- Sequencing of calls that may fail: the first error or panic ends the
computation. -/
def Result.bind {α β : Type} (r : Result α) (f : α → Result β) : Result β :=
  match r with
  | .ok a => f a
  | .error e => .error e
  | .panic m => .panic m

/-- A loop `for _, x := range xs` that appends `f x` to a slice and returns at
the first error or panic. -/
def collect {α β : Type} (f : α → Result β) : List α → Result (List β)
  | [] => .ok []
  | x :: xs => (f x).bind fun y => (collect f xs).bind fun ys => .ok (y :: ys)

/-! ## Machine integers -/

/-- The value of an `int64` computation whose exact result is `x`: Go wraps
around on overflow. -/
def wrap64 (x : Int) : Int :=
  (x + 9223372036854775808) % 18446744073709551616 - 9223372036854775808

/-- The Go conversion `int64(x)` of a `float64`: the fraction is discarded.
(For NaN, the infinities and values outside the range of `int64` Go leaves the
result to the implementation; the model gives the smallest `int64`, as amd64
does.) -/
def int64OfFloat : float64 → Int
  | .finite negative units =>
    if units / float64.one < 9223372036854775808 then
      (if negative then -((units / float64.one : Nat) : Int) else ((units / float64.one : Nat) : Int))
    else -9223372036854775808
  | _ => -9223372036854775808

namespace time

/-- Go `time.Unix(sec, nsec)`. -/
def Unix (sec nsec : Int) : Time := sec * Second + nsec

/-- Go `t.AddDate(0, 0, days)` for a time in UTC, where every day has 24
hours. -/
def AddDays (t : Time) (days : Int) : Time := t + days * (24 * Hour)

end time

/-! ## Package `exchange`: candles and latest price -/

namespace exchange

/-- `binanceAPIURL` of `binance.go`. -/
def binanceAPIURL : String := "https://api.binance.com/api/v3"

/-- `okexAPIURL` of `okex.go`. -/
def okexAPIURL : String := "https://www.okx.com/api/v5/market"

/-- What `json.Unmarshal` stores in an `interface{}`: a `float64` for a JSON
number, a `string` for a JSON string, and values of other types (bool, nil,
slices, maps). -/
inductive JsonValue where
  | number (v : float64)
  | string (s : String)
  | other
  deriving Repr, DecidableEq

/-- The expression `rawKline[i].(float64)` with its `ok` check in
`BinanceClient.GetKlines`: indexing past the end panics, another type gives
the error `msg`. -/
def BinanceClient.float64At (rawKline : List JsonValue) (i : Nat) (msg : String) : Result float64 :=
  match rawKline[i]? with
  | none => .panic "index out of range"
  | some (.number v) => .ok v
  | some _ => .error msg

/-- The expression `strconv.ParseFloat(rawKline[i].(string), 64)` with its
error discarded: indexing past the end and a value that is no string panic, a
string that does not parse gives 0. -/
def BinanceClient.parsedAt (ParseFloat : String → Option float64) (rawKline : List JsonValue)
    (i : Nat) : Result float64 :=
  match rawKline[i]? with
  | none => .panic "index out of range"
  | some (.string s) => .ok ((ParseFloat s).getD 0)
  | some _ => .panic "interface conversion: the value is not a string"

/-- Body of the loop of `BinanceClient.GetKlines` for one raw candle. -/
def BinanceClient.klineOfRaw (ParseFloat : String → Option float64) (rawKline : List JsonValue) :
    Result Kline :=
  (BinanceClient.float64At rawKline 0 "invalid open time type").bind fun openTimeMs =>
  (BinanceClient.parsedAt ParseFloat rawKline 1).bind fun open_ =>
  (BinanceClient.parsedAt ParseFloat rawKline 2).bind fun high =>
  (BinanceClient.parsedAt ParseFloat rawKline 3).bind fun low =>
  (BinanceClient.parsedAt ParseFloat rawKline 4).bind fun close =>
  (BinanceClient.parsedAt ParseFloat rawKline 5).bind fun volume =>
  (BinanceClient.float64At rawKline 6 "invalid close time type").bind fun closeTimeMs =>
  .ok { OpenTime := time.Unix 0 (wrap64 (int64OfFloat openTimeMs * time.Millisecond))
        Open := open_, High := high, Low := low, Close := close, Volume := volume
        CloseTime := time.Unix 0 (wrap64 (int64OfFloat closeTimeMs * time.Millisecond)) }

/-- `BinanceClient.GetKlines`; `send` is the HTTP round trip for a URL. -/
def BinanceClient.GetKlines (ParseFloat : String → Option float64)
    (send : String → HttpReply (List (List JsonValue))) (symbol interval : String)
    (limit : Int) : Result (List Kline) :=
  let url := binanceAPIURL ++ "/klines?symbol=" ++ symbol ++ "&interval=" ++ interval ++
    "&limit=" ++ toString limit
  match send url with
  | .requestError e => .error ("failed to create request: " ++ e)
  | .sendError e => .error ("failed to send request: " ++ e)
  | .answered code status body =>
    if code ≠ StatusOK then .error ("binance API returned non-OK status: " ++ status)
    else
      match body with
      | .readError e => .error ("failed to read response body: " ++ e)
      | .unmarshalError e => .error ("failed to unmarshal klines response: " ++ e)
      | .decoded rawKlines => collect (BinanceClient.klineOfRaw ParseFloat) rawKlines

/-- The `response` struct of `BinanceClient.GetLatestPrice`. -/
structure BinancePriceResponse where
  Symbol : String
  Price : String
  deriving Repr, DecidableEq

/-- `BinanceClient.GetLatestPrice`. -/
def BinanceClient.GetLatestPrice (ParseFloat : String → Option float64)
    (send : String → HttpReply BinancePriceResponse) (symbol : String) : Result float64 :=
  let url := binanceAPIURL ++ "/ticker/price?symbol=" ++ symbol
  match send url with
  | .requestError e => .error ("failed to create request: " ++ e)
  | .sendError e => .error ("failed to send request: " ++ e)
  | .answered code status body =>
    if code ≠ StatusOK then .error ("binance API returned non-OK status: " ++ status)
    else
      match body with
      | .readError e => .error ("failed to read response body: " ++ e)
      | .unmarshalError e => .error ("failed to unmarshal response: " ++ e)
      | .decoded response =>
        match ParseFloat response.Price with
        | none => .error "failed to parse price"
        | some price => .ok price

/-- Element type of `response.Data` in `OKEXClient.GetLatestPrice`. -/
structure OKEXPriceEntry where
  InstId : String
  Last : String
  deriving Repr, DecidableEq

/-- The `response` struct of `OKEXClient.GetLatestPrice`. -/
structure OKEXPriceResponse where
  Code : String
  Msg : String
  Data : List OKEXPriceEntry
  deriving Repr, DecidableEq

/-- `OKEXClient.GetLatestPrice`. Reading `response.Data[0]` of an empty list
would panic. -/
def OKEXClient.GetLatestPrice (ParseFloat : String → Option float64)
    (send : String → HttpReply OKEXPriceResponse) (symbol : String) : Result float64 :=
  let instId := OKEXClient.instId symbol
  let url := okexAPIURL ++ "/tickers?instType=SPOT&instId=" ++ instId
  match send url with
  | .requestError e => .error ("failed to create request: " ++ e)
  | .sendError e => .error ("failed to send request: " ++ e)
  | .answered code status body =>
    if code ≠ StatusOK then .error ("OKEX API returned non-OK status: " ++ status)
    else
      match body with
      | .readError e => .error ("failed to read response body: " ++ e)
      | .unmarshalError e => .error ("failed to unmarshal response: " ++ e)
      | .decoded response =>
        if response.Code ≠ "0" ∨ response.Data.length = 0 then
          .error ("OKEX API error: " ++ response.Code ++ " - " ++ response.Msg)
        else
          match response.Data[0]? with
          | none => .panic "index out of range"
          | some entry =>
            match ParseFloat entry.Last with
            | none => .error "failed to parse price"
            | some price => .ok price

/-- The map `okexInterval` of `OKEXClient.GetKlines`. -/
def OKEXClient.okexInterval (interval : String) : Option String :=
  [("1m", "1m"), ("5m", "5m"), ("15m", "15m"), ("30m", "30m"), ("1h", "1H"), ("4h", "4H"),
    ("1d", "1D")].lookup interval

/-- The `response` struct of `OKEXClient.GetKlines`. -/
structure OKEXKlinesResponse where
  Code : String
  Msg : String
  Data : List (List String)
  deriving Repr, DecidableEq

/-- The expression `rawKline[i]` on a `[]string`: indexing past the end
panics. -/
def OKEXClient.fieldAt (rawKline : List String) (i : Nat) : Result String :=
  match rawKline[i]? with
  | none => .panic "index out of range"
  | some s => .ok s

/-- Body of the loop of `OKEXClient.GetKlines` for one raw candle; the errors of
`strconv.ParseInt` and `strconv.ParseFloat` are discarded, a field that does not
parse gives 0. -/
def OKEXClient.klineOfRaw (ParseInt : String → Option Int) (ParseFloat : String → Option float64)
    (rawKline : List String) : Result Kline :=
  (OKEXClient.fieldAt rawKline 0).bind fun f0 =>
  (OKEXClient.fieldAt rawKline 1).bind fun f1 =>
  (OKEXClient.fieldAt rawKline 2).bind fun f2 =>
  (OKEXClient.fieldAt rawKline 3).bind fun f3 =>
  (OKEXClient.fieldAt rawKline 4).bind fun f4 =>
  (OKEXClient.fieldAt rawKline 5).bind fun f5 =>
  let openTimeMs := (ParseInt f0).getD 0
  .ok { OpenTime := time.Unix 0 (wrap64 (openTimeMs * time.Millisecond))
        Open := (ParseFloat f1).getD 0, High := (ParseFloat f2).getD 0
        Low := (ParseFloat f3).getD 0, Close := (ParseFloat f4).getD 0
        Volume := (ParseFloat f5).getD 0
        CloseTime := time.Unix 0 (wrap64 (openTimeMs * time.Millisecond)) }

/-- `OKEXClient.GetKlines`; `send` is the HTTP round trip for a URL. -/
def OKEXClient.GetKlines (ParseInt : String → Option Int) (ParseFloat : String → Option float64)
    (send : String → HttpReply OKEXKlinesResponse) (symbol interval : String) (limit : Int) :
    Result (List Kline) :=
  match OKEXClient.okexInterval interval with
  | none => .error ("unsupported interval for OKEX: " ++ interval)
  | some mappedInterval =>
    let instId := OKEXClient.instId symbol
    let url := okexAPIURL ++ "/candles?instId=" ++ instId ++ "&bar=" ++ mappedInterval ++
      "&limit=" ++ toString limit
    match send url with
    | .requestError e => .error ("failed to create request: " ++ e)
    | .sendError e => .error ("failed to send request: " ++ e)
    | .answered code status body =>
      if code ≠ StatusOK then .error ("OKEX API returned non-OK status: " ++ status)
      else
        match body with
        | .readError e => .error ("failed to read response body: " ++ e)
        | .unmarshalError e => .error ("failed to unmarshal klines response: " ++ e)
        | .decoded response =>
          if response.Code ≠ "0" then
            .error ("OKEX API error: " ++ response.Code ++ " - " ++ response.Msg)
          else collect (OKEXClient.klineOfRaw ParseInt ParseFloat) response.Data

end exchange

/-! ## Package `repository`: the average -/

namespace repository

open model

/-- The rows the query of `GetAveragePriceForLastNDays` selects: GORM adds
`deleted_at IS NULL` for a model with a `DeletedAt` field, and the `Where`
clause is `symbol = ? AND exchange = ? AND date >= ?`. -/
def selected (timeThreshold : time.Time) (symbol exchange : String) (r : ExchangePrice) : Bool :=
  decide (r.DeletedAt = none ∧ r.Symbol = symbol ∧ r.Exchange = exchange ∧
    r.Date ≥ timeThreshold)

/-- SQL `AVG(price)`: NULL (`none`) over no rows. -/
def avgPrice (rows : List ExchangePrice) : Option float64 :=
  if rows.length = 0 then none
  else some ((rows.map (fun r => r.Price)).sum / (rows.length : float64))

/-- `exchangePriceRepository.GetAveragePriceForLastNDays`: the value and the
error returned (`none` for nil). `now` is `time.Now()`, `failure` the error of
the session if the query fails. `Row().Scan(&avgPrice)` into a `float64`
refuses a NULL. -/
def GetAveragePriceForLastNDays (now : time.Time) (failure : Option String)
    (table : List ExchangePrice) (symbol exchange : String) (days : Int) : float64 × Option String :=
  let timeThreshold := time.AddDays now (-days)
  match failure with
  | some err => (0, some err)
  | none =>
    match avgPrice (table.filter (selected timeThreshold symbol exchange)) with
    | none => (0, some "sql: Scan error on column index 0: converting NULL to float64 is unsupported")
    | some avg => (avg, none)

end repository

namespace service

/-- An interaction other than a candle request, or a candle request for
`KlineInterval` and `KlineLimit`. -/
def Event.asConfigured : Event → Prop
  | .klines _ _ interval limit => interval = KlineInterval ∧ limit = KlineLimit
  | _ => True

/-- Every interaction of `after` that `before` does not have is as
configured. -/
def OnlyConfigured (before after : World) : Prop :=
  ∀ e ∈ after.trace, e ∈ before.trace ∨ e.asConfigured

end service

namespace demo

open service

/-- An outside like `env` whose database session refuses every statement. -/
def dbDownEnv : Env :=
  { env with db := fun k => { now := 1700000000000000000, newID := k + 1,
                              failure := some "connection refused" } }

/-- An outside like `env` whose notifier fails on every call. -/
def notifierDownEnv : Env :=
  { env with notifier := fun _ => some "dingtalk API returned non-OK status: 500" }

end demo

namespace service

/-- An interaction other than an alert, or an alert that reports what the body
of the loop computes under `threshold`: the test of its `if` holds for the
latest price and the mean reported, the drop reported is `(1 - latestPrice /
averagePrice) * 100` and the threshold reported is `threshold * 100`, all in
`float64` arithmetic. -/
def Event.alertAsComputed (threshold : float64) : Event → Prop
  | .alert _ _ price averagePrice dropPercentage thresholdPercent _ =>
    averagePrice > 0 ∧ price < averagePrice * (1 - threshold) ∧
      dropPercentage = (1 - price / averagePrice) * 100 ∧
      thresholdPercent = threshold * 100
  | _ => True

/-- Every alert of `after` that `before` does not have is as computed under
`threshold`. -/
def OnlyComputedAlerts (threshold : float64) (before after : World) : Prop :=
  ∀ e ∈ after.trace, e ∈ before.trace ∨ e.alertAsComputed threshold

end service

namespace demo

open exchange service

/-- The ticker of ETHUSDT. -/
def eth : Ticker := { Symbol := "ETHUSDT", Price := 1, Volume := 1 }

/-- A client that ranks BTCUSDT before ETHUSDT, fails every price request for
BTCUSDT, quotes 79 for every other symbol and returns one candle closing at
79. -/
def flakyClient : ExchangeClient :=
  { GetLatestPrice := fun _ symbol =>
      if symbol = "BTCUSDT" then .error "binance API returned non-OK status: 429" else .ok 79
    GetKlines := fun _ _ _ _ => .ok [kline 79]
    GetTopVolumeTickers := fun _ _ => .ok [btc, eth] }

/-- A client that ranks BTCUSDT before ETHUSDT and answers every request. -/
def steadyClient : ExchangeClient :=
  { GetLatestPrice := fun _ _ => .ok 79
    GetKlines := fun _ _ _ _ => .ok [kline 79]
    GetTopVolumeTickers := fun _ _ => .ok [btc, eth] }

end demo

/-! ## Packages `job` and `server` -/

namespace job

open service

end job

namespace server

open service model

/-- The fields of `TaskServer` that `Start` and `Stop` use: `timeoutSeconds` is
`conf.GetInt("price_monitor.timeout_seconds")`, `scheduler` the pointer field
(`none` for nil, otherwise the identity of a `gocron.Scheduler`). -/
structure TaskServer where
  timeoutSeconds : Int
  scheduler : Option Nat
  priceMonitorJob : PriceMonitorService

/-- `NewTaskServer`: the struct literal sets `log`, `conf`, `userTask` and
`priceMonitorJob` and leaves `scheduler` at its zero value, nil. -/
def NewTaskServer (timeoutSeconds : Int) (priceMonitorJob : PriceMonitorService) : TaskServer :=
  { timeoutSeconds := timeoutSeconds, scheduler := none, priceMonitorJob := priceMonitorJob }

/-- The process as `Start` and `Stop` see it: the server, and the schedulers
`gocron.NewScheduler` has built so far, each with its running flag; a
scheduler is identified by its position. -/
structure Process where
  server : TaskServer
  schedulers : List Bool

/-- `TaskServer.Start` up to `s.StartAsync()`: the scheduler `s` is built, the
job registered (`doErr` is the error of `Do`) and `s` started. Returns the
process, `s`, and the error `Start` returns at once, if any. -/
def Start.launch (p : Process) (doErr : Option String) : Process × Nat × Option String :=
  let s := p.schedulers.length
  match doErr with
  | some err => ({ p with schedulers := p.schedulers ++ [false] }, s, some err)
  | none => ({ p with schedulers := p.schedulers ++ [true] }, s, none)

/-- `TaskServer.Start` after `<-ctx.Done()`: `s.Stop()`, then `return nil`. -/
def Start.finish (p : Process) (s : Nat) : Process × Option String :=
  ({ p with schedulers := p.schedulers.set s false }, none)

/-- `TaskServer.Stop`: `t.scheduler.Stop()` dereferences the field; on a nil
pointer that panics. -/
def Stop (p : Process) : Process × Result Unit :=
  match p.server.scheduler with
  | none => (p, .panic "invalid memory address or nil pointer dereference")
  | some s => ({ p with schedulers := p.schedulers.set s false }, .ok ())

end server

namespace demo

open service server

end demo

namespace demo

open exchange service

end demo

/-! # Theorems -/

open exchange strings model repository service

/-! ## Sorting -/

theorem float64.lt_iff (a b : float64) :
    a < b ↔ ∃ x y, a.position = some x ∧ b.position = some y ∧ x < y := by
  show float64.lt a b = true ↔ _
  unfold float64.lt
  cases ha : a.position <;> cases hb : b.position <;> simp

theorem float64.le_iff (a b : float64) :
    a ≤ b ↔ ∃ x y, a.position = some x ∧ b.position = some y ∧ x ≤ y := by
  show float64.le a b = true ↔ _
  unfold float64.le
  cases ha : a.position <;> cases hb : b.position <;> simp

theorem float64.position_of_ne_NaN {a : float64} (h : a ≠ .NaN) : ∃ x, a.position = some x := by
  cases a with
  | NaN => exact absurd rfl h
  | Inf s => cases s <;> exact ⟨_, rfl⟩
  | finite s u => cases s <;> exact ⟨_, rfl⟩

theorem float64.le_of_lt {a b : float64} (h : a < b) : a ≤ b := by
  obtain ⟨x, y, hx, hy, hxy⟩ := (float64.lt_iff a b).1 h
  exact (float64.le_iff a b).2 ⟨x, y, hx, hy, Int.le_of_lt hxy⟩

theorem float64.le_of_not_lt {a b : float64} (ha : a ≠ .NaN) (hb : b ≠ .NaN) (h : ¬ b < a) :
    a ≤ b := by
  obtain ⟨x, hx⟩ := float64.position_of_ne_NaN ha
  obtain ⟨y, hy⟩ := float64.position_of_ne_NaN hb
  refine (float64.le_iff a b).2 ⟨x, y, hx, hy, ?_⟩
  by_contra hxy
  exact h ((float64.lt_iff b a).2 ⟨y, x, hy, hx, not_le.1 hxy⟩)

theorem float64.le_trans {a b c : float64} (h1 : a ≤ b) (h2 : b ≤ c) : a ≤ c := by
  obtain ⟨x, y, hx, hy, hxy⟩ := (float64.le_iff a b).1 h1
  obtain ⟨y1, z, hy1, hz, hyz⟩ := (float64.le_iff b c).1 h2
  rw [hy] at hy1
  cases hy1
  exact (float64.le_iff a c).2 ⟨x, z, hx, hz, Int.le_trans hxy hyz⟩

theorem float64.not_lt_of_le {a b : float64} (h : a ≤ b) : ¬ b < a := by
  intro hlt
  obtain ⟨x, y, hx, hy, hxy⟩ := (float64.le_iff a b).1 h
  obtain ⟨y1, x1, hy1, hx1, hyx⟩ := (float64.lt_iff b a).1 hlt
  rw [hx] at hx1
  rw [hy] at hy1
  cases hx1
  cases hy1
  omega

theorem insertLeftwards_perm {α : Type} (less : α → α → Bool) (x : α) (l : List α) :
    (insertLeftwards less x l).Perm (x :: l) := by
  induction l with
  | nil => exact List.Perm.refl _
  | cons y ys ih =>
    unfold insertLeftwards
    split_ifs
    · exact ((List.Perm.cons y ih).trans (List.Perm.swap x y ys))
    · exact List.Perm.refl _

theorem foldl_insertLeftwards_perm {α : Type} (less : α → α → Bool) (x : List α) :
    ∀ sortedPart : List α,
      (x.foldl (fun sortedPart a => insertLeftwards less a sortedPart) sortedPart).Perm
        (x ++ sortedPart) := by
  induction x with
  | nil => intro sortedPart; exact List.Perm.refl _
  | cons a l ih =>
    intro sortedPart
    rw [List.foldl_cons]
    refine (ih _).trans ?_
    refine (List.Perm.append_left l (insertLeftwards_perm less a sortedPart)).trans ?_
    exact List.perm_middle

theorem sortSlice_perm {α : Type} (less : α → α → Bool) (x : List α) :
    (sortSlice less x).Perm x := by
  unfold sortSlice
  refine (List.reverse_perm _).trans ?_
  simpa using foldl_insertLeftwards_perm less x []

theorem volume_insertLeftwards (a : Ticker) (l : List Ticker) (ha : a.Volume ≠ .NaN)
    (hl : ∀ t ∈ l, t.Volume ≠ .NaN)
    (h : l.Pairwise (fun x y => x.Volume ≤ y.Volume)) :
    (insertLeftwards volumeLess a l).Pairwise (fun x y => x.Volume ≤ y.Volume) := by
  induction l with
  | nil => simp [insertLeftwards]
  | cons b l ih =>
    rw [List.pairwise_cons] at h
    unfold insertLeftwards
    by_cases hab : volumeLess a b = true
    · rw [if_pos hab]
      have hab' : b.Volume < a.Volume := by simpa [volumeLess] using hab
      refine List.pairwise_cons.2
        ⟨?_, ih (fun t ht => hl t (List.mem_cons_of_mem _ ht)) h.2⟩
      intro y hy
      rcases List.mem_cons.1 ((insertLeftwards_perm volumeLess a l).mem_iff.1 hy) with rfl | hy
      · exact float64.le_of_lt hab'
      · exact h.1 y hy
    · rw [if_neg hab]
      have hab' : a.Volume ≤ b.Volume :=
        float64.le_of_not_lt ha (hl b (List.mem_cons_self _ _))
          (by simpa [volumeLess] using hab)
      refine List.pairwise_cons.2 ⟨?_, List.pairwise_cons.2 h⟩
      intro y hy
      rcases List.mem_cons.1 hy with rfl | hy
      · exact hab'
      · exact float64.le_trans hab' (h.1 y hy)

theorem foldl_volume_sorted (x : List Ticker) (hx : ∀ t ∈ x, t.Volume ≠ .NaN) :
    ∀ sortedPart : List Ticker, (∀ t ∈ sortedPart, t.Volume ≠ .NaN) →
      sortedPart.Pairwise (fun x y => x.Volume ≤ y.Volume) →
      (x.foldl (fun sortedPart a => insertLeftwards volumeLess a sortedPart)
        sortedPart).Pairwise (fun x y => x.Volume ≤ y.Volume) := by
  induction x with
  | nil => intro sortedPart _ h; exact h
  | cons a l ih =>
    intro sortedPart hs h
    rw [List.foldl_cons]
    refine ih (fun t ht => hx t (List.mem_cons_of_mem _ ht)) _ ?_
      (volume_insertLeftwards a sortedPart (hx a (List.mem_cons_self _ _)) hs h)
    intro t ht
    rcases List.mem_cons.1 ((insertLeftwards_perm volumeLess a sortedPart).mem_iff.1 ht)
      with rfl | ht
    · exact hx _ (List.mem_cons_self _ _)
    · exact hs t ht

theorem sortSlice_volume_sorted (x : List Ticker) (hx : ∀ t ∈ x, t.Volume ≠ .NaN) :
    (sortSlice volumeLess x).Pairwise (fun a b => a.Volume ≥ b.Volume) := by
  unfold sortSlice
  rw [List.pairwise_reverse]
  exact foldl_volume_sorted x hx [] (by simp) List.Pairwise.nil

theorem topN_sorted {tickers : List Ticker} {limit : Int} {l : List Ticker}
    (hx : ∀ t ∈ tickers, t.Volume ≠ .NaN)
    (h : topN tickers limit = .ok l) : l.Pairwise (fun a b => a.Volume ≥ b.Volume) := by
  unfold topN at h
  simp only at h
  split_ifs at h with h1 h2
  · cases h
    exact (sortSlice_volume_sorted tickers hx).sublist (List.take_sublist _ _)
  · cases h
    exact sortSlice_volume_sorted tickers hx

theorem topN_mem {tickers : List Ticker} {limit : Int} {l : List Ticker}
    (h : topN tickers limit = .ok l) {t : Ticker} (ht : t ∈ l) : t ∈ tickers := by
  unfold topN at h
  simp only at h
  split_ifs at h with h1 h2
  · cases h
    exact (sortSlice_perm _ _).mem_iff.1 (List.mem_of_mem_take ht)
  · cases h
    exact (sortSlice_perm _ _).mem_iff.1 ht

theorem topN_length (tickers : List Ticker) (limit : Int) (h : 0 ≤ limit) :
    ∃ l, topN tickers limit = .ok l ∧ (l.length : Int) = min limit (tickers.length : Int) := by
  have hlen : (sortSlice volumeLess tickers).length = tickers.length :=
    (sortSlice_perm _ _).length_eq
  unfold topN
  simp only
  split_ifs with h1 h2
  · omega
  · refine ⟨_, rfl, ?_⟩
    rw [List.length_take, hlen] at *
    omega
  · refine ⟨_, rfl, ?_⟩
    rw [hlen] at *
    omega

/-! ## Ranking of tickers -/

theorem binance_tickerOfRaw_isSome (ParseFloat : String → Option float64) (raw : BinanceRawTicker) :
    (BinanceClient.tickerOfRaw ParseFloat raw).isSome = BinanceClient.eligible ParseFloat raw := by
  unfold BinanceClient.tickerOfRaw BinanceClient.eligible
  cases ParseFloat raw.LastPrice <;> cases ParseFloat raw.Volume <;>
    cases HasSuffix raw.Symbol "USDT" <;> simp

theorem okex_tickerOfRaw_isSome (ParseFloat : String → Option float64) (raw : OKEXRawTicker) :
    (OKEXClient.tickerOfRaw ParseFloat raw).isSome = OKEXClient.eligible ParseFloat raw := by
  unfold OKEXClient.tickerOfRaw OKEXClient.eligible
  cases ParseFloat raw.LastPrice <;> cases ParseFloat raw.Vol24h <;>
    cases HasSuffix raw.InstID "-USDT" <;> simp

theorem length_filterMap_isSome {α β : Type} (f : α → Option β) (p : α → Bool)
    (h : ∀ a, (f a).isSome = p a) (l : List α) :
    (l.filterMap f).length = (l.filter p).length := by
  induction l with
  | nil => rfl
  | cons a l ih =>
    have ha := h a
    cases hf : f a with
    | none =>
      rw [hf] at ha
      simp [List.filterMap_cons, hf, List.filter_cons, ← ha, ih]
    | some b =>
      rw [hf] at ha
      simp [List.filterMap_cons, hf, List.filter_cons, ← ha, ih]

theorem binance_tickerOfRaw_some {ParseFloat : String → Option float64} {raw : BinanceRawTicker}
    {t : Ticker} (h : BinanceClient.tickerOfRaw ParseFloat raw = some t) :
    HasSuffix raw.Symbol "USDT" = true ∧ t.Symbol = raw.Symbol ∧
      ParseFloat raw.LastPrice = some t.Price ∧ ParseFloat raw.Volume = some t.Volume := by
  unfold BinanceClient.tickerOfRaw at h
  cases hp : ParseFloat raw.LastPrice with
  | none => simp [hp] at h
  | some price =>
    cases hv : ParseFloat raw.Volume with
    | none => simp [hp, hv] at h
    | some volume =>
      cases hs : HasSuffix raw.Symbol "USDT" with
      | false => simp [hp, hv, hs] at h
      | true =>
        simp [hp, hv, hs] at h
        subst h
        simp

theorem okex_tickerOfRaw_some {ParseFloat : String → Option float64} {raw : OKEXRawTicker}
    {t : Ticker} (h : OKEXClient.tickerOfRaw ParseFloat raw = some t) :
    HasSuffix raw.InstID "-USDT" = true ∧ t.Symbol = ReplaceAll raw.InstID "-" "" ∧
      ParseFloat raw.LastPrice = some t.Price ∧ ParseFloat raw.Vol24h = some t.Volume := by
  unfold OKEXClient.tickerOfRaw at h
  cases hp : ParseFloat raw.LastPrice with
  | none => cases hs : HasSuffix raw.InstID "-USDT" <;> simp [hp, hs] at h
  | some price =>
    cases hv : ParseFloat raw.Vol24h with
    | none => cases hs : HasSuffix raw.InstID "-USDT" <;> simp [hp, hv, hs] at h
    | some volume =>
      cases hs : HasSuffix raw.InstID "-USDT" with
      | false => simp [hp, hv, hs] at h
      | true =>
        simp [hp, hv, hs] at h
        subst h
        simp

theorem binance_volume_ne_NaN {ParseFloat : String → Option float64}
    {rawTickers : List BinanceRawTicker}
    (h : ∀ raw ∈ rawTickers, BinanceClient.eligible ParseFloat raw = true →
      ParseFloat raw.Volume ≠ some .NaN) :
    ∀ t ∈ rawTickers.filterMap (BinanceClient.tickerOfRaw ParseFloat), t.Volume ≠ .NaN := by
  intro t ht hnan
  obtain ⟨raw, hraw, hsome⟩ := List.mem_filterMap.1 ht
  have hv := (binance_tickerOfRaw_some hsome).2.2.2
  rw [hnan] at hv
  refine h raw hraw ?_ hv
  rw [← binance_tickerOfRaw_isSome, hsome]
  rfl

theorem okex_volume_ne_NaN {ParseFloat : String → Option float64}
    {data : List OKEXRawTicker}
    (h : ∀ raw ∈ data, OKEXClient.eligible ParseFloat raw = true →
      ParseFloat raw.Vol24h ≠ some .NaN) :
    ∀ t ∈ data.filterMap (OKEXClient.tickerOfRaw ParseFloat), t.Volume ≠ .NaN := by
  intro t ht hnan
  obtain ⟨raw, hraw, hsome⟩ := List.mem_filterMap.1 ht
  have hv := (okex_tickerOfRaw_some hsome).2.2.2
  rw [hnan] at hv
  refine h raw hraw ?_ hv
  rw [← okex_tickerOfRaw_isSome, hsome]
  rfl

/-- C4, counterexample. `strconv.ParseFloat` reads the string "NaN" as NaN with
a nil error. On a 200 reply with the volumes "1", "NaN" and "3" both clients
return the three tickers in the order of the reply, volume 1 first and volume 3
last: every comparison with NaN is false, so the sort moves nothing. -/
theorem GetTopVolumeTickers_unsorted :
    BinanceClient.GetTopVolumeTickers parseDigitsOrNaN
        (.answered StatusOK "200 OK" (.decoded
          [{ Symbol := "AUSDT", LastPrice := "1", Volume := "1" },
           { Symbol := "BUSDT", LastPrice := "1", Volume := "NaN" },
           { Symbol := "CUSDT", LastPrice := "1", Volume := "3" }])) 3 =
      .ok [{ Symbol := "AUSDT", Price := 1, Volume := 1 },
           { Symbol := "BUSDT", Price := 1, Volume := .NaN },
           { Symbol := "CUSDT", Price := 1, Volume := 3 }] ∧
    OKEXClient.GetTopVolumeTickers parseDigitsOrNaN
        (.answered StatusOK "200 OK" (.decoded { Code := "0", Msg := "", Data :=
          [{ InstID := "A-USDT", LastPrice := "1", Vol24h := "1" },
           { InstID := "B-USDT", LastPrice := "1", Vol24h := "NaN" },
           { InstID := "C-USDT", LastPrice := "1", Vol24h := "3" }] })) 3 =
      .ok [{ Symbol := "AUSDT", Price := 1, Volume := 1 },
           { Symbol := "BUSDT", Price := 1, Volume := .NaN },
           { Symbol := "CUSDT", Price := 1, Volume := 3 }] ∧
    ¬ ((1 : float64) ≥ 3) ∧
    ¬ ([{ Symbol := "AUSDT", Price := 1, Volume := 1 },
        { Symbol := "BUSDT", Price := 1, Volume := .NaN },
        { Symbol := "CUSDT", Price := 1, Volume := 3 }] : List Ticker).Pairwise
      (fun a b => a.Volume ≥ b.Volume) := by
  refine ⟨by decide, by decide, by decide, ?_⟩
  intro h
  have h13 := (List.pairwise_cons.1 h).1 { Symbol := "CUSDT", Price := 1, Volume := 3 }
    (by simp)
  revert h13
  decide

/-- C4, amended. When no eligible ticker of the reply has a volume that parses
to NaN, the sequence returned by `GetTopVolumeTickers`, Binance and OKEX, is in
descending order of volume: every ticker's volume is at least that of every
ticker after it, for every decoded reply and every limit; and for a limit
`>= 0` a decodable 200 reply does yield such a sequence. -/
theorem GetTopVolumeTickers_sorted (ParseFloat : String → Option float64) (limit : Int) :
    (∀ code status rawTickers l, (∀ raw ∈ rawTickers, BinanceClient.eligible ParseFloat raw = true →
          ParseFloat raw.Volume ≠ some .NaN) →
        BinanceClient.GetTopVolumeTickers ParseFloat
          (.answered code status (.decoded rawTickers)) limit = .ok l →
        l.Pairwise (fun a b => a.Volume ≥ b.Volume)) ∧
    (∀ code status response l, (∀ raw ∈ response.Data, OKEXClient.eligible ParseFloat raw = true →
          ParseFloat raw.Vol24h ≠ some .NaN) →
        OKEXClient.GetTopVolumeTickers ParseFloat
          (.answered code status (.decoded response)) limit = .ok l →
        l.Pairwise (fun a b => a.Volume ≥ b.Volume)) ∧
    (∀ status rawTickers, (∀ raw ∈ rawTickers, BinanceClient.eligible ParseFloat raw = true →
          ParseFloat raw.Volume ≠ some .NaN) →
        0 ≤ limit → ∃ l,
        BinanceClient.GetTopVolumeTickers ParseFloat
          (.answered StatusOK status (.decoded rawTickers)) limit = .ok l ∧
        l.Pairwise (fun a b => a.Volume ≥ b.Volume)) ∧
    (∀ status msg data, (∀ raw ∈ data, OKEXClient.eligible ParseFloat raw = true →
          ParseFloat raw.Vol24h ≠ some .NaN) →
        0 ≤ limit → ∃ l,
        OKEXClient.GetTopVolumeTickers ParseFloat
          (.answered StatusOK status (.decoded { Code := "0", Msg := msg, Data := data }))
          limit = .ok l ∧
        l.Pairwise (fun a b => a.Volume ≥ b.Volume)) := by
  refine ⟨?_, ?_, ?_, ?_⟩
  · intro code status rawTickers l hnan h
    unfold BinanceClient.GetTopVolumeTickers at h
    simp only at h
    split_ifs at h
    exact topN_sorted (binance_volume_ne_NaN hnan) h
  · intro code status response l hnan h
    unfold OKEXClient.GetTopVolumeTickers at h
    simp only at h
    split_ifs at h
    exact topN_sorted (okex_volume_ne_NaN hnan) h
  · intro status rawTickers hnan hlimit
    obtain ⟨l, hl, -⟩ :=
      topN_length (rawTickers.filterMap (BinanceClient.tickerOfRaw ParseFloat)) limit hlimit
    exact ⟨l, by simpa [BinanceClient.GetTopVolumeTickers] using hl,
      topN_sorted (binance_volume_ne_NaN hnan) hl⟩
  · intro status msg data hnan hlimit
    obtain ⟨l, hl, -⟩ :=
      topN_length (data.filterMap (OKEXClient.tickerOfRaw ParseFloat)) limit hlimit
    exact ⟨l, by simpa [OKEXClient.GetTopVolumeTickers] using hl,
      topN_sorted (okex_volume_ne_NaN hnan) hl⟩

/-- C5. For a limit `n >= 0`, `GetTopVolumeTickers` (Binance and OKEX) on a
decodable 200 reply returns exactly `min n available` tickers, `available`
being the number of raw tickers that pass the USDT filter and whose price and
volume parse. -/
theorem GetTopVolumeTickers_length (ParseFloat : String → Option float64) (limit : Int)
    (hlimit : 0 ≤ limit) :
    (∀ status rawTickers, ∃ l,
        BinanceClient.GetTopVolumeTickers ParseFloat
          (.answered StatusOK status (.decoded rawTickers)) limit = .ok l ∧
        (l.length : Int) =
          min limit ((rawTickers.filter (BinanceClient.eligible ParseFloat)).length : Int)) ∧
    (∀ status msg data, ∃ l,
        OKEXClient.GetTopVolumeTickers ParseFloat
          (.answered StatusOK status (.decoded { Code := "0", Msg := msg, Data := data }))
          limit = .ok l ∧
        (l.length : Int) =
          min limit ((data.filter (OKEXClient.eligible ParseFloat)).length : Int)) := by
  constructor
  · intro status rawTickers
    obtain ⟨l, hl, hlen⟩ :=
      topN_length (rawTickers.filterMap (BinanceClient.tickerOfRaw ParseFloat)) limit hlimit
    refine ⟨l, ?_, ?_⟩
    · simpa [BinanceClient.GetTopVolumeTickers] using hl
    · rw [hlen, length_filterMap_isSome _ _ (binance_tickerOfRaw_isSome ParseFloat)]
  · intro status msg data
    obtain ⟨l, hl, hlen⟩ :=
      topN_length (data.filterMap (OKEXClient.tickerOfRaw ParseFloat)) limit hlimit
    refine ⟨l, ?_, ?_⟩
    · simpa [OKEXClient.GetTopVolumeTickers] using hl
    · rw [hlen, length_filterMap_isSome _ _ (okex_tickerOfRaw_isSome ParseFloat)]

/-! ## Symbol translation -/

theorem replaceAux_dash (l : List Char) :
    replaceAux ['-'] [] none 0 l = l.filter (fun c => c != '-') := by
  induction l with
  | nil => simp [replaceAux]
  | cons c l ih =>
    by_cases hc : c = '-'
    · subst hc
      simp [replaceAux, ih]
    · have hc' : ('-' == c) = false := by
        simp only [beq_eq_false_iff_ne, ne_eq]
        exact fun h => hc h.symm
      simp [replaceAux, ih, hc, hc', List.isPrefixOf]

theorem ReplaceAll_dash_data (s : String) :
    (ReplaceAll s "-" "").data = s.data.filter (fun c => c != '-') := by
  have h : ("-" : String).data = ['-'] := rfl
  have h' : ("" : String).data = [] := rfl
  unfold ReplaceAll Replace
  rw [h, h']
  rw [if_neg (by simp), if_pos (by decide)]
  exact replaceAux_dash s.data

theorem HasSuffix_iff (s suffix : String) :
    HasSuffix s suffix = true ↔ ∃ pre, s.data = pre ++ suffix.data := by
  unfold HasSuffix
  rw [List.isSuffixOf_iff_suffix]
  constructor
  · rintro ⟨pre, h⟩
    exact ⟨pre, h.symm⟩
  · rintro ⟨pre, h⟩
    exact ⟨pre, h.symm⟩

theorem replaceAux_zero (old new : List Char) (k : Nat) (l : List Char) :
    replaceAux old new (some 0) k l = l.drop k := by
  induction l generalizing k with
  | nil => simp [replaceAux]
  | cons c l ih =>
    cases k with
    | zero => simp [replaceAux, ih]
    | succ k => simp [replaceAux, ih]

theorem filter_dash_idem (l : List Char) :
    (l.filter (fun c => c != '-')).filter (fun c => c != '-') = l.filter (fun c => c != '-') := by
  simp [List.filter_filter]

theorem replaceAux_first_filter (l : List Char) :
    (replaceAux ['U', 'S', 'D', 'T'] ['-', 'U', 'S', 'D', 'T'] (some 1) 0 l).filter
        (fun c => c != '-') = l.filter (fun c => c != '-') := by
  induction l with
  | nil => simp [replaceAux]
  | cons c l ih =>
    by_cases hp : List.isPrefixOf ['U', 'S', 'D', 'T'] (c :: l) = true
    · have hp' := hp
      rw [ List.isPrefixOf_iff_prefix] at hp'
      obtain ⟨rest, hrest⟩ := hp'
      simp only [List.cons_append, List.nil_append, List.cons.injEq] at hrest
      obtain ⟨hc, hl⟩ := hrest
      subst hc
      subst hl
      rw [replaceAux]
      · rw [if_pos hp]
        simp [replaceAux_zero]
      · simp
    · rw [replaceAux]
      · rw [if_neg hp]
        simp [List.filter_cons, ih]
      · simp

theorem Contains_dash_false (s : String) (h : ∀ c ∈ s.data, c ≠ '-') :
    Contains s "-" = false := by
  have hd : ("-" : String).data = ['-'] := rfl
  unfold Contains
  rw [hd, List.any_eq_false]
  intro t ht
  rw [List.mem_tails] at ht
  cases t with
  | nil => simp [List.isPrefixOf]
  | cons c t =>
    have hc : c ≠ '-' := h c (ht.subset (List.mem_cons_self c t))
    have hc' : ('-' == c) = false := by
      simp only [beq_eq_false_iff_ne, ne_eq]
      exact fun h => hc h.symm
    simp [List.isPrefixOf, hc']

theorem symbolOfInstID_data (instID : String) :
    (OKEXClient.symbolOfInstID instID).data = instID.data.filter (fun c => c != '-') :=
  ReplaceAll_dash_data instID

theorem symbolOfInstID_no_dash (instID : String) :
    ∀ c ∈ (OKEXClient.symbolOfInstID instID).data, c ≠ '-' := by
  intro c hc
  rw [symbolOfInstID_data, List.mem_filter] at hc
  simpa using hc.2

theorem symbolOfInstID_suffix {instID : String} (h : HasSuffix instID "-USDT" = true) :
    HasSuffix (OKEXClient.symbolOfInstID instID) "USDT" = true := by
  obtain ⟨pre, hpre⟩ := (HasSuffix_iff _ _).1 h
  refine (HasSuffix_iff _ _).2 ⟨pre.filter (fun c => c != '-'), ?_⟩
  rw [symbolOfInstID_data, hpre, List.filter_append]
  rfl

/-- C7. Round trip canonical, native, canonical. For every symbol `c` the OKEX
ticker feed can emit (`c` is an `instId` ending in "-USDT" with every "-"
removed), `GetLatestPrice`/`GetKlines` take the replacing branch (a "-" is put
before the first "USDT"), and removing every "-" from that native form gives
`c` back; on Binance both translations are the identity. -/
theorem symbol_round_trip :
    (∀ instID : String, HasSuffix instID "-USDT" = true →
      OKEXClient.instId (OKEXClient.symbolOfInstID instID) =
          Replace (OKEXClient.symbolOfInstID instID) "USDT" "-USDT" 1 ∧
        OKEXClient.symbolOfInstID (OKEXClient.instId (OKEXClient.symbolOfInstID instID)) =
          OKEXClient.symbolOfInstID instID) ∧
    (∀ symbol : String,
      BinanceClient.symbolOfRaw (BinanceClient.requestSymbol symbol) = symbol ∧
        BinanceClient.requestSymbol (BinanceClient.symbolOfRaw symbol) = symbol) := by
  refine ⟨?_, fun symbol => ⟨rfl, rfl⟩⟩
  intro instID h
  have hbranch : OKEXClient.instId (OKEXClient.symbolOfInstID instID) =
      Replace (OKEXClient.symbolOfInstID instID) "USDT" "-USDT" 1 := by
    unfold OKEXClient.instId
    rw [Contains_dash_false _ (symbolOfInstID_no_dash instID), symbolOfInstID_suffix h]
    rfl
  refine ⟨hbranch, ?_⟩
  rw [hbranch]
  apply String.ext
  rw [symbolOfInstID_data]
  have hU : ("USDT" : String).data = ['U', 'S', 'D', 'T'] := rfl
  have hD : ("-USDT" : String).data = ['-', 'U', 'S', 'D', 'T'] := rfl
  have hrep : (Replace (OKEXClient.symbolOfInstID instID) "USDT" "-USDT" 1).data =
      replaceAux ['U', 'S', 'D', 'T'] ['-', 'U', 'S', 'D', 'T'] (some 1) 0
        (OKEXClient.symbolOfInstID instID).data := by
    unfold Replace
    rw [hU, hD]
    rw [if_neg (by simp), if_neg (by decide)]
    rfl
  rw [hrep, replaceAux_first_filter, symbolOfInstID_data, filter_dash_idem]

/-- Witness of C7 at the instrument "BTC-USDT". -/
theorem symbol_round_trip_witness :
    HasSuffix "BTC-USDT" "-USDT" = true ∧
      OKEXClient.instId (OKEXClient.symbolOfInstID "BTC-USDT") =
          Replace (OKEXClient.symbolOfInstID "BTC-USDT") "USDT" "-USDT" 1 ∧
        OKEXClient.symbolOfInstID (OKEXClient.instId (OKEXClient.symbolOfInstID "BTC-USDT")) =
          OKEXClient.symbolOfInstID "BTC-USDT" :=
  ⟨by decide, symbol_round_trip.1 "BTC-USDT" (by decide)⟩

/-- C8. The instrument id "USDTB-USDT" passes the ticker filter of
`OKEXClient.GetTopVolumeTickers`, is emitted as "USDTBUSDT", and
`GetLatestPrice`/`GetKlines` then request "-USDTBUSDT": not the instrument the
ticker came from. -/
theorem okex_instId_not_inverse :
    HasSuffix "USDTB-USDT" "-USDT" = true ∧
      OKEXClient.symbolOfInstID "USDTB-USDT" = "USDTBUSDT" ∧
      OKEXClient.instId (OKEXClient.symbolOfInstID "USDTB-USDT") = "-USDTBUSDT" ∧
      OKEXClient.instId (OKEXClient.symbolOfInstID "USDTB-USDT") ≠ "USDTB-USDT" := by
  decide

theorem binance_ok_decoded {ParseFloat : String → Option float64}
    {reply : HttpReply (List BinanceRawTicker)} {limit : Int} {l : List Ticker}
    (h : BinanceClient.GetTopVolumeTickers ParseFloat reply limit = .ok l) :
    ∃ status rawTickers, reply = .answered StatusOK status (.decoded rawTickers) ∧
      topN (rawTickers.filterMap (BinanceClient.tickerOfRaw ParseFloat)) limit = .ok l := by
  unfold BinanceClient.GetTopVolumeTickers at h
  split at h
  · cases h
  · cases h
  · rename_i code status body
    split_ifs at h with hcode
    split at h
    · cases h
    · cases h
    · rename_i rawTickers
      have hc : code = StatusOK := not_not.1 hcode
      subst hc
      exact ⟨status, rawTickers, rfl, h⟩

theorem okex_ok_decoded {ParseFloat : String → Option float64}
    {reply : HttpReply OKEXTickersResponse} {limit : Int} {l : List Ticker}
    (h : OKEXClient.GetTopVolumeTickers ParseFloat reply limit = .ok l) :
    ∃ status response, reply = .answered StatusOK status (.decoded response) ∧
      response.Code = "0" ∧
      topN (response.Data.filterMap (OKEXClient.tickerOfRaw ParseFloat)) limit = .ok l := by
  unfold OKEXClient.GetTopVolumeTickers at h
  split at h
  · cases h
  · cases h
  · rename_i code status body
    split_ifs at h with hcode
    split at h
    · cases h
    · cases h
    · rename_i response
      split_ifs at h with hresp
      have hc : code = StatusOK := not_not.1 hcode
      subst hc
      exact ⟨status, response, rfl, not_not.1 hresp, h⟩

/-- C6. Every ticker `GetTopVolumeTickers` returns is a USDT pair built from a
raw ticker of the reply: on Binance a raw ticker whose symbol ends with "USDT",
on OKEX a raw ticker whose `instId` ends with "-USDT", the emitted symbol being
the `instId` without "-" and ending with "USDT". A raw ticker outside the
convention, wherever it stands in the reply, changes neither the result nor
whether the call succeeds, and for a limit `>= 0` the call on a decodable 200
reply succeeds. -/
theorem GetTopVolumeTickers_usdt_only (ParseFloat : String → Option float64) (limit : Int) :
    (∀ reply l, BinanceClient.GetTopVolumeTickers ParseFloat reply limit = .ok l →
      ∃ status rawTickers, reply = .answered StatusOK status (.decoded rawTickers) ∧
        ∀ t ∈ l, HasSuffix t.Symbol "USDT" = true ∧
          ∃ raw ∈ rawTickers, HasSuffix raw.Symbol "USDT" = true ∧ t.Symbol = raw.Symbol ∧
            ParseFloat raw.LastPrice = some t.Price ∧ ParseFloat raw.Volume = some t.Volume) ∧
    (∀ status before after raw, HasSuffix raw.Symbol "USDT" = false →
      BinanceClient.GetTopVolumeTickers ParseFloat
          (.answered StatusOK status (.decoded (before ++ raw :: after))) limit =
        BinanceClient.GetTopVolumeTickers ParseFloat
          (.answered StatusOK status (.decoded (before ++ after))) limit) ∧
    (∀ status rawTickers, 0 ≤ limit → ∃ l,
      BinanceClient.GetTopVolumeTickers ParseFloat
        (.answered StatusOK status (.decoded rawTickers)) limit = .ok l) ∧
    (∀ reply l, OKEXClient.GetTopVolumeTickers ParseFloat reply limit = .ok l →
      ∃ status response, reply = .answered StatusOK status (.decoded response) ∧
        ∀ t ∈ l, HasSuffix t.Symbol "USDT" = true ∧
          ∃ raw ∈ response.Data, HasSuffix raw.InstID "-USDT" = true ∧
            t.Symbol = ReplaceAll raw.InstID "-" "" ∧
            ParseFloat raw.LastPrice = some t.Price ∧ ParseFloat raw.Vol24h = some t.Volume) ∧
    (∀ status code msg before after raw, HasSuffix raw.InstID "-USDT" = false →
      OKEXClient.GetTopVolumeTickers ParseFloat
          (.answered StatusOK status
            (.decoded { Code := code, Msg := msg, Data := before ++ raw :: after })) limit =
        OKEXClient.GetTopVolumeTickers ParseFloat
          (.answered StatusOK status
            (.decoded { Code := code, Msg := msg, Data := before ++ after })) limit) ∧
    (∀ status msg data, 0 ≤ limit → ∃ l,
      OKEXClient.GetTopVolumeTickers ParseFloat
        (.answered StatusOK status (.decoded { Code := "0", Msg := msg, Data := data }))
        limit = .ok l) := by
  refine ⟨?_, ?_, ?_, ?_, ?_, ?_⟩
  · intro reply l h
    obtain ⟨status, rawTickers, hreply, htop⟩ := binance_ok_decoded h
    refine ⟨status, rawTickers, hreply, ?_⟩
    intro t ht
    obtain ⟨raw, hraw, hsome⟩ := List.mem_filterMap.1 (topN_mem htop ht)
    obtain ⟨h1, h2, h3, h4⟩ := binance_tickerOfRaw_some hsome
    exact ⟨by rw [h2]; exact h1, raw, hraw, h1, h2, h3, h4⟩
  · intro status before after raw hraw
    have hnone : BinanceClient.tickerOfRaw ParseFloat raw = none := by
      unfold BinanceClient.tickerOfRaw
      cases ParseFloat raw.LastPrice <;> cases ParseFloat raw.Volume <;> simp [hraw]
    simp [BinanceClient.GetTopVolumeTickers, List.filterMap_append, List.filterMap_cons, hnone]
  · intro status rawTickers hlimit
    obtain ⟨l, hl, -⟩ :=
      topN_length (rawTickers.filterMap (BinanceClient.tickerOfRaw ParseFloat)) limit hlimit
    exact ⟨l, by simpa [BinanceClient.GetTopVolumeTickers] using hl⟩
  · intro reply l h
    obtain ⟨status, response, hreply, -, htop⟩ := okex_ok_decoded h
    refine ⟨status, response, hreply, ?_⟩
    intro t ht
    obtain ⟨raw, hraw, hsome⟩ := List.mem_filterMap.1 (topN_mem htop ht)
    obtain ⟨h1, h2, h3, h4⟩ := okex_tickerOfRaw_some hsome
    exact ⟨by rw [h2]; exact symbolOfInstID_suffix h1, raw, hraw, h1, h2, h3, h4⟩
  · intro status code msg before after raw hraw
    have hnone : OKEXClient.tickerOfRaw ParseFloat raw = none := by
      unfold OKEXClient.tickerOfRaw
      simp [hraw]
    simp [OKEXClient.GetTopVolumeTickers, List.filterMap_append, List.filterMap_cons, hnone]
  · intro status msg data hlimit
    obtain ⟨l, hl, -⟩ :=
      topN_length (data.filterMap (OKEXClient.tickerOfRaw ParseFloat)) limit hlimit
    exact ⟨l, by simpa [OKEXClient.GetTopVolumeTickers] using hl⟩

/-! ## The table of exchange prices -/

theorem dateOf_eq (timestamp : Int) :
    dateOf timestamp = time.UnixMilli (timestamp / 86400000 * 86400000) := by
  unfold dateOf time.Truncate time.UnixMilli time.Hour time.Second time.Millisecond
    time.unixToInternal
  rw [if_neg (by norm_num)]
  show (timestamp * 1000000 -
      (timestamp * 1000000 + 62135596800 * (1000 * 1000000)) %
        (24 * (3600 * (1000 * 1000000))) : Int) = timestamp / 86400000 * 86400000 * 1000000
  omega

theorem conflicts_iff (a b : ExchangePrice) : conflicts a b = true ↔ key a = key b := by
  simp [conflicts, key]

theorem key_doUpdates (excluded row : ExchangePrice) : key (doUpdates excluded row) = key row :=
  rfl

theorem key_proposed (c : DbCall) (price : ExchangePrice) : key (proposed c price) = key price :=
  rfl

theorem map_key_createOnConflict_of_any {table : List ExchangePrice} {row : ExchangePrice}
    (h : table.any (conflicts row) = true) :
    (createOnConflict table row).map key = table.map key := by
  unfold createOnConflict
  rw [if_pos h, List.map_map]
  apply List.map_congr_left
  intro r _
  simp only [Function.comp]
  split_ifs
  · exact key_doUpdates row r
  · rfl

theorem createOnConflict_unique {table : List ExchangePrice} (row : ExchangePrice)
    (h : UniqueKeys table) : UniqueKeys (createOnConflict table row) := by
  unfold UniqueKeys at *
  by_cases hany : table.any (conflicts row) = true
  · rw [map_key_createOnConflict_of_any hany]
    exact h
  · unfold createOnConflict
    rw [if_neg hany, List.map_append, List.map_singleton]
    refine List.Nodup.append h (List.nodup_singleton _) ?_
    rw [List.disjoint_singleton]
    intro hmem
    apply hany
    obtain ⟨r, hr, hkey⟩ := List.mem_map.1 hmem
    exact List.any_eq_true.2 ⟨r, hr, (conflicts_iff row r).2 hkey.symm⟩

theorem UpsertExchangePrice_unique (c : DbCall) {table : List ExchangePrice}
    (price : ExchangePrice) (h : UniqueKeys table) :
    UniqueKeys (UpsertExchangePrice c table price).1 := by
  unfold UpsertExchangePrice
  cases c.failure with
  | some err => exact h
  | none => exact createOnConflict_unique _ h

theorem createOnConflict_values (table : List ExchangePrice) (row : ExchangePrice) :
    (∃ r ∈ createOnConflict table row, key r = key row) ∧
    (∀ r ∈ createOnConflict table row, key r = key row →
      r.Price = row.Price ∧ r.Timestamp = row.Timestamp) := by
  by_cases hany : table.any (conflicts row) = true
  · constructor
    · obtain ⟨r, hr, hc⟩ := List.any_eq_true.1 hany
      refine ⟨doUpdates row r, ?_, ?_⟩
      · unfold createOnConflict
        rw [if_pos hany]
        exact List.mem_map.2 ⟨r, hr, by rw [if_pos hc]⟩
      · rw [key_doUpdates]
        exact ((conflicts_iff row r).1 hc).symm
    · intro r hr hkey
      unfold createOnConflict at hr
      rw [if_pos hany] at hr
      obtain ⟨r0, _, hr0⟩ := List.mem_map.1 hr
      by_cases hc : conflicts row r0 = true
      · rw [if_pos hc] at hr0
        subst hr0
        exact ⟨rfl, rfl⟩
      · rw [if_neg hc] at hr0
        subst hr0
        exact absurd ((conflicts_iff row r0).2 hkey.symm) hc
  · constructor
    · refine ⟨row, ?_, rfl⟩
      unfold createOnConflict
      rw [if_neg hany]
      simp
    · intro r hr hkey
      unfold createOnConflict at hr
      rw [if_neg hany] at hr
      rcases List.mem_append.1 hr with hr | hr
      · exact absurd (List.any_eq_true.2 ⟨r, hr, (conflicts_iff row r).2 hkey.symm⟩) hany
      · rw [List.mem_singleton] at hr
        subst hr
        exact ⟨rfl, rfl⟩

theorem filter_key_singleton {table : List ExchangePrice} (h : UniqueKeys table)
    {k : String × String × time.Time} (hk : ∃ r ∈ table, key r = k) :
    ∃ row, table.filter (fun r => decide (key r = k)) = [row] := by
  induction table with
  | nil =>
    obtain ⟨r, hr, _⟩ := hk
    cases hr
  | cons a l ih =>
    unfold UniqueKeys at h
    rw [List.map_cons, List.nodup_cons] at h
    by_cases ha : key a = k
    · refine ⟨a, ?_⟩
      rw [List.filter_cons, if_pos (by simpa using ha)]
      congr 1
      rw [List.filter_eq_nil_iff]
      intro r hr hrk
      apply h.1
      rw [ha]
      exact List.mem_map.2 ⟨r, hr, by simpa using hrk⟩
    · obtain ⟨r, hr, hrk⟩ := hk
      rcases List.mem_cons.1 hr with rfl | hr
      · exact absurd hrk ha
      · obtain ⟨row, hrow⟩ := ih h.2 ⟨r, hr, hrk⟩
        refine ⟨row, ?_⟩
        rw [List.filter_cons, if_neg (by simpa using ha)]
        exact hrow

theorem upsertAll_unique (calls : List (DbCall × ExchangePrice)) :
    ∀ table, UniqueKeys table → UniqueKeys (upsertAll table calls) := by
  induction calls with
  | nil => exact fun _ h => h
  | cons call calls ih =>
    intro table h
    exact ih _ (UpsertExchangePrice_unique call.1 call.2 h)

theorem UpsertExchangePrice_ok {c : DbCall} (hc : c.failure = none)
    (table : List ExchangePrice) (price : ExchangePrice) :
    UpsertExchangePrice c table price =
      (createOnConflict table (proposed c { price with Date := dateOf price.Timestamp }), none) := by
  unfold UpsertExchangePrice
  rw [hc]

/-- C2. Two successful upserts for the same symbol and exchange whose
timestamps lie in the same UTC day `d`, on a table with at most one row per
(symbol, exchange, date): the second upsert adds no row, and afterwards the
table holds exactly one row with key (symbol, exchange, midnight of `d`), which
carries the price and the timestamp of the second upsert (whether or not the
two prices differ). -/
theorem upsert_same_day_overwrites (c1 c2 : DbCall) (table : List ExchangePrice)
    (r1 r2 : ExchangePrice) (d : Int)
    (hc1 : c1.failure = none) (hc2 : c2.failure = none) (huniq : UniqueKeys table)
    (hsym : r1.Symbol = r2.Symbol) (hex : r1.Exchange = r2.Exchange)
    (hd1 : r1.Timestamp / 86400000 = d) (hd2 : r2.Timestamp / 86400000 = d) :
    (UpsertExchangePrice c1 table r1).2 = none ∧
    (UpsertExchangePrice c2 (UpsertExchangePrice c1 table r1).1 r2).2 = none ∧
    (UpsertExchangePrice c2 (UpsertExchangePrice c1 table r1).1 r2).1.length =
      (UpsertExchangePrice c1 table r1).1.length ∧
    ∃ row,
      (UpsertExchangePrice c2 (UpsertExchangePrice c1 table r1).1 r2).1.filter
          (fun r => decide (key r =
            (r2.Symbol, r2.Exchange, time.UnixMilli (d * 86400000)))) = [row] ∧
        row.Price = r2.Price ∧ row.Timestamp = r2.Timestamp := by
  rw [UpsertExchangePrice_ok hc1, UpsertExchangePrice_ok hc2]
  simp only
  have hk1 : key (proposed c1 { r1 with Date := dateOf r1.Timestamp }) =
      (r2.Symbol, r2.Exchange, time.UnixMilli (d * 86400000)) := by
    rw [key_proposed, dateOf_eq, hd1]
    simp [key, hsym, hex]
  have hk2 : key (proposed c2 { r2 with Date := dateOf r2.Timestamp }) =
      (r2.Symbol, r2.Exchange, time.UnixMilli (d * 86400000)) := by
    rw [key_proposed, dateOf_eq, hd2]
    simp [key]
  have hu1 := createOnConflict_unique (proposed c1 { r1 with Date := dateOf r1.Timestamp }) huniq
  have hu2 := createOnConflict_unique (proposed c2 { r2 with Date := dateOf r2.Timestamp }) hu1
  obtain ⟨⟨a, ha, hak⟩, -⟩ :=
    createOnConflict_values table (proposed c1 { r1 with Date := dateOf r1.Timestamp })
  obtain ⟨⟨b, hb, hbk⟩, hvals⟩ :=
    createOnConflict_values
      (createOnConflict table (proposed c1 { r1 with Date := dateOf r1.Timestamp }))
      (proposed c2 { r2 with Date := dateOf r2.Timestamp })
  have hany : (createOnConflict table (proposed c1 { r1 with Date := dateOf r1.Timestamp })).any
      (conflicts (proposed c2 { r2 with Date := dateOf r2.Timestamp })) = true :=
    List.any_eq_true.2 ⟨a, ha, (conflicts_iff _ _).2 (by rw [hk2, hak, hk1])⟩
  refine ⟨trivial, trivial, ?_, ?_⟩
  · have := congrArg List.length (map_key_createOnConflict_of_any hany)
    simpa using this
  · obtain ⟨row, hrow⟩ := filter_key_singleton hu2 ⟨b, hb, hbk.trans hk2⟩
    refine ⟨row, hrow, ?_⟩
    have hmem : row ∈ List.filter (fun r => decide (key r =
        (r2.Symbol, r2.Exchange, time.UnixMilli (d * 86400000))))
        (createOnConflict
          (createOnConflict table (proposed c1 { r1 with Date := dateOf r1.Timestamp }))
          (proposed c2 { r2 with Date := dateOf r2.Timestamp })) := by
      rw [hrow]
      exact List.mem_singleton_self row
    rw [List.mem_filter] at hmem
    have hrk : key row = key (proposed c2 { r2 with Date := dateOf r2.Timestamp }) := by
      rw [hk2]
      simpa using hmem.2
    exact hvals row hmem.1 hrk

/-- C3. "No two rows share (symbol, exchange, date)" is an invariant of the
table: `UpsertExchangePrice` preserves it for every table, session and record,
and so it holds after any sequence of upserts from the empty table. -/
theorem UniqueKeys_invariant :
    (∀ (c : DbCall) (table : List ExchangePrice) (price : ExchangePrice),
      UniqueKeys table → UniqueKeys (UpsertExchangePrice c table price).1) ∧
    (∀ calls : List (DbCall × ExchangePrice), UniqueKeys (upsertAll [] calls)) :=
  ⟨fun c _ price h => UpsertExchangePrice_unique c price h,
    fun calls => upsertAll_unique calls [] List.nodup_nil⟩

/-! ## The monitoring pass -/

theorem clock_log (w : World) (e : Event) : (w.log e).clock = w.clock + 1 := by
  simp [World.log, World.clock]

theorem CalculateAveragePrice_eq (prices : List float64) (h : prices ≠ []) :
    CalculateAveragePrice prices =
      prices.foldl (fun sum price => sum + price) 0 / (prices.length : float64) := by
  unfold CalculateAveragePrice
  rw [if_neg (by simpa using h)]

theorem FetchAndStorePrice_ok (env : Env) (client : ExchangeClient)
    (symbol exchangeName : String) (w : World) (price : float64)
    (hprice : client.GetLatestPrice w.clock symbol = .ok price)
    (hdb : (env.db (w.clock + 1)).failure = none) :
    FetchAndStorePrice env client symbol exchangeName w =
      ({ trace := w.trace ++ [.latestPrice exchangeName symbol,
            .upsert { Symbol := symbol, Exchange := exchangeName, Price := price,
                      Timestamp := env.now (w.clock + 1) } false],
         store := (UpsertExchangePrice (env.db (w.clock + 1)) w.store
            { Symbol := symbol, Exchange := exchangeName, Price := price,
              Timestamp := env.now (w.clock + 1) }).1 }, .ok price) := by
  unfold FetchAndStorePrice
  rw [hprice]
  simp only [clock_log]
  simp [World.log, UpsertExchangePrice_ok hdb]

/-- C1, amended. For a ticker whose price fetch, upsert and candle fetch
succeed with a non-empty candle list, the body of the `RunMonitor` loop sends
an alert exactly when `mean > 0` and `latestPrice < mean * (1 - threshold)` in
`float64` arithmetic, `mean` being the `float64` sum of the closes, added from
left to right starting at 0, divided by their number; the alert reports the
`float64` value of `(1 - latestPrice / mean) * 100` as the drop. -/
theorem alert_iff_drop (env : Env) (s : PriceMonitorService) (exchangeName : String)
    (client : ExchangeClient) (ticker : Ticker) (w : World) (latestPrice : float64)
    (klines : List Kline)
    (hprice : client.GetLatestPrice w.clock ticker.Symbol = .ok latestPrice)
    (hdb : (env.db (w.clock + 1)).failure = none)
    (hklines : client.GetKlines (w.clock + 2) ticker.Symbol KlineInterval KlineLimit = .ok klines)
    (hne : klines ≠ []) :
    (processTicker env s exchangeName client ticker w).2 = .reachedDelay ∧
    (processTicker env s exchangeName client ticker w).1.trace =
      w.trace ++
        [.latestPrice exchangeName ticker.Symbol,
         .upsert { Symbol := ticker.Symbol, Exchange := exchangeName, Price := latestPrice,
                   Timestamp := env.now (w.clock + 1) } false,
         .klines exchangeName ticker.Symbol KlineInterval KlineLimit] ++
        (if (klines.map (fun k => k.Close)).foldl (fun sum price => sum + price) 0 /
                (klines.length : float64) > 0 ∧
            latestPrice <
              (klines.map (fun k => k.Close)).foldl (fun sum price => sum + price) 0 /
                (klines.length : float64) * (1 - s.defaultThreshold) then
          [.alert exchangeName ticker.Symbol latestPrice
            ((klines.map (fun k => k.Close)).foldl (fun sum price => sum + price) 0 /
              (klines.length : float64))
            ((1 - latestPrice /
              ((klines.map (fun k => k.Close)).foldl (fun sum price => sum + price) 0 /
                (klines.length : float64))) * 100)
            (s.defaultThreshold * 100) (env.notifier (w.clock + 3)).isSome]
        else []) := by
  have hlen : klines.length ≠ 0 := by simpa using hne
  have hmean : CalculateAveragePrice (klines.map (fun k => k.Close)) =
      (klines.map (fun k => k.Close)).foldl (fun sum price => sum + price) 0 /
        (klines.length : float64) := by
    rw [CalculateAveragePrice_eq _ (by simpa using hne), List.length_map]
  unfold processTicker
  simp only
  rw [FetchAndStorePrice_ok env client ticker.Symbol exchangeName w latestPrice hprice hdb]
  have hclock : World.clock
      { trace := w.trace ++ [.latestPrice exchangeName ticker.Symbol,
          .upsert { Symbol := ticker.Symbol, Exchange := exchangeName, Price := latestPrice,
                    Timestamp := env.now (w.clock + 1) } false],
        store := (UpsertExchangePrice (env.db (w.clock + 1)) w.store
          { Symbol := ticker.Symbol, Exchange := exchangeName, Price := latestPrice,
            Timestamp := env.now (w.clock + 1) }).1 } = w.clock + 2 := by
    simp [World.clock]
  simp only [hclock, hklines, if_neg hlen, hmean]
  split_ifs with hcond
  · refine ⟨rfl, ?_⟩
    simp [World.log, World.clock]
  · refine ⟨rfl, ?_⟩
    simp [World.log]

/-- Witness of C1 on the two examples of the specification: closes
`[100, 100, 100]`, price 79 and threshold 0.20 give an alert with mean 100 and
the drop 20.999999999999996; closes `[100, 100]` and price 85 give no alert. -/
theorem alert_iff_drop_witness :
    (List.map demo.kline [100, 100, 100] ≠ [] ∧
      (processTicker demo.env (demo.svc (demo.client 79 [100, 100, 100]) 0) "BINANCE"
          (demo.client 79 [100, 100, 100]) demo.btc demo.start).1.trace =
        [.latestPrice "BINANCE" "BTCUSDT",
         .upsert { Symbol := "BTCUSDT", Exchange := "BINANCE", Price := 79,
                   Timestamp := 1700000000000 } false,
         .klines "BINANCE" "BTCUSDT" "1d" 30,
         .alert "BINANCE" "BTCUSDT" 79 100 20.999999999999996 20 false]) ∧
    (List.map demo.kline [100, 100] ≠ [] ∧
      (processTicker demo.env (demo.svc (demo.client 85 [100, 100]) 0) "BINANCE"
          (demo.client 85 [100, 100]) demo.btc demo.start).1.trace =
        [.latestPrice "BINANCE" "BTCUSDT",
         .upsert { Symbol := "BTCUSDT", Exchange := "BINANCE", Price := 85,
                   Timestamp := 1700000000000 } false,
         .klines "BINANCE" "BTCUSDT" "1d" 30]) := by
  refine ⟨⟨by simp, ?_⟩, ⟨by simp, ?_⟩⟩
  · rw [(alert_iff_drop demo.env (demo.svc (demo.client 79 [100, 100, 100]) 0) "BINANCE"
      (demo.client 79 [100, 100, 100]) demo.btc demo.start 79
      (List.map demo.kline [100, 100, 100]) rfl rfl rfl (by simp)).2]
    decide
  · rw [(alert_iff_drop demo.env (demo.svc (demo.client 85 [100, 100]) 0) "BINANCE"
      (demo.client 85 [100, 100]) demo.btc demo.start 85
      (List.map demo.kline [100, 100]) rfl rfl rfl (by simp)).2]
    decide

/-- The two examples of the specification as whole passes over one exchange
ranking BTCUSDT alone: the first sends one alert with mean 100 and the drop
20.999999999999996, the second sends none, and both return nil. -/
theorem RunMonitor_examples :
    RunMonitor demo.env (demo.svc (demo.client 79 [100, 100, 100]) 0) demo.start =
      ({ trace :=
          [.tickers "BINANCE" 10, .ctxCheck "BINANCE" "BTCUSDT",
           .latestPrice "BINANCE" "BTCUSDT",
           .upsert { Symbol := "BTCUSDT", Exchange := "BINANCE", Price := 79,
                     Timestamp := 1700000000000 } false,
           .klines "BINANCE" "BTCUSDT" "1d" 30,
           .alert "BINANCE" "BTCUSDT" 79 100 20.999999999999996 20 false],
         store := (RunMonitor demo.env (demo.svc (demo.client 79 [100, 100, 100]) 0)
           demo.start).1.store }, .nil) ∧
    RunMonitor demo.env (demo.svc (demo.client 85 [100, 100]) 0) demo.start =
      ({ trace :=
          [.tickers "BINANCE" 10, .ctxCheck "BINANCE" "BTCUSDT",
           .latestPrice "BINANCE" "BTCUSDT",
           .upsert { Symbol := "BTCUSDT", Exchange := "BINANCE", Price := 85,
                     Timestamp := 1700000000000 } false,
           .klines "BINANCE" "BTCUSDT" "1d" 30],
         store := (RunMonitor demo.env (demo.svc (demo.client 85 [100, 100]) 0)
           demo.start).1.store }, .nil) := by
  constructor <;> decide

theorem keysKept_refl (t : List ExchangePrice) : KeysKept t t :=
  fun r hr => ⟨r, hr, rfl⟩

theorem keysKept_trans {a b c : List ExchangePrice} (h1 : KeysKept a b) (h2 : KeysKept b c) :
    KeysKept a c := by
  intro r hr
  obtain ⟨r1, hr1, hk1⟩ := h1 r hr
  obtain ⟨r2, hr2, hk2⟩ := h2 r1 hr1
  exact ⟨r2, hr2, hk2.trans hk1⟩

theorem createOnConflict_keeps (table : List ExchangePrice) (row : ExchangePrice) :
    KeysKept table (createOnConflict table row) := by
  intro r hr
  unfold createOnConflict
  split_ifs with hany
  · by_cases hc : conflicts row r = true
    · exact ⟨doUpdates row r, List.mem_map.2 ⟨r, hr, by rw [if_pos hc]⟩, key_doUpdates row r⟩
    · exact ⟨r, List.mem_map.2 ⟨r, hr, by rw [if_neg hc]⟩, rfl⟩
  · exact ⟨r, List.mem_append_left _ hr, rfl⟩

theorem UpsertExchangePrice_keeps (c : DbCall) (table : List ExchangePrice)
    (price : ExchangePrice) : KeysKept table (UpsertExchangePrice c table price).1 := by
  unfold UpsertExchangePrice
  cases c.failure with
  | some err => exact keysKept_refl table
  | none => exact createOnConflict_keeps table _

theorem FetchAndStorePrice_keeps (env : Env) (client : ExchangeClient)
    (symbol exchangeName : String) (w : World) :
    KeysKept w.store (FetchAndStorePrice env client symbol exchangeName w).1.store := by
  unfold FetchAndStorePrice
  split
  · exact keysKept_refl _
  · exact keysKept_refl _
  · simp only
    split
    · rename_i store err heq
      have h := UpsertExchangePrice_keeps (env.db (w.log (.latestPrice exchangeName symbol)).clock)
        (w.log (.latestPrice exchangeName symbol)).store
        { Symbol := symbol, Exchange := exchangeName, Price := ‹float64›,
          Timestamp := env.now (w.log (.latestPrice exchangeName symbol)).clock }
      rw [heq] at h
      exact h
    · rename_i store heq
      have h := UpsertExchangePrice_keeps (env.db (w.log (.latestPrice exchangeName symbol)).clock)
        (w.log (.latestPrice exchangeName symbol)).store
        { Symbol := symbol, Exchange := exchangeName, Price := ‹float64›,
          Timestamp := env.now (w.log (.latestPrice exchangeName symbol)).clock }
      rw [heq] at h
      exact h

theorem processTicker_keeps (env : Env) (s : PriceMonitorService) (exchangeName : String)
    (client : ExchangeClient) (ticker : Ticker) (w : World) :
    KeysKept w.store (processTicker env s exchangeName client ticker w).1.store := by
  have h := FetchAndStorePrice_keeps env client ticker.Symbol exchangeName w
  unfold processTicker
  simp only
  split
  · rename_i w1 m heq
    rw [heq] at h
    exact h
  · rename_i w1 e heq
    rw [heq] at h
    exact h
  · rename_i w1 latestPrice heq
    rw [heq] at h
    split
    · exact h
    · exact h
    · split_ifs <;> exact h

theorem tickerLoop_cons (env : Env) (s : PriceMonitorService) (exchangeName : String)
    (client : ExchangeClient) (len i : Nat) (ticker : Ticker) (rest : List Ticker) (w : World) :
    tickerLoop env s exchangeName client len i (ticker :: rest) w =
      if env.ctxDone w.clock then (w, .err env.ctxErr)
      else
        match processTicker env s exchangeName client ticker
            (w.log (.ctxCheck exchangeName ticker.Symbol)) with
        | (w1, .panic m) => (w1, .panic m)
        | (w1, .continue_) => tickerLoop env s exchangeName client len (i + 1) rest w1
        | (w1, .reachedDelay) =>
          if s.apiRequestDelay > 0 ∧ (i : Int) < (len : Int) - 1 then
            if env.ctxDone w1.clock then (w1, .err env.ctxErr)
            else tickerLoop env s exchangeName client len (i + 1) rest
              (w1.log (.delay exchangeName s.apiRequestDelay))
          else tickerLoop env s exchangeName client len (i + 1) rest w1 := by
  rw [tickerLoop]

theorem tickerLoop_keeps (env : Env) (s : PriceMonitorService) (exchangeName : String)
    (client : ExchangeClient) (len : Nat) (tickers : List Ticker) :
    ∀ (i : Nat) (w : World),
      KeysKept w.store (tickerLoop env s exchangeName client len i tickers w).1.store := by
  induction tickers with
  | nil =>
    intro i w
    rw [tickerLoop]
    exact keysKept_refl _
  | cons ticker rest ih =>
    intro i w
    have h := processTicker_keeps env s exchangeName client ticker
      (w.log (.ctxCheck exchangeName ticker.Symbol))
    rw [tickerLoop_cons]
    by_cases hdone : env.ctxDone w.clock = true
    · rw [if_pos hdone]
      exact keysKept_refl _
    · rw [if_neg hdone]
      generalize processTicker env s exchangeName client ticker
        (w.log (.ctxCheck exchangeName ticker.Symbol)) = p at h ⊢
      obtain ⟨w1, step⟩ := p
      have h1 : KeysKept w.store w1.store := h
      cases step with
      | panic m => exact h1
      | continue_ => exact keysKept_trans h1 (ih _ _)
      | reachedDelay =>
        simp only
        split_ifs
        · exact h1
        · exact keysKept_trans h1 (ih (i + 1) (w1.log (.delay exchangeName s.apiRequestDelay)))
        · exact keysKept_trans h1 (ih _ _)

theorem exchangeLoop_keeps (env : Env) (s : PriceMonitorService)
    (clients : List (String × ExchangeClient)) :
    ∀ w : World, KeysKept w.store (exchangeLoop env s clients w).1.store := by
  induction clients with
  | nil =>
    intro w
    rw [exchangeLoop]
    exact keysKept_refl _
  | cons head rest ih =>
    intro w
    obtain ⟨exchangeName, client⟩ := head
    rw [exchangeLoop]
    split
    · exact keysKept_refl _
    · exact ih (w.log (.tickers exchangeName s.topNSymbols))
    · rename_i tickers _
      split_ifs
      · exact ih (w.log (.tickers exchangeName s.topNSymbols))
      · have h := tickerLoop_keeps env s exchangeName client tickers.length tickers 0
          (w.log (.tickers exchangeName s.topNSymbols))
        split
        · rename_i w2 heq
          rw [heq] at h
          exact keysKept_trans h (ih _)
        · rename_i w2 exit _ heq
          rw [heq] at h
          exact h

theorem tickerLoop_err (env : Env) (s : PriceMonitorService) (exchangeName : String)
    (client : ExchangeClient) (len : Nat) (tickers : List Ticker) :
    ∀ (i : Nat) (w : World) (msg : String),
      (tickerLoop env s exchangeName client len i tickers w).2 = .err msg →
      msg = env.ctxErr ∧
        env.ctxDone (tickerLoop env s exchangeName client len i tickers w).1.clock = true := by
  induction tickers with
  | nil =>
    intro i w msg h
    rw [tickerLoop] at h
    cases h
  | cons ticker rest ih =>
    intro i w msg
    rw [tickerLoop_cons]
    by_cases hdone : env.ctxDone w.clock = true
    · rw [if_pos hdone]
      intro h
      simp only [Exit.err.injEq] at h
      exact ⟨h.symm, hdone⟩
    · rw [if_neg hdone]
      generalize processTicker env s exchangeName client ticker
        (w.log (.ctxCheck exchangeName ticker.Symbol)) = p
      obtain ⟨w1, step⟩ := p
      cases step with
      | panic m =>
        intro h
        cases h
      | continue_ => exact ih _ _ msg
      | reachedDelay =>
        simp only
        split_ifs with hdelay hdone1
        · intro h
          simp only [Exit.err.injEq] at h
          exact ⟨h.symm, hdone1⟩
        · exact ih _ _ msg
        · exact ih _ _ msg

theorem exchangeLoop_err (env : Env) (s : PriceMonitorService)
    (clients : List (String × ExchangeClient)) :
    ∀ (w : World) (msg : String), (exchangeLoop env s clients w).2 = .err msg →
      msg = env.ctxErr ∧ env.ctxDone (exchangeLoop env s clients w).1.clock = true := by
  induction clients with
  | nil =>
    intro w msg h
    rw [exchangeLoop] at h
    cases h
  | cons head rest ih =>
    intro w msg
    obtain ⟨exchangeName, client⟩ := head
    rw [exchangeLoop]
    split
    · intro h
      cases h
    · exact ih _ msg
    · rename_i tickers _
      split_ifs
      · exact ih _ msg
      · have h := tickerLoop_err env s exchangeName client tickers.length tickers 0
          (w.log (.tickers exchangeName s.topNSymbols)) msg
        split
        · exact ih _ msg
        · rename_i w2 exit _ heq
          rw [heq] at h
          exact h

/-- C9, as stated, fails. The context is not cancelled at the check of the only
ticker (step 1) and is cancelled from step 2 on, while the price of that ticker
is being fetched; the fetch fails, the pass ends after three interactions, and
`RunMonitor` returns nil, not the cancellation error. -/
theorem RunMonitor_cancel_unreported :
    demo.cancelledEnv.ctxDone 1 = false ∧ demo.cancelledEnv.ctxDone 2 = true ∧
    RunMonitor demo.cancelledEnv (demo.svc demo.cancelledClient 0) demo.start =
      ({ trace := [.tickers "BINANCE" 10, .ctxCheck "BINANCE" "BTCUSDT",
                   .latestPrice "BINANCE" "BTCUSDT"],
         store := [] }, .nil) := by
  refine ⟨by decide, by decide, ?_⟩
  simp [RunMonitor, exchangeLoop, tickerLoop, processTicker, FetchAndStorePrice, demo.svc,
    demo.cancelledClient, demo.cancelledEnv, demo.start, demo.btc, World.log, World.clock]

/-- C9, amended. When the context is cancelled at the check that opens a
ticker's iteration, or at the delay after a ticker, the ticker loop returns the
cancellation error there, in the state reached so far and without another
interaction; `RunMonitor` returns that error from that state. Every error
`RunMonitor` returns is the cancellation error, returned at a step where the
context is cancelled, and every record of the table before the pass is still
in the table after it. -/
theorem RunMonitor_cancel_observed (env : Env) (s : PriceMonitorService) :
    (∀ (exchangeName : String) (client : ExchangeClient) (len i : Nat) (ticker : Ticker)
        (rest : List Ticker) (w : World), env.ctxDone w.clock = true →
      tickerLoop env s exchangeName client len i (ticker :: rest) w = (w, .err env.ctxErr)) ∧
    (∀ (exchangeName : String) (client : ExchangeClient) (len i : Nat) (ticker : Ticker)
        (rest : List Ticker) (w w1 : World), env.ctxDone w.clock = false →
      processTicker env s exchangeName client ticker
        (w.log (.ctxCheck exchangeName ticker.Symbol)) = (w1, .reachedDelay) →
      s.apiRequestDelay > 0 → (i : Int) < (len : Int) - 1 →
      env.ctxDone w1.clock = true →
      tickerLoop env s exchangeName client len i (ticker :: rest) w = (w1, .err env.ctxErr)) ∧
    (∀ (exchangeName : String) (client : ExchangeClient)
        (rest : List (String × ExchangeClient)) (w : World) (tickers : List Ticker) (w2 : World)
        (msg : String),
      client.GetTopVolumeTickers w.clock s.topNSymbols = .ok tickers →
      tickerLoop env s exchangeName client tickers.length 0 tickers
        (w.log (.tickers exchangeName s.topNSymbols)) = (w2, .err msg) →
      exchangeLoop env s ((exchangeName, client) :: rest) w = (w2, .err msg)) ∧
    (∀ w msg, (RunMonitor env s w).2 = .err msg →
      msg = env.ctxErr ∧ env.ctxDone (RunMonitor env s w).1.clock = true) ∧
    (∀ w, KeysKept w.store (RunMonitor env s w).1.store) := by
  refine ⟨?_, ?_, ?_, ?_, ?_⟩
  · intro exchangeName client len i ticker rest w hdone
    rw [tickerLoop_cons, if_pos hdone]
  · intro exchangeName client len i ticker rest w w1 hdone hproc hdelay hi hdone1
    rw [tickerLoop_cons, if_neg (by simp [hdone]), hproc]
    simp only
    rw [if_pos ⟨hdelay, hi⟩, if_pos hdone1]
  · intro exchangeName client rest w tickers w2 msg htick hloop
    have hne : ¬ tickers.length = 0 := by
      intro h0
      have : tickers = [] := List.length_eq_zero.1 h0
      subst this
      rw [tickerLoop] at hloop
      cases hloop
    rw [exchangeLoop]
    simp only [htick, if_neg hne, hloop]
  · intro w msg h
    exact exchangeLoop_err env s s.exchangeClients w msg h
  · intro w
    exact exchangeLoop_keeps env s s.exchangeClients w

/-- Witness of C9 (amended): a ticker loop entered at step 2 with the context
cancelled from step 2 on. -/
theorem RunMonitor_cancel_observed_witness :
    demo.cancelledEnv.ctxDone
        (World.clock { trace := [.tickers "BINANCE" 10, .delay "BINANCE" 1], store := [] }) = true ∧
      tickerLoop demo.cancelledEnv (demo.svc demo.cancelledClient 1) "BINANCE"
          demo.cancelledClient 2 1 [demo.btc]
          { trace := [.tickers "BINANCE" 10, .delay "BINANCE" 1], store := [] } =
        ({ trace := [.tickers "BINANCE" 10, .delay "BINANCE" 1], store := [] },
          .err demo.cancelledEnv.ctxErr) :=
  ⟨by decide,
    (RunMonitor_cancel_observed demo.cancelledEnv (demo.svc demo.cancelledClient 1)).1
      "BINANCE" demo.cancelledClient 2 1 demo.btc []
      { trace := [.tickers "BINANCE" 10, .delay "BINANCE" 1], store := [] } (by decide)⟩

/-- C10. A ticker whose candle fetch returns an empty sequence (its price
fetch and upsert having succeeded): the iteration logs the check, the price
fetch, the upsert and the candle fetch and no alert, and the loop goes on with
the next ticker from there, so that the rest of the loop alone decides what the
loop returns; after the last ticker it returns nil. -/
theorem empty_klines_skipped (env : Env) (s : PriceMonitorService) (exchangeName : String)
    (client : ExchangeClient) (len i : Nat) (ticker : Ticker) (rest : List Ticker) (w : World)
    (price : float64)
    (hctx : env.ctxDone w.clock = false)
    (hprice : client.GetLatestPrice (w.clock + 1) ticker.Symbol = .ok price)
    (hdb : (env.db (w.clock + 2)).failure = none)
    (hklines : client.GetKlines (w.clock + 3) ticker.Symbol KlineInterval KlineLimit = .ok []) :
    ∃ w1 : World,
      w1.trace = w.trace ++
        [.ctxCheck exchangeName ticker.Symbol,
         .latestPrice exchangeName ticker.Symbol,
         .upsert { Symbol := ticker.Symbol, Exchange := exchangeName, Price := price,
                   Timestamp := env.now (w.clock + 2) } false,
         .klines exchangeName ticker.Symbol KlineInterval KlineLimit] ∧
      w1.store = (UpsertExchangePrice (env.db (w.clock + 2)) w.store
        { Symbol := ticker.Symbol, Exchange := exchangeName, Price := price,
          Timestamp := env.now (w.clock + 2) }).1 ∧
      tickerLoop env s exchangeName client len i (ticker :: rest) w =
        tickerLoop env s exchangeName client len (i + 1) rest w1 ∧
      (rest = [] → tickerLoop env s exchangeName client len i (ticker :: rest) w = (w1, .nil)) := by
  have hproc : processTicker env s exchangeName client ticker
      (w.log (.ctxCheck exchangeName ticker.Symbol)) =
      ({ trace := w.trace ++
          [.ctxCheck exchangeName ticker.Symbol,
           .latestPrice exchangeName ticker.Symbol,
           .upsert { Symbol := ticker.Symbol, Exchange := exchangeName, Price := price,
                     Timestamp := env.now (w.clock + 2) } false,
           .klines exchangeName ticker.Symbol KlineInterval KlineLimit],
         store := (UpsertExchangePrice (env.db (w.clock + 2)) w.store
          { Symbol := ticker.Symbol, Exchange := exchangeName, Price := price,
            Timestamp := env.now (w.clock + 2) }).1 }, .continue_) := by
    unfold processTicker
    simp only
    rw [FetchAndStorePrice_ok env client ticker.Symbol exchangeName _ price
      (by rw [clock_log]; exact hprice) (by rw [clock_log]; exact hdb)]
    have hclock : World.clock
        { trace := (w.log (.ctxCheck exchangeName ticker.Symbol)).trace ++
            [.latestPrice exchangeName ticker.Symbol,
             .upsert { Symbol := ticker.Symbol, Exchange := exchangeName, Price := price,
                       Timestamp := env.now ((w.log (.ctxCheck exchangeName ticker.Symbol)).clock + 1) }
               false],
          store := (UpsertExchangePrice
            (env.db ((w.log (.ctxCheck exchangeName ticker.Symbol)).clock + 1))
            (w.log (.ctxCheck exchangeName ticker.Symbol)).store
            { Symbol := ticker.Symbol, Exchange := exchangeName, Price := price,
              Timestamp := env.now ((w.log (.ctxCheck exchangeName ticker.Symbol)).clock + 1) }).1 } =
        w.clock + 3 := by
      simp [World.clock, World.log]
    simp only [hclock, hklines]
    simp [World.log, World.clock]
  refine ⟨(processTicker env s exchangeName client ticker
    (w.log (.ctxCheck exchangeName ticker.Symbol))).1, ?_, ?_, ?_, ?_⟩
  · rw [hproc]
  · rw [hproc]
  · rw [tickerLoop_cons, if_neg (by simp [hctx]), hproc]
  · intro hrest
    subst hrest
    rw [tickerLoop_cons, if_neg (by simp [hctx]), hproc]
    simp only
    rw [tickerLoop]

/-- Witness of C10: a pass step over BTCUSDT whose candle list is empty. -/
theorem empty_klines_skipped_witness :
    ∃ w1 : World,
      w1.trace = demo.start.trace ++
        [.ctxCheck "BINANCE" demo.btc.Symbol,
         .latestPrice "BINANCE" demo.btc.Symbol,
         .upsert { Symbol := demo.btc.Symbol, Exchange := "BINANCE", Price := 79,
                   Timestamp := demo.env.now (demo.start.clock + 2) } false,
         .klines "BINANCE" demo.btc.Symbol KlineInterval KlineLimit] ∧
      w1.store = (UpsertExchangePrice (demo.env.db (demo.start.clock + 2)) demo.start.store
        { Symbol := demo.btc.Symbol, Exchange := "BINANCE", Price := 79,
          Timestamp := demo.env.now (demo.start.clock + 2) }).1 ∧
      tickerLoop demo.env (demo.svc (demo.client 79 []) 0) "BINANCE" (demo.client 79 []) 2 0
          [demo.btc, demo.btc] demo.start =
        tickerLoop demo.env (demo.svc (demo.client 79 []) 0) "BINANCE" (demo.client 79 []) 2 1
          [demo.btc] w1 ∧
      ([demo.btc] = [] →
        tickerLoop demo.env (demo.svc (demo.client 79 []) 0) "BINANCE" (demo.client 79 []) 2 0
          [demo.btc, demo.btc] demo.start = (w1, .nil)) :=
  empty_klines_skipped demo.env (demo.svc (demo.client 79 []) 0) "BINANCE" (demo.client 79 [])
    2 0 demo.btc [demo.btc] demo.start 79 rfl rfl rfl rfl

/-! ## Concrete instances -/

/-- Witness of C2: two upserts of BTCUSDT on BINANCE within day 19675 on the
empty table. -/
theorem upsert_same_day_overwrites_witness :
    UniqueKeys [] ∧ (1700000000000 : Int) / 86400000 = 19675 ∧
    (1700000001000 : Int) / 86400000 = 19675 ∧
    ∃ row,
      (UpsertExchangePrice { now := 2, newID := 2, failure := none }
        (UpsertExchangePrice { now := 1, newID := 1, failure := none } []
          { Symbol := "BTCUSDT", Exchange := "BINANCE", Price := 100,
            Timestamp := 1700000000000 }).1
          { Symbol := "BTCUSDT", Exchange := "BINANCE", Price := 101,
            Timestamp := 1700000001000 }).1.filter
          (fun r => decide (key r =
            ("BTCUSDT", "BINANCE", time.UnixMilli (19675 * 86400000)))) = [row] ∧
        row.Price = 101 ∧ row.Timestamp = 1700000001000 :=
  ⟨List.nodup_nil, by decide, by decide,
    (upsert_same_day_overwrites { now := 1, newID := 1, failure := none }
      { now := 2, newID := 2, failure := none } []
      { Symbol := "BTCUSDT", Exchange := "BINANCE", Price := 100, Timestamp := 1700000000000 }
      { Symbol := "BTCUSDT", Exchange := "BINANCE", Price := 101, Timestamp := 1700000001000 }
      19675 rfl rfl List.nodup_nil rfl rfl (by decide) (by decide)).2.2.2⟩

/-- Witness of C3: the first upsert into the empty table. -/
theorem UniqueKeys_invariant_witness :
    UniqueKeys [] ∧
    UniqueKeys (UpsertExchangePrice { now := 1, newID := 1, failure := none } []
      { Symbol := "BTCUSDT", Exchange := "BINANCE", Price := 100,
        Timestamp := 1700000000000 }).1 :=
  ⟨List.nodup_nil, UniqueKeys_invariant.1 _ [] _ List.nodup_nil⟩

/-- Witness of C4: a Binance reply with four raw tickers, none with a volume
that reads as NaN, and the limit 2. -/
theorem GetTopVolumeTickers_sorted_witness :
    (∀ raw ∈ ([⟨"BTCUSDT", "1", "5"⟩, ⟨"ETHUSDT", "2", "7"⟩, ⟨"ETHBTC", "3", "9"⟩,
        ⟨"XUSDT", "4", "x"⟩] : List BinanceRawTicker),
      BinanceClient.eligible parseDigits raw = true → parseDigits raw.Volume ≠ some .NaN) ∧
    BinanceClient.GetTopVolumeTickers parseDigits
        (.answered 200 "200 OK" (.decoded
          [⟨"BTCUSDT", "1", "5"⟩, ⟨"ETHUSDT", "2", "7"⟩, ⟨"ETHBTC", "3", "9"⟩,
           ⟨"XUSDT", "4", "x"⟩])) 2 =
      .ok [⟨"ETHUSDT", 2, 7⟩, ⟨"BTCUSDT", 1, 5⟩] ∧
    List.Pairwise (fun a b : Ticker => a.Volume ≥ b.Volume)
      [⟨"ETHUSDT", 2, 7⟩, ⟨"BTCUSDT", 1, 5⟩] :=
  ⟨by decide, by decide, (GetTopVolumeTickers_sorted parseDigits 2).1 200 "200 OK"
    [⟨"BTCUSDT", "1", "5"⟩, ⟨"ETHUSDT", "2", "7"⟩, ⟨"ETHBTC", "3", "9"⟩, ⟨"XUSDT", "4", "x"⟩]
    [⟨"ETHUSDT", 2, 7⟩, ⟨"BTCUSDT", 1, 5⟩] (by decide) (by decide)⟩

/-- Witness of C5: an OKEX reply with two available tickers and the limit 1. -/
theorem GetTopVolumeTickers_length_witness :
    (0 : Int) ≤ 1 ∧ ∃ l,
      OKEXClient.GetTopVolumeTickers parseDigits
        (.answered StatusOK "200 OK" (.decoded { Code := "0", Msg := "", Data :=
          [⟨"BTC-USDT", "1", "5"⟩, ⟨"ETH-USDT", "2", "7"⟩, ⟨"ETH-BTC", "3", "9"⟩] }))
        1 = .ok l ∧
      (l.length : Int) = min 1 ((List.filter (OKEXClient.eligible parseDigits)
          [⟨"BTC-USDT", "1", "5"⟩, ⟨"ETH-USDT", "2", "7"⟩, ⟨"ETH-BTC", "3", "9"⟩]).length : Int) :=
  ⟨by decide, (GetTopVolumeTickers_length parseDigits 1 (by decide)).2 "200 OK" ""
    [⟨"BTC-USDT", "1", "5"⟩, ⟨"ETH-USDT", "2", "7"⟩, ⟨"ETH-BTC", "3", "9"⟩]⟩

/-- Witness of C6: an OKEX reply holding one instrument outside the
convention. -/
theorem GetTopVolumeTickers_usdt_only_witness :
    OKEXClient.GetTopVolumeTickers parseDigits
        (.answered StatusOK "200 OK" (.decoded { Code := "0", Msg := "", Data :=
          [⟨"BTC-USDT", "1", "5"⟩, ⟨"ETH-BTC", "3", "9"⟩] })) 5 =
      .ok [⟨"BTCUSDT", 1, 5⟩] ∧
    ∃ status response,
      (HttpReply.answered StatusOK "200 OK" (.decoded { Code := "0", Msg := "", Data :=
          [⟨"BTC-USDT", "1", "5"⟩, ⟨"ETH-BTC", "3", "9"⟩] }) : HttpReply OKEXTickersResponse) =
        .answered StatusOK status (.decoded response) ∧
      ∀ t ∈ [(⟨"BTCUSDT", 1, 5⟩ : Ticker)], HasSuffix t.Symbol "USDT" = true ∧
        ∃ raw ∈ response.Data, HasSuffix raw.InstID "-USDT" = true ∧
          t.Symbol = ReplaceAll raw.InstID "-" "" ∧
          parseDigits raw.LastPrice = some t.Price ∧ parseDigits raw.Vol24h = some t.Volume :=
  ⟨by decide, (GetTopVolumeTickers_usdt_only parseDigits 5).2.2.2.1
    (.answered StatusOK "200 OK" (.decoded { Code := "0", Msg := "", Data :=
      [⟨"BTC-USDT", "1", "5"⟩, ⟨"ETH-BTC", "3", "9"⟩] }))
    [⟨"BTCUSDT", 1, 5⟩] (by decide)⟩


/-! ## Failures inside a pass -/

theorem FetchAndStorePrice_error (env : Env) (client : ExchangeClient)
    (symbol exchangeName : String) (w : World) (err : String)
    (hprice : client.GetLatestPrice w.clock symbol = .error err) :
    FetchAndStorePrice env client symbol exchangeName w =
      (w.log (.latestPrice exchangeName symbol),
        .error ("failed to get latest price for " ++ symbol ++ " from " ++ exchangeName ++
          ": " ++ err)) := by
  unfold FetchAndStorePrice
  rw [hprice]

theorem FetchAndStorePrice_upsert_failed (env : Env) (client : ExchangeClient)
    (symbol exchangeName : String) (w : World) (price : float64) (err : String)
    (hprice : client.GetLatestPrice w.clock symbol = .ok price)
    (hdb : (env.db (w.clock + 1)).failure = some err) :
    FetchAndStorePrice env client symbol exchangeName w =
      ({ trace := w.trace ++ [.latestPrice exchangeName symbol,
            .upsert { Symbol := symbol, Exchange := exchangeName, Price := price,
                      Timestamp := env.now (w.clock + 1) } true],
         store := w.store },
        .error ("failed to upsert exchange price: " ++
          ("failed to upsert exchange price: " ++ err))) := by
  unfold FetchAndStorePrice
  rw [hprice]
  simp only [clock_log]
  simp [World.log, UpsertExchangePrice, hdb]

/-- C11. A ticker whose price fetch fails: `FetchAndStorePrice` makes no upsert
and leaves the table as it was, the iteration logs the check and the price
fetch only (no candle fetch, no alert), and the loop goes on with the next
ticker. A ticker whose price fetch succeeds and whose upsert fails: the
iteration logs the check, the price fetch and the failed upsert only, the table
is as before, and the loop goes on with the next ticker. -/
theorem failed_price_skipped (env : Env) (s : PriceMonitorService) (exchangeName : String)
    (client : ExchangeClient) (len i : Nat) (ticker : Ticker) (rest : List Ticker) (w : World) :
    (∀ err : String, env.ctxDone w.clock = false →
      client.GetLatestPrice (w.clock + 1) ticker.Symbol = .error err →
      (FetchAndStorePrice env client ticker.Symbol exchangeName
          (w.log (.ctxCheck exchangeName ticker.Symbol))).1 =
        { trace := w.trace ++ [.ctxCheck exchangeName ticker.Symbol,
            .latestPrice exchangeName ticker.Symbol],
          store := w.store } ∧
      tickerLoop env s exchangeName client len i (ticker :: rest) w =
        tickerLoop env s exchangeName client len (i + 1) rest
          { trace := w.trace ++ [.ctxCheck exchangeName ticker.Symbol,
              .latestPrice exchangeName ticker.Symbol],
            store := w.store }) ∧
    (∀ (price : float64) (err : String), env.ctxDone w.clock = false →
      client.GetLatestPrice (w.clock + 1) ticker.Symbol = .ok price →
      (env.db (w.clock + 2)).failure = some err →
      tickerLoop env s exchangeName client len i (ticker :: rest) w =
        tickerLoop env s exchangeName client len (i + 1) rest
          { trace := w.trace ++ [.ctxCheck exchangeName ticker.Symbol,
              .latestPrice exchangeName ticker.Symbol,
              .upsert { Symbol := ticker.Symbol, Exchange := exchangeName, Price := price,
                        Timestamp := env.now (w.clock + 2) } true],
            store := w.store }) := by
  constructor
  · intro err hctx hprice
    have hfetch := FetchAndStorePrice_error env client ticker.Symbol exchangeName
      (w.log (.ctxCheck exchangeName ticker.Symbol)) err (by rw [clock_log]; exact hprice)
    constructor
    · rw [hfetch]
      simp [World.log]
    · rw [tickerLoop_cons, if_neg (by simp [hctx])]
      unfold processTicker
      simp only
      rw [hfetch]
      simp [World.log]
  · intro price err hctx hprice hdb
    have hfetch := FetchAndStorePrice_upsert_failed env client ticker.Symbol exchangeName
      (w.log (.ctxCheck exchangeName ticker.Symbol)) price err
      (by rw [clock_log]; exact hprice) (by rw [clock_log]; exact hdb)
    rw [tickerLoop_cons, if_neg (by simp [hctx])]
    unfold processTicker
    simp only
    rw [hfetch]
    simp [World.log, World.clock]

theorem unixMilli_injective {a b : Int} (h : time.UnixMilli a = time.UnixMilli b) : a = b := by
  unfold time.UnixMilli time.Millisecond at h
  have h1 : (a * 1000000 : Int) = b * 1000000 := h
  omega

/-- C13. For every timestamp `t` in epoch milliseconds, negative or not, the
date `UpsertExchangePrice` derives is the instant `t - t mod 86400000` (floor
modulus): it is at most `t`, less than a day before `t`, and a whole number of
days from the epoch. Two timestamps get the same date exactly when they lie in
the same UTC day, and a successful upsert leaves a row of the record's symbol
and exchange with that date. -/
theorem dateOf_utc_midnight :
    (∀ t : Int, dateOf t = time.UnixMilli (t - t % 86400000) ∧
      t - t % 86400000 ≤ t ∧ t < t - t % 86400000 + 86400000 ∧
      (86400000 : Int) ∣ t - t % 86400000) ∧
    (∀ t1 t2 : Int, dateOf t1 = dateOf t2 ↔ t1 / 86400000 = t2 / 86400000) ∧
    (∀ (c : DbCall) (table : List ExchangePrice) (price : ExchangePrice), c.failure = none →
      ∃ r ∈ (UpsertExchangePrice c table price).1,
        r.Symbol = price.Symbol ∧ r.Exchange = price.Exchange ∧
        r.Date = time.UnixMilli (price.Timestamp - price.Timestamp % 86400000) ∧
        r.Timestamp = price.Timestamp) := by
  have hday : ∀ t : Int, t / 86400000 * 86400000 = t - t % 86400000 := by
    intro t
    omega
  refine ⟨?_, ?_, ?_⟩
  · intro t
    refine ⟨by rw [dateOf_eq, hday], by omega, by omega, ?_⟩
    rw [← hday]
    exact Dvd.intro_left _ rfl
  · intro t1 t2
    rw [dateOf_eq, dateOf_eq]
    constructor
    · intro h
      have := unixMilli_injective h
      omega
    · intro h
      rw [h]
  · intro c table price hc
    rw [UpsertExchangePrice_ok hc]
    obtain ⟨⟨r, hr, hk⟩, hvals⟩ :=
      createOnConflict_values table (proposed c { price with Date := dateOf price.Timestamp })
    refine ⟨r, hr, ?_⟩
    have hts := (hvals r hr hk).2
    rw [key_proposed] at hk
    simp only [key, Prod.mk.injEq] at hk
    refine ⟨hk.1, hk.2.1, ?_, hts⟩
    rw [hk.2.2, dateOf_eq, hday]

/-- Witness of C13: the first upsert of a record stamped 1700000000000. -/
theorem dateOf_utc_midnight_witness :
    ∃ r ∈ (UpsertExchangePrice { now := 1, newID := 1, failure := none } []
        { Symbol := "BTCUSDT", Exchange := "BINANCE", Price := 100,
          Timestamp := 1700000000000 }).1,
      r.Symbol = "BTCUSDT" ∧ r.Exchange = "BINANCE" ∧
      r.Date = time.UnixMilli (1700000000000 - 1700000000000 % 86400000) ∧
      r.Timestamp = 1700000000000 :=
  dateOf_utc_midnight.2.2 { now := 1, newID := 1, failure := none } []
    { Symbol := "BTCUSDT", Exchange := "BINANCE", Price := 100, Timestamp := 1700000000000 } rfl

/-- C14, as stated, fails. An upsert that hits the existing row of BTCUSDT on
BINANCE for the day changes its price and timestamp and also its `UpdatedAt`,
from 1000 to the time of the statement, 2000; id and `CreatedAt` stay. -/
theorem upsert_conflict_touches_updated_at :
    (UpsertExchangePrice { now := 2000, newID := 8, failure := none }
        [{ ID := 7, CreatedAt := 1000, UpdatedAt := 1000, Symbol := "BTCUSDT",
           Exchange := "BINANCE", Price := 100, Timestamp := 1700000000000,
           Date := 1699920000000000000 }]
        { Symbol := "BTCUSDT", Exchange := "BINANCE", Price := 101,
          Timestamp := 1700000001000 }).1 =
      [{ ID := 7, CreatedAt := 1000, UpdatedAt := 2000, Symbol := "BTCUSDT",
         Exchange := "BINANCE", Price := 101, Timestamp := 1700000001000,
         Date := 1699920000000000000 }] := by
  decide

theorem createOnConflict_of_any {table : List ExchangePrice} {row : ExchangePrice}
    (h : table.any (conflicts row) = true) :
    createOnConflict table row =
      table.map (fun r => if conflicts row r then doUpdates row r else r) := by
  unfold createOnConflict
  rw [if_pos h]

/-- C14, amended. When `UpsertExchangePrice` succeeds and hits an existing row
with the record's (symbol, exchange, date), the table keeps its length and
order; a row with that key gets the record's price and timestamp and the
`UpdatedAt` of the statement (the current time for a record with a zero
`UpdatedAt`), and keeps its id, `CreatedAt`, `DeletedAt`, symbol, exchange and
date; every row with another key is unchanged. -/
theorem upsert_conflict_frame (c : DbCall) (table : List ExchangePrice) (price : ExchangePrice)
    (hc : c.failure = none)
    (hhit : ∃ r ∈ table, r.Symbol = price.Symbol ∧ r.Exchange = price.Exchange ∧
      r.Date = dateOf price.Timestamp) :
    List.Forall₂
      (fun before after =>
        if before.Symbol = price.Symbol ∧ before.Exchange = price.Exchange ∧
            before.Date = dateOf price.Timestamp then
          after.Price = price.Price ∧ after.Timestamp = price.Timestamp ∧
          after.UpdatedAt = (if price.UpdatedAt = time.zero then c.now else price.UpdatedAt) ∧
          after.ID = before.ID ∧ after.CreatedAt = before.CreatedAt ∧
          after.DeletedAt = before.DeletedAt ∧ after.Symbol = before.Symbol ∧
          after.Exchange = before.Exchange ∧ after.Date = before.Date
        else after = before)
      table (UpsertExchangePrice c table price).1 := by
  rw [UpsertExchangePrice_ok hc]
  simp only
  have hany : table.any (conflicts (proposed c { price with Date := dateOf price.Timestamp })) =
      true := by
    obtain ⟨r, hr, h1, h2, h3⟩ := hhit
    refine List.any_eq_true.2 ⟨r, hr, ?_⟩
    simp [conflicts, proposed, h1, h2, h3]
  rw [createOnConflict_of_any hany, List.forall₂_map_right_iff, List.forall₂_same]
  intro r _
  by_cases hk : r.Symbol = price.Symbol ∧ r.Exchange = price.Exchange ∧
      r.Date = dateOf price.Timestamp
  · have hconf : conflicts (proposed c { price with Date := dateOf price.Timestamp }) r = true := by
      simp [conflicts, proposed, hk.1, hk.2.1, hk.2.2]
    rw [if_pos hk, if_pos hconf]
    simp [doUpdates, proposed]
  · have hconf : ¬ conflicts (proposed c { price with Date := dateOf price.Timestamp }) r = true := by
      intro h
      apply hk
      simp only [conflicts, proposed, decide_eq_true_eq] at h
      exact ⟨h.1.symm, h.2.1.symm, h.2.2.symm⟩
    rw [if_neg hk, if_neg hconf]

/-- Witness of C14 (amended): the table and record of the counterexample. -/
theorem upsert_conflict_frame_witness :
    List.Forall₂
      (fun before after =>
        if before.Symbol = "BTCUSDT" ∧ before.Exchange = "BINANCE" ∧
            before.Date = dateOf 1700000001000 then
          after.Price = 101 ∧ after.Timestamp = 1700000001000 ∧
          after.UpdatedAt = (if time.zero = time.zero then 2000 else time.zero) ∧
          after.ID = before.ID ∧ after.CreatedAt = before.CreatedAt ∧
          after.DeletedAt = before.DeletedAt ∧ after.Symbol = before.Symbol ∧
          after.Exchange = before.Exchange ∧ after.Date = before.Date
        else after = before)
      [{ ID := 7, CreatedAt := 1000, UpdatedAt := 1000, Symbol := "BTCUSDT",
         Exchange := "BINANCE", Price := 100, Timestamp := 1700000000000,
         Date := 1699920000000000000 }]
      (UpsertExchangePrice { now := 2000, newID := 8, failure := none }
        [{ ID := 7, CreatedAt := 1000, UpdatedAt := 1000, Symbol := "BTCUSDT",
           Exchange := "BINANCE", Price := 100, Timestamp := 1700000000000,
           Date := 1699920000000000000 }]
        { Symbol := "BTCUSDT", Exchange := "BINANCE", Price := 101,
          Timestamp := 1700000001000 }).1 :=
  upsert_conflict_frame { now := 2000, newID := 8, failure := none }
    [{ ID := 7, CreatedAt := 1000, UpdatedAt := 1000, Symbol := "BTCUSDT",
       Exchange := "BINANCE", Price := 100, Timestamp := 1700000000000,
       Date := 1699920000000000000 }]
    { Symbol := "BTCUSDT", Exchange := "BINANCE", Price := 101, Timestamp := 1700000001000 }
    rfl ⟨_, List.mem_singleton_self _, rfl, rfl, by decide⟩

/-! ## Order of upserts -/

theorem mem_createOnConflict_of_ne (table : List ExchangePrice) (row r : ExchangePrice)
    (hne : key r ≠ key row) : r ∈ createOnConflict table row ↔ r ∈ table := by
  unfold createOnConflict
  split_ifs with hany
  · rw [List.mem_map]
    constructor
    · rintro ⟨r0, hr0, hf⟩
      by_cases hc : conflicts row r0 = true
      · rw [if_pos hc] at hf
        subst hf
        exact absurd (by rw [key_doUpdates]; exact ((conflicts_iff row r0).1 hc).symm) hne
      · rw [if_neg hc] at hf
        subst hf
        exact hr0
    · intro hr
      refine ⟨r, hr, ?_⟩
      rw [if_neg]
      intro hc
      exact hne ((conflicts_iff row r).1 hc).symm
  · rw [List.mem_append, List.mem_singleton]
    constructor
    · rintro (h | h)
      · exact h
      · subst h
        exact absurd rfl hne
    · exact Or.inl

theorem any_conflicts_congr (table : List ExchangePrice) {a b : ExchangePrice}
    (h : key a = key b) : table.any (conflicts a) = table.any (conflicts b) := by
  have hfun : conflicts a = conflicts b := by
    funext r
    simp only [key, Prod.mk.injEq] at h
    simp [conflicts, h.1, h.2.1, h.2.2]
  rw [hfun]

theorem map_key_createOnConflict (table : List ExchangePrice) (row : ExchangePrice) :
    (createOnConflict table row).map key =
      if table.any (conflicts row) then table.map key else table.map key ++ [key row] := by
  split_ifs with hany
  · exact map_key_createOnConflict_of_any hany
  · unfold createOnConflict
    rw [if_neg hany, List.map_append, List.map_singleton]

theorem any_conflicts_after (table : List ExchangePrice) {a b : ExchangePrice}
    (h : key a = key b) : (createOnConflict table a).any (conflicts b) = true := by
  obtain ⟨⟨r, hr, hk⟩, -⟩ := createOnConflict_values table a
  exact List.any_eq_true.2 ⟨r, hr, (conflicts_iff b r).2 (by rw [hk, h])⟩

/-- C15, as stated, fails. On the empty table, two records of BTCUSDT on
BINANCE for the same day with prices 100 and 101: upserted in this order the
row of the key carries 101, in the other order it carries 100. -/
theorem upsert_order_matters :
    dateOf 1700000000000 = dateOf 1700000001000 ∧
    ((UpsertExchangePrice { now := 2, newID := 2, failure := none }
        (UpsertExchangePrice { now := 1, newID := 1, failure := none } []
          { Symbol := "BTCUSDT", Exchange := "BINANCE", Price := 100,
            Timestamp := 1700000000000 }).1
        { Symbol := "BTCUSDT", Exchange := "BINANCE", Price := 101,
          Timestamp := 1700000001000 }).1.map (fun r => r.Price)) = [101] ∧
    ((UpsertExchangePrice { now := 2, newID := 2, failure := none }
        (UpsertExchangePrice { now := 1, newID := 1, failure := none } []
          { Symbol := "BTCUSDT", Exchange := "BINANCE", Price := 101,
            Timestamp := 1700000001000 }).1
        { Symbol := "BTCUSDT", Exchange := "BINANCE", Price := 100,
          Timestamp := 1700000000000 }).1.map (fun r => r.Price)) = [100] := by
  decide

/-- C15, amended. The upsert is last-write-wins per (symbol, exchange, date).
For two records with the same key upserted successfully in either order, the
two final tables have the same keys in the same order and the same rows for
every other key; the rows of the shared key carry the price and timestamp of
the record upserted last, so the two orders agree on that key only as far as
the two records agree. -/
theorem upsert_last_write_wins (ca cb : DbCall) (table : List ExchangePrice)
    (r1 r2 : ExchangePrice)
    (hca : ca.failure = none) (hcb : cb.failure = none)
    (hsym : r1.Symbol = r2.Symbol) (hex : r1.Exchange = r2.Exchange)
    (hday : dateOf r1.Timestamp = dateOf r2.Timestamp) :
    ((UpsertExchangePrice cb (UpsertExchangePrice ca table r1).1 r2).1.map key =
      (UpsertExchangePrice cb (UpsertExchangePrice ca table r2).1 r1).1.map key) ∧
    (∀ r, key r ≠ (r1.Symbol, r1.Exchange, dateOf r1.Timestamp) →
      (r ∈ (UpsertExchangePrice cb (UpsertExchangePrice ca table r1).1 r2).1 ↔
        r ∈ (UpsertExchangePrice cb (UpsertExchangePrice ca table r2).1 r1).1)) ∧
    (∀ r ∈ (UpsertExchangePrice cb (UpsertExchangePrice ca table r1).1 r2).1,
      key r = (r1.Symbol, r1.Exchange, dateOf r1.Timestamp) →
      r.Price = r2.Price ∧ r.Timestamp = r2.Timestamp) ∧
    (∀ r ∈ (UpsertExchangePrice cb (UpsertExchangePrice ca table r2).1 r1).1,
      key r = (r1.Symbol, r1.Exchange, dateOf r1.Timestamp) →
      r.Price = r1.Price ∧ r.Timestamp = r1.Timestamp) := by
  have hk1a : key (proposed ca { r1 with Date := dateOf r1.Timestamp }) =
      (r1.Symbol, r1.Exchange, dateOf r1.Timestamp) := rfl
  have hk1b : key (proposed cb { r1 with Date := dateOf r1.Timestamp }) =
      (r1.Symbol, r1.Exchange, dateOf r1.Timestamp) := rfl
  have hk2a : key (proposed ca { r2 with Date := dateOf r2.Timestamp }) =
      (r1.Symbol, r1.Exchange, dateOf r1.Timestamp) := by
    rw [key_proposed]
    simp [key, hsym, hex, hday]
  have hk2b : key (proposed cb { r2 with Date := dateOf r2.Timestamp }) =
      (r1.Symbol, r1.Exchange, dateOf r1.Timestamp) := by
    rw [key_proposed]
    simp [key, hsym, hex, hday]
  rw [UpsertExchangePrice_ok hca, UpsertExchangePrice_ok hca, UpsertExchangePrice_ok hcb,
    UpsertExchangePrice_ok hcb]
  simp only
  refine ⟨?_, ?_, ?_, ?_⟩
  · rw [map_key_createOnConflict_of_any (any_conflicts_after table (hk1a.trans hk2b.symm)),
      map_key_createOnConflict_of_any (any_conflicts_after table (hk2a.trans hk1b.symm)),
      map_key_createOnConflict, map_key_createOnConflict,
      any_conflicts_congr table (hk1a.trans hk2a.symm), hk1a, hk2a]
  · intro r hr
    rw [mem_createOnConflict_of_ne _ _ r (by rw [hk2b]; exact hr),
      mem_createOnConflict_of_ne _ _ r (by rw [hk1a]; exact hr),
      mem_createOnConflict_of_ne _ _ r (by rw [hk1b]; exact hr),
      mem_createOnConflict_of_ne _ _ r (by rw [hk2a]; exact hr)]
  · intro r hr hk
    exact (createOnConflict_values
      (createOnConflict table (proposed ca { r1 with Date := dateOf r1.Timestamp }))
      (proposed cb { r2 with Date := dateOf r2.Timestamp })).2 r hr (hk.trans hk2b.symm)
  · intro r hr hk
    exact (createOnConflict_values
      (createOnConflict table (proposed ca { r2 with Date := dateOf r2.Timestamp }))
      (proposed cb { r1 with Date := dateOf r1.Timestamp })).2 r hr (hk.trans hk1b.symm)

/-- Witness of C15 (amended): the two records of the counterexample on the
empty table. -/
theorem upsert_last_write_wins_witness :
    dateOf 1700000000000 = dateOf 1700000001000 ∧
    ∀ r ∈ (UpsertExchangePrice { now := 2, newID := 2, failure := none }
        (UpsertExchangePrice { now := 1, newID := 1, failure := none } []
          { Symbol := "BTCUSDT", Exchange := "BINANCE", Price := 100,
            Timestamp := 1700000000000 }).1
        { Symbol := "BTCUSDT", Exchange := "BINANCE", Price := 101,
          Timestamp := 1700000001000 }).1,
      key r = ("BTCUSDT", "BINANCE", dateOf 1700000000000) →
      r.Price = 101 ∧ r.Timestamp = 1700000001000 :=
  ⟨by decide,
    (upsert_last_write_wins { now := 1, newID := 1, failure := none }
      { now := 2, newID := 2, failure := none } []
      { Symbol := "BTCUSDT", Exchange := "BINANCE", Price := 100, Timestamp := 1700000000000 }
      { Symbol := "BTCUSDT", Exchange := "BINANCE", Price := 101, Timestamp := 1700000001000 }
      rfl rfl rfl rfl (by decide)).2.2.1⟩

/-! ## The average over the last days -/

/-- C20, as stated, fails. On the empty table no row matches, and
`GetAveragePriceForLastNDays` returns 0 together with the error of scanning
the NULL average, not a nil error. -/
theorem average_of_no_rows_is_error :
    GetAveragePriceForLastNDays 1700000000000000000 none [] "BTCUSDT" "BINANCE" 30 =
      (0, some "sql: Scan error on column index 0: converting NULL to float64 is unsupported") := by
  decide

/-- C20, amended. Whenever no stored row matches the filter,
`GetAveragePriceForLastNDays` returns 0 together with a non-nil error: the
error of the session if the query fails, the error of scanning a NULL average
otherwise. -/
theorem average_of_no_match (now : time.Time) (failure : Option String)
    (table : List ExchangePrice) (symbol exchange : String) (days : Int)
    (hnone : ∀ r ∈ table,
      ¬ (r.DeletedAt = none ∧ r.Symbol = symbol ∧ r.Exchange = exchange ∧
        r.Date ≥ time.AddDays now (-days))) :
    (GetAveragePriceForLastNDays now failure table symbol exchange days).1 = 0 ∧
    (GetAveragePriceForLastNDays now failure table symbol exchange days).2 ≠ none := by
  have hfilter : table.filter (selected (time.AddDays now (-days)) symbol exchange) = [] := by
    rw [List.filter_eq_nil_iff]
    intro r hr hsel
    exact hnone r hr (by simpa [selected] using hsel)
  unfold GetAveragePriceForLastNDays
  simp only
  cases failure with
  | some err => simp
  | none => simp [hfilter, avgPrice]

/-- Witness of C20 (amended): a table whose only row belongs to another
symbol. -/
theorem average_of_no_match_witness :
    (GetAveragePriceForLastNDays 1700000000000000000 none
        [{ Symbol := "ETHUSDT", Exchange := "BINANCE", Price := 100,
           Timestamp := 1700000000000, Date := 1699920000000000000 }]
        "BTCUSDT" "BINANCE" 30).1 = 0 ∧
    (GetAveragePriceForLastNDays 1700000000000000000 none
        [{ Symbol := "ETHUSDT", Exchange := "BINANCE", Price := 100,
           Timestamp := 1700000000000, Date := 1699920000000000000 }]
        "BTCUSDT" "BINANCE" 30).2 ≠ none :=
  average_of_no_match 1700000000000000000 none
    [{ Symbol := "ETHUSDT", Exchange := "BINANCE", Price := 100,
       Timestamp := 1700000000000, Date := 1699920000000000000 }]
    "BTCUSDT" "BINANCE" 30 (by decide)

/-! ## Latest price -/

/-- C19. On a 200 reply whose body decodes, `OKEXClient.GetLatestPrice` returns
an error exactly when the code is not "0", or the data list is empty, or the
`last` field of the first entry does not parse; otherwise it returns the parsed
number; it never panics, so the first entry is not read from an empty list. On
a reply with another status both `GetLatestPrice` return an error. -/
theorem GetLatestPrice_failure (ParseFloat : String → Option float64) :
    (∀ (send : String → HttpReply OKEXPriceResponse) (symbol status : String)
        (response : OKEXPriceResponse),
      send (okexAPIURL ++ "/tickers?instType=SPOT&instId=" ++ OKEXClient.instId symbol) =
        .answered StatusOK status (.decoded response) →
      ((∃ err, OKEXClient.GetLatestPrice ParseFloat send symbol = .error err) ↔
        (response.Code ≠ "0" ∨ response.Data = [] ∨
          ∃ entry, response.Data.head? = some entry ∧ ParseFloat entry.Last = none)) ∧
      (∀ entry price, response.Code = "0" → response.Data.head? = some entry →
        ParseFloat entry.Last = some price →
        OKEXClient.GetLatestPrice ParseFloat send symbol = .ok price) ∧
      (∀ m, OKEXClient.GetLatestPrice ParseFloat send symbol ≠ .panic m)) ∧
    (∀ (send : String → HttpReply OKEXPriceResponse) (symbol status : String) (code : Int)
        (body : Body OKEXPriceResponse), code ≠ StatusOK →
      send (okexAPIURL ++ "/tickers?instType=SPOT&instId=" ++ OKEXClient.instId symbol) =
        .answered code status body →
      OKEXClient.GetLatestPrice ParseFloat send symbol =
        .error ("OKEX API returned non-OK status: " ++ status)) ∧
    (∀ (send : String → HttpReply BinancePriceResponse) (symbol status : String) (code : Int)
        (body : Body BinancePriceResponse), code ≠ StatusOK →
      send (binanceAPIURL ++ "/ticker/price?symbol=" ++ symbol) = .answered code status body →
      BinanceClient.GetLatestPrice ParseFloat send symbol =
        .error ("binance API returned non-OK status: " ++ status)) := by
  refine ⟨?_, ?_, ?_⟩
  · intro send symbol status response hsend
    have hval : OKEXClient.GetLatestPrice ParseFloat send symbol =
        if response.Code ≠ "0" ∨ response.Data.length = 0 then
          .error ("OKEX API error: " ++ response.Code ++ " - " ++ response.Msg)
        else
          match response.Data[0]? with
          | none => .panic "index out of range"
          | some entry =>
            match ParseFloat entry.Last with
            | none => .error "failed to parse price"
            | some price => .ok price := by
      unfold OKEXClient.GetLatestPrice
      simp only [hsend]
      rw [if_neg (by simp)]
    rw [hval]
    cases hdata : response.Data with
    | nil => simp
    | cons entry rest =>
      by_cases hcode : response.Code = "0"
      · cases hparse : ParseFloat entry.Last with
        | none =>
          simp [hcode, hparse]
          intro entry1 price1 h1 h2
          subst h1
          rw [hparse] at h2
          cases h2
        | some price =>
          simp [hcode, hparse]
          intro entry1 price1 h1 h2
          subst h1
          rw [hparse] at h2
          exact Option.some.inj h2
      · simp [hcode]
  · intro send symbol status code body hcode hsend
    unfold OKEXClient.GetLatestPrice
    simp only [hsend]
    rw [if_pos hcode]
  · intro send symbol status code body hcode hsend
    unfold BinanceClient.GetLatestPrice
    simp only [hsend]
    rw [if_pos hcode]

/-- Witness of C19: an OKEX reply with status 200, code "0" and one entry
quoting 42. -/
theorem GetLatestPrice_failure_witness :
    ((∃ err, OKEXClient.GetLatestPrice parseDigits
        (fun _ => .answered StatusOK "200 OK"
          (.decoded { Code := "0", Msg := "", Data := [{ InstId := "BTC-USDT", Last := "42" }] }))
        "BTCUSDT" = .error err) ↔
      (("0" : String) ≠ "0" ∨ [({ InstId := "BTC-USDT", Last := "42" } : OKEXPriceEntry)] = [] ∨
        ∃ entry, [({ InstId := "BTC-USDT", Last := "42" } : OKEXPriceEntry)].head? = some entry ∧
          parseDigits entry.Last = none)) ∧
    OKEXClient.GetLatestPrice parseDigits
        (fun _ => .answered StatusOK "200 OK"
          (.decoded { Code := "0", Msg := "", Data := [{ InstId := "BTC-USDT", Last := "42" }] }))
        "BTCUSDT" = .ok 42 :=
  ⟨((GetLatestPrice_failure parseDigits).1
      (fun _ => .answered StatusOK "200 OK"
        (.decoded { Code := "0", Msg := "", Data := [{ InstId := "BTC-USDT", Last := "42" }] }))
      "BTCUSDT" "200 OK"
      { Code := "0", Msg := "", Data := [{ InstId := "BTC-USDT", Last := "42" }] } rfl).1,
    ((GetLatestPrice_failure parseDigits).1
      (fun _ => .answered StatusOK "200 OK"
        (.decoded { Code := "0", Msg := "", Data := [{ InstId := "BTC-USDT", Last := "42" }] }))
      "BTCUSDT" "200 OK"
      { Code := "0", Msg := "", Data := [{ InstId := "BTC-USDT", Last := "42" }] } rfl).2.1
      { InstId := "BTC-USDT", Last := "42" } 42 rfl rfl (by decide)⟩

/-! ## Candle intervals -/

theorem ne_of_head {a b : String} (h : a.data.head? ≠ b.data.head?) : a ≠ b := by
  intro hab
  exact h (by rw [hab])

theorem head_append (lit e : String) (c : Char) (h : lit.data.head? = some c) :
    (lit ++ e).data.head? = some c := by
  rw [String.data_append]
  cases hl : lit.data with
  | nil => rw [hl] at h; cases h
  | cons x xs =>
    rw [hl] at h
    simpa using h

theorem okexInterval_none_iff (interval : String) :
    OKEXClient.okexInterval interval = none ↔
      interval ∉ ["1m", "5m", "15m", "30m", "1h", "4h", "1d"] := by
  unfold OKEXClient.okexInterval
  by_cases h1 : interval = "1m"
  · subst h1; decide
  by_cases h2 : interval = "5m"
  · subst h2; decide
  by_cases h3 : interval = "15m"
  · subst h3; decide
  by_cases h4 : interval = "30m"
  · subst h4; decide
  by_cases h5 : interval = "1h"
  · subst h5; decide
  by_cases h6 : interval = "4h"
  · subst h6; decide
  by_cases h7 : interval = "1d"
  · subst h7; decide
  have e1 : (interval == "1m") = false := beq_eq_false_iff_ne.2 h1
  have e2 : (interval == "5m") = false := beq_eq_false_iff_ne.2 h2
  have e3 : (interval == "15m") = false := beq_eq_false_iff_ne.2 h3
  have e4 : (interval == "30m") = false := beq_eq_false_iff_ne.2 h4
  have e5 : (interval == "1h") = false := beq_eq_false_iff_ne.2 h5
  have e6 : (interval == "4h") = false := beq_eq_false_iff_ne.2 h6
  have e7 : (interval == "1d") = false := beq_eq_false_iff_ne.2 h7
  simp only [List.lookup, e1, e2, e3, e4, e5, e6, e7]
  simp [h1, h2, h3, h4, h5, h6, h7]

theorem okex_GetKlines_unsupported_iff (ParseInt : String → Option Int)
    (ParseFloat : String → Option float64) (send : String → HttpReply OKEXKlinesResponse)
    (symbol interval : String) (limit : Int) :
    OKEXClient.GetKlines ParseInt ParseFloat send symbol interval limit =
        .error ("unsupported interval for OKEX: " ++ interval) ↔
      OKEXClient.okexInterval interval = none := by
  have hu : ∀ e : String, ("unsupported interval for OKEX: " ++ e).data.head? = some 'u' :=
    fun e => head_append _ e 'u' rfl
  have hne : ∀ {m : String} {c : Char}, c ≠ 'u' → m.data.head? = some c →
      (Result.error m : Result (List Kline)) ≠
        .error ("unsupported interval for OKEX: " ++ interval) := by
    intro m c hc hm heq
    injection heq with heq
    have := congrArg (fun s : String => s.data.head?) heq
    simp only [hm, hu] at this
    exact hc (Option.some.inj this)
  constructor
  · intro h
    cases hmap : OKEXClient.okexInterval interval with
    | none => rfl
    | some mapped =>
      exfalso
      unfold OKEXClient.GetKlines at h
      simp only [hmap] at h
      split at h
      · refine hne (c := 'f') (by decide) ?_ h
        exact head_append _ _ 'f' rfl
      · refine hne (c := 'f') (by decide) ?_ h
        exact head_append _ _ 'f' rfl
      · split_ifs at h with hcode
        · refine hne (c := 'O') (by decide) ?_ h
          exact head_append _ _ 'O' rfl
        · split at h
          · refine hne (c := 'f') (by decide) ?_ h
            exact head_append _ _ 'f' rfl
          · refine hne (c := 'f') (by decide) ?_ h
            exact head_append _ _ 'f' rfl
          · split_ifs at h with hresp
            · refine hne (c := 'O') (by decide) ?_ h
              exact head_append _ _ 'O' (head_append _ _ 'O' (head_append _ _ 'O' rfl))
            · rename_i response
              have hcollect : ∀ (rows : List (List String)) (m : String),
                  collect (OKEXClient.klineOfRaw ParseInt ParseFloat) rows ≠ .error m := by
                intro rows
                induction rows with
                | nil => intro m hm; cases hm
                | cons row rows ih =>
                  intro m hm
                  have hrow : ∀ m1, OKEXClient.klineOfRaw ParseInt ParseFloat row ≠ .error m1 := by
                    intro m1
                    unfold OKEXClient.klineOfRaw OKEXClient.fieldAt
                    cases row[0]? <;> cases row[1]? <;> cases row[2]? <;> cases row[3]? <;>
                      cases row[4]? <;> cases row[5]? <;> simp [Result.bind]
                  rw [collect] at hm
                  cases hk : OKEXClient.klineOfRaw ParseInt ParseFloat row with
                  | error m1 => exact hrow m1 hk
                  | panic m1 => rw [hk] at hm; cases hm
                  | ok k =>
                    rw [hk] at hm
                    simp only [Result.bind] at hm
                    cases hc : collect (OKEXClient.klineOfRaw ParseInt ParseFloat) rows with
                    | error m2 => exact ih m2 hc
                    | panic m2 => rw [hc] at hm; cases hm
                    | ok ks => rw [hc] at hm; cases hm
              exact hcollect _ _ h
  · intro h
    unfold OKEXClient.GetKlines
    rw [h]

theorem onlyConfigured_refl (w : World) : OnlyConfigured w w :=
  fun _ he => Or.inl he

theorem onlyConfigured_trans {a b c : World} (h1 : OnlyConfigured a b)
    (h2 : OnlyConfigured b c) : OnlyConfigured a c := by
  intro e he
  rcases h2 e he with h | h
  · exact h1 e h
  · exact Or.inr h

theorem onlyConfigured_log (w : World) (e : Event) (he : e.asConfigured) :
    OnlyConfigured w (w.log e) := by
  intro e1 he1
  simp only [World.log, List.mem_append, List.mem_singleton] at he1
  rcases he1 with h | h
  · exact Or.inl h
  · subst h
    exact Or.inr he

theorem FetchAndStorePrice_configured (env : Env) (client : ExchangeClient)
    (symbol exchangeName : String) (w : World) :
    OnlyConfigured w (FetchAndStorePrice env client symbol exchangeName w).1 := by
  have hlog := onlyConfigured_log w (.latestPrice exchangeName symbol) trivial
  unfold FetchAndStorePrice
  split
  · exact hlog
  · exact hlog
  · simp only
    split
    · intro e he
      simp only [World.log, List.append_assoc, List.mem_append, List.mem_singleton,
        List.mem_cons, List.mem_nil_iff, or_false] at he
      rcases he with h | h | h
      · exact Or.inl h
      · subst h; exact Or.inr trivial
      · subst h; exact Or.inr trivial
    · intro e he
      simp only [World.log, List.append_assoc, List.mem_append, List.mem_singleton,
        List.mem_cons, List.mem_nil_iff, or_false] at he
      rcases he with h | h | h
      · exact Or.inl h
      · subst h; exact Or.inr trivial
      · subst h; exact Or.inr trivial

theorem processTicker_configured (env : Env) (s : PriceMonitorService) (exchangeName : String)
    (client : ExchangeClient) (ticker : Ticker) (w : World) :
    OnlyConfigured w (processTicker env s exchangeName client ticker w).1 := by
  have h := FetchAndStorePrice_configured env client ticker.Symbol exchangeName w
  unfold processTicker
  simp only
  split
  · rename_i w1 m heq
    rw [heq] at h
    exact h
  · rename_i w1 e heq
    rw [heq] at h
    exact h
  · rename_i w1 latestPrice heq
    rw [heq] at h
    have hk : OnlyConfigured w
        (w1.log (.klines exchangeName ticker.Symbol KlineInterval KlineLimit)) :=
      onlyConfigured_trans h (onlyConfigured_log _ _ ⟨rfl, rfl⟩)
    split
    · exact hk
    · exact hk
    · split_ifs
      · exact hk
      · exact onlyConfigured_trans hk (onlyConfigured_log _ _ trivial)
      · exact hk

theorem tickerLoop_configured (env : Env) (s : PriceMonitorService) (exchangeName : String)
    (client : ExchangeClient) (len : Nat) (tickers : List Ticker) :
    ∀ (i : Nat) (w : World),
      OnlyConfigured w (tickerLoop env s exchangeName client len i tickers w).1 := by
  induction tickers with
  | nil =>
    intro i w
    rw [tickerLoop]
    exact onlyConfigured_refl _
  | cons ticker rest ih =>
    intro i w
    have h := onlyConfigured_trans
      (onlyConfigured_log w (.ctxCheck exchangeName ticker.Symbol) trivial)
      (processTicker_configured env s exchangeName client ticker
        (w.log (.ctxCheck exchangeName ticker.Symbol)))
    rw [tickerLoop_cons]
    by_cases hdone : env.ctxDone w.clock = true
    · rw [if_pos hdone]
      exact onlyConfigured_refl _
    · rw [if_neg hdone]
      generalize processTicker env s exchangeName client ticker
        (w.log (.ctxCheck exchangeName ticker.Symbol)) = p at h ⊢
      obtain ⟨w1, step⟩ := p
      have h1 : OnlyConfigured w w1 := h
      cases step with
      | panic m => exact h1
      | continue_ => exact onlyConfigured_trans h1 (ih _ _)
      | reachedDelay =>
        simp only
        split_ifs
        · exact h1
        · exact onlyConfigured_trans h1
            (onlyConfigured_trans
              (onlyConfigured_log w1 (.delay exchangeName s.apiRequestDelay) trivial) (ih _ _))
        · exact onlyConfigured_trans h1 (ih _ _)

theorem exchangeLoop_configured (env : Env) (s : PriceMonitorService)
    (clients : List (String × ExchangeClient)) :
    ∀ w : World, OnlyConfigured w (exchangeLoop env s clients w).1 := by
  induction clients with
  | nil =>
    intro w
    rw [exchangeLoop]
    exact onlyConfigured_refl _
  | cons head rest ih =>
    intro w
    obtain ⟨exchangeName, client⟩ := head
    have hlog := onlyConfigured_log w (.tickers exchangeName s.topNSymbols) trivial
    rw [exchangeLoop]
    split
    · exact hlog
    · exact onlyConfigured_trans hlog (ih _)
    · rename_i tickers _
      split_ifs
      · exact onlyConfigured_trans hlog (ih _)
      · have h := tickerLoop_configured env s exchangeName client tickers.length tickers 0
          (w.log (.tickers exchangeName s.topNSymbols))
        split
        · rename_i w2 heq
          rw [heq] at h
          exact onlyConfigured_trans hlog (onlyConfigured_trans h (ih _))
        · rename_i w2 exit _ heq
          rw [heq] at h
          exact onlyConfigured_trans hlog h

/-- C18. `OKEXClient.GetKlines` returns the unsupported-interval error exactly
when the interval is none of 1m, 5m, 15m, 30m, 1h, 4h, 1d, and then whatever
the HTTP round trip would answer, which it does not consult. `KlineInterval`
is mapped to "1D"; every candle request of a pass of `RunMonitor` asks for
`KlineInterval` and `KlineLimit` (30), and for these `OKEXClient.GetKlines`
never returns that error. -/
theorem okex_unsupported_interval (ParseInt : String → Option Int)
    (ParseFloat : String → Option float64) :
    (∀ (send : String → HttpReply OKEXKlinesResponse) (symbol interval : String) (limit : Int),
      OKEXClient.GetKlines ParseInt ParseFloat send symbol interval limit =
          .error ("unsupported interval for OKEX: " ++ interval) ↔
        interval ∉ ["1m", "5m", "15m", "30m", "1h", "4h", "1d"]) ∧
    (∀ (send send' : String → HttpReply OKEXKlinesResponse) (symbol interval : String)
        (limit : Int), interval ∉ ["1m", "5m", "15m", "30m", "1h", "4h", "1d"] →
      OKEXClient.GetKlines ParseInt ParseFloat send symbol interval limit =
        OKEXClient.GetKlines ParseInt ParseFloat send' symbol interval limit) ∧
    OKEXClient.okexInterval KlineInterval = some "1D" ∧ KlineLimit = 30 ∧
    (∀ (env : Env) (s : PriceMonitorService) (w : World),
      ∀ e ∈ (RunMonitor env s w).1.trace, e ∈ w.trace ∨ e.asConfigured) ∧
    (∀ (send : String → HttpReply OKEXKlinesResponse) (symbol : String),
      OKEXClient.GetKlines ParseInt ParseFloat send symbol KlineInterval KlineLimit ≠
        .error ("unsupported interval for OKEX: " ++ KlineInterval)) := by
  refine ⟨?_, ?_, by decide, rfl, ?_, ?_⟩
  · intro send symbol interval limit
    rw [okex_GetKlines_unsupported_iff, okexInterval_none_iff]
  · intro send send' symbol interval limit h
    have hnone := (okexInterval_none_iff interval).2 h
    unfold OKEXClient.GetKlines
    rw [hnone]
  · intro env s w
    exact exchangeLoop_configured env s s.exchangeClients w
  · intro send symbol h
    have := (okex_GetKlines_unsupported_iff ParseInt ParseFloat send symbol KlineInterval
      KlineLimit).1 h
    revert this
    decide

/-- Witness of C18: the interval "2h" is not mapped. -/
theorem okex_unsupported_interval_witness :
    ("2h" : String) ∉ ["1m", "5m", "15m", "30m", "1h", "4h", "1d"] ∧
    OKEXClient.GetKlines parseIntDigits parseDigits (fun _ => .sendError "unreachable")
        "BTCUSDT" "2h" 30 =
      OKEXClient.GetKlines parseIntDigits parseDigits
        (fun _ => .answered StatusOK "200 OK" (.decoded { Code := "0", Msg := "", Data := [] }))
        "BTCUSDT" "2h" 30 :=
  ⟨by decide,
    (okex_unsupported_interval parseIntDigits parseDigits).2.1 _ _ "BTCUSDT" "2h" 30
      (by decide)⟩

/-! ## Candles -/

theorem bind_ok {α β : Type} {r : Result α} {f : α → Result β} {b : β}
    (h : r.bind f = .ok b) : ∃ a, r = .ok a ∧ f a = .ok b := by
  cases r with
  | ok a => exact ⟨a, rfl, h⟩
  | error e => cases h
  | panic m => cases h

theorem collect_ok {α β : Type} (f : α → Result β) :
    ∀ (l : List α) (out : List β), collect f l = .ok out →
      List.Forall₂ (fun a b => f a = .ok b) l out := by
  intro l
  induction l with
  | nil =>
    intro out h
    rw [collect] at h
    cases h
    exact List.Forall₂.nil
  | cons x xs ih =>
    intro out h
    rw [collect] at h
    obtain ⟨y, hy, h1⟩ := bind_ok h
    obtain ⟨ys, hys, h2⟩ := bind_ok h1
    cases h2
    exact List.Forall₂.cons hy (ih ys hys)

theorem collect_total {α β : Type} (f : α → Result β) :
    ∀ l : List α, (∀ a ∈ l, ∃ b, f a = .ok b) → ∃ out, collect f l = .ok out := by
  intro l
  induction l with
  | nil => exact fun _ => ⟨[], by rw [collect]⟩
  | cons x xs ih =>
    intro h
    obtain ⟨y, hy⟩ := h x (List.mem_cons_self _ _)
    obtain ⟨ys, hys⟩ := ih (fun a ha => h a (List.mem_cons_of_mem _ ha))
    exact ⟨y :: ys, by rw [collect, hy, Result.bind, hys, Result.bind]⟩

theorem binance_klineOfRaw_ok {ParseFloat : String → Option float64} {rawKline : List JsonValue}
    {kline : Kline} (h : BinanceClient.klineOfRaw ParseFloat rawKline = .ok kline) :
    ∃ v, rawKline[0]? = some (.number v) ∧
      kline.OpenTime = wrap64 (int64OfFloat v * 1000000) := by
  unfold BinanceClient.klineOfRaw at h
  obtain ⟨v0, h0, h⟩ := bind_ok h
  obtain ⟨v1, -, h⟩ := bind_ok h
  obtain ⟨v2, -, h⟩ := bind_ok h
  obtain ⟨v3, -, h⟩ := bind_ok h
  obtain ⟨v4, -, h⟩ := bind_ok h
  obtain ⟨v5, -, h⟩ := bind_ok h
  obtain ⟨v6, -, h⟩ := bind_ok h
  cases h
  refine ⟨v0, ?_, ?_⟩
  · unfold BinanceClient.float64At at h0
    split at h0
    · cases h0
    · cases h0
      assumption
    · cases h0
  · simp [time.Unix, time.Millisecond]

theorem okex_klineOfRaw_ok {ParseInt : String → Option Int} {ParseFloat : String → Option float64}
    {rawKline : List String} {kline : Kline}
    (h : OKEXClient.klineOfRaw ParseInt ParseFloat rawKline = .ok kline) :
    ∃ f0, rawKline[0]? = some f0 ∧
      kline.OpenTime = wrap64 ((ParseInt f0).getD 0 * 1000000) := by
  unfold OKEXClient.klineOfRaw at h
  obtain ⟨f0, h0, h⟩ := bind_ok h
  obtain ⟨f1, -, h⟩ := bind_ok h
  obtain ⟨f2, -, h⟩ := bind_ok h
  obtain ⟨f3, -, h⟩ := bind_ok h
  obtain ⟨f4, -, h⟩ := bind_ok h
  obtain ⟨f5, -, h⟩ := bind_ok h
  cases h
  refine ⟨f0, ?_, ?_⟩
  · unfold OKEXClient.fieldAt at h0
    split at h0
    · cases h0
    · cases h0
      assumption
  · simp [time.Unix, time.Millisecond]

theorem okex_klineOfRaw_total (ParseInt : String → Option Int) (ParseFloat : String → Option float64)
    (rawKline : List String) (h : 6 ≤ rawKline.length) :
    ∃ kline, OKEXClient.klineOfRaw ParseInt ParseFloat rawKline = .ok kline := by
  match rawKline, h with
  | f0 :: f1 :: f2 :: f3 :: f4 :: f5 :: rest, _ =>
    simp [OKEXClient.klineOfRaw, OKEXClient.fieldAt, Result.bind]

/-- C16, as stated, fails. An OKEX reply listing two candles, the newer one
first, to a request with limit 1: `GetKlines` returns both, in that order. -/
theorem GetKlines_keeps_reply_order :
    OKEXClient.GetKlines parseIntDigits parseDigits
        (fun _ => .answered StatusOK "200 OK" (.decoded { Code := "0", Msg := "", Data :=
          [["1700086400000", "1", "1", "1", "1", "1"],
           ["1700000000000", "2", "2", "2", "2", "2"]] }))
        "BTCUSDT" "1d" 1 =
      .ok [{ OpenTime := 1700086400000000000, Open := 1, High := 1, Low := 1, Close := 1,
             Volume := 1, CloseTime := 1700086400000000000 },
           { OpenTime := 1700000000000000000, Open := 2, High := 2, Low := 2, Close := 2,
             Volume := 2, CloseTime := 1700000000000000000 }] ∧
    ¬ ((2 : Int) ≤ 1) ∧ ¬ ((1700086400000000000 : Int) ≤ 1700000000000000000) := by
  decide

/-- C16, amended. `GetKlines`, Binance and OKEX, returns one `Kline` per candle
row of the reply, in the order of the reply, each with the open time of its
row: it neither truncates to `limit` nor sorts, so the result has at most
`limit` candles, oldest first, exactly when the reply has. An OKEX reply with
status 200 and code "0" whose rows have at least six fields does yield such a
result. -/
theorem GetKlines_one_per_row (ParseInt : String → Option Int)
    (ParseFloat : String → Option float64) (symbol interval : String) (limit : Int) :
    (∀ (send : String → HttpReply (List (List JsonValue))) (klines : List Kline),
      BinanceClient.GetKlines ParseFloat send symbol interval limit = .ok klines →
      ∃ status rawKlines,
        send (binanceAPIURL ++ "/klines?symbol=" ++ symbol ++ "&interval=" ++ interval ++
          "&limit=" ++ toString limit) = .answered StatusOK status (.decoded rawKlines) ∧
        klines.length = rawKlines.length ∧
        List.Forall₂ (fun rawKline kline => ∃ v, rawKline[0]? = some (JsonValue.number v) ∧
          kline.OpenTime = wrap64 (int64OfFloat v * 1000000)) rawKlines klines) ∧
    (∀ (send : String → HttpReply OKEXKlinesResponse) (klines : List Kline),
      OKEXClient.GetKlines ParseInt ParseFloat send symbol interval limit = .ok klines →
      ∃ mapped status response, OKEXClient.okexInterval interval = some mapped ∧
        send (okexAPIURL ++ "/candles?instId=" ++ OKEXClient.instId symbol ++ "&bar=" ++ mapped ++
          "&limit=" ++ toString limit) = .answered StatusOK status (.decoded response) ∧
        klines.length = response.Data.length ∧
        List.Forall₂ (fun rawKline kline => ∃ f0, rawKline[0]? = some f0 ∧
          kline.OpenTime = wrap64 ((ParseInt f0).getD 0 * 1000000)) response.Data klines) ∧
    (∀ (send : String → HttpReply OKEXKlinesResponse) (mapped status msg : String)
        (data : List (List String)),
      OKEXClient.okexInterval interval = some mapped →
      send (okexAPIURL ++ "/candles?instId=" ++ OKEXClient.instId symbol ++ "&bar=" ++ mapped ++
        "&limit=" ++ toString limit) =
          .answered StatusOK status (.decoded { Code := "0", Msg := msg, Data := data }) →
      (∀ rawKline ∈ data, 6 ≤ rawKline.length) →
      ∃ klines, OKEXClient.GetKlines ParseInt ParseFloat send symbol interval limit =
        .ok klines) := by
  refine ⟨?_, ?_, ?_⟩
  · intro send klines h
    unfold BinanceClient.GetKlines at h
    simp only at h
    split at h
    · cases h
    · cases h
    · rename_i code status body hsend
      split_ifs at h with hcode
      split at h
      · cases h
      · cases h
      · rename_i rawKlines
        have hc : code = StatusOK := not_not.1 hcode
        subst hc
        have hall := collect_ok _ _ _ h
        refine ⟨status, rawKlines, hsend, hall.length_eq.symm, ?_⟩
        exact hall.imp (fun _ _ hk => binance_klineOfRaw_ok hk)
  · intro send klines h
    unfold OKEXClient.GetKlines at h
    cases hmap : OKEXClient.okexInterval interval with
    | none =>
      rw [hmap] at h
      cases h
    | some mapped =>
      rw [hmap] at h
      simp only at h
      split at h
      · cases h
      · cases h
      · rename_i code status body hsend
        split_ifs at h with hcode
        split at h
        · cases h
        · cases h
        · rename_i response
          split_ifs at h with hresp
          have hc : code = StatusOK := not_not.1 hcode
          subst hc
          have hall := collect_ok _ _ _ h
          refine ⟨mapped, status, response, rfl, hsend, hall.length_eq.symm, ?_⟩
          exact hall.imp (fun _ _ hk => okex_klineOfRaw_ok hk)
  · intro send mapped status msg data hmap hsend hrows
    obtain ⟨klines, hk⟩ := collect_total (OKEXClient.klineOfRaw ParseInt ParseFloat) data
      (fun row hrow => okex_klineOfRaw_total ParseInt ParseFloat row (hrows row hrow))
    refine ⟨klines, ?_⟩
    unfold OKEXClient.GetKlines
    rw [hmap]
    simp only [hsend]
    rw [if_neg (by simp), if_neg (by simp)]
    exact hk

/-- Witness of C16 (amended): the reply of the counterexample. -/
theorem GetKlines_one_per_row_witness :
    ∃ klines, OKEXClient.GetKlines parseIntDigits parseDigits
        (fun _ => .answered StatusOK "200 OK" (.decoded { Code := "0", Msg := "", Data :=
          [["1700086400000", "1", "1", "1", "1", "1"],
           ["1700000000000", "2", "2", "2", "2", "2"]] }))
        "BTCUSDT" "1d" 1 = .ok klines :=
  (GetKlines_one_per_row parseIntDigits parseDigits "BTCUSDT" "1d" 1).2.2
    (fun _ => .answered StatusOK "200 OK" (.decoded { Code := "0", Msg := "", Data :=
      [["1700086400000", "1", "1", "1", "1", "1"],
       ["1700000000000", "2", "2", "2", "2", "2"]] }))
    "1D" "200 OK" ""
    [["1700086400000", "1", "1", "1", "1", "1"], ["1700000000000", "2", "2", "2", "2", "2"]]
    (by decide) rfl (by decide)

/-- C17. `GetKlines` on replies that cannot be parsed. A row whose open price
is the text "x": both clients return a candle with `Open = 0` and no error. A
row with the open time alone: both clients panic on the missing field. -/
theorem GetKlines_unparsable_rows :
    OKEXClient.GetKlines parseIntDigits parseDigits
        (fun _ => .answered StatusOK "200 OK" (.decoded
          { Code := "0", Msg := "", Data := [["1700000000000", "x", "2", "3", "4", "5"]] }))
        "BTCUSDT" "1d" 30 =
      .ok [{ OpenTime := 1700000000000000000, Open := 0, High := 2, Low := 3, Close := 4,
             Volume := 5, CloseTime := 1700000000000000000 }] ∧
    OKEXClient.GetKlines parseIntDigits parseDigits
        (fun _ => .answered StatusOK "200 OK" (.decoded
          { Code := "0", Msg := "", Data := [["1700000000000"]] }))
        "BTCUSDT" "1d" 30 = .panic "index out of range" ∧
    BinanceClient.GetKlines parseDigits
        (fun _ => .answered StatusOK "200 OK" (.decoded
          [[.number 1700000000000, .string "x", .string "2", .string "3", .string "4",
            .string "5", .number 1700000059999]]))
        "BTCUSDT" "1d" 30 =
      .ok [{ OpenTime := 1700000000000000000, Open := 0, High := 2, Low := 3, Close := 4,
             Volume := 5, CloseTime := 1700000059999000000 }] ∧
    BinanceClient.GetKlines parseDigits
        (fun _ => .answered StatusOK "200 OK" (.decoded [[.number 1700000000000]]))
        "BTCUSDT" "1d" 30 = .panic "index out of range" ∧
    parseDigits "x" = none := by
  decide

/-! ## Concrete instances of the failure claims -/

/-- Witness of C11: a pass step whose price fetch fails, and one whose upsert
fails. -/
theorem failed_price_skipped_witness :
    ((FetchAndStorePrice demo.env demo.cancelledClient demo.btc.Symbol "BINANCE"
          (demo.start.log (.ctxCheck "BINANCE" demo.btc.Symbol))).1 =
        { trace := demo.start.trace ++ [.ctxCheck "BINANCE" demo.btc.Symbol,
            .latestPrice "BINANCE" demo.btc.Symbol],
          store := demo.start.store } ∧
      tickerLoop demo.env (demo.svc demo.cancelledClient 0) "BINANCE" demo.cancelledClient 2 0
          [demo.btc, demo.btc] demo.start =
        tickerLoop demo.env (demo.svc demo.cancelledClient 0) "BINANCE" demo.cancelledClient 2 1
          [demo.btc]
          { trace := demo.start.trace ++ [.ctxCheck "BINANCE" demo.btc.Symbol,
              .latestPrice "BINANCE" demo.btc.Symbol],
            store := demo.start.store }) ∧
    tickerLoop demo.dbDownEnv (demo.svc (demo.client 79 [100]) 0) "BINANCE"
        (demo.client 79 [100]) 2 0 [demo.btc, demo.btc] demo.start =
      tickerLoop demo.dbDownEnv (demo.svc (demo.client 79 [100]) 0) "BINANCE"
        (demo.client 79 [100]) 2 1 [demo.btc]
        { trace := demo.start.trace ++ [.ctxCheck "BINANCE" demo.btc.Symbol,
            .latestPrice "BINANCE" demo.btc.Symbol,
            .upsert { Symbol := demo.btc.Symbol, Exchange := "BINANCE", Price := 79,
                      Timestamp := demo.dbDownEnv.now (demo.start.clock + 2) } true],
          store := demo.start.store } :=
  ⟨(failed_price_skipped demo.env (demo.svc demo.cancelledClient 0) "BINANCE"
      demo.cancelledClient 2 0 demo.btc [demo.btc] demo.start).1 "context canceled" rfl rfl,
    (failed_price_skipped demo.dbDownEnv (demo.svc (demo.client 79 [100]) 0) "BINANCE"
      (demo.client 79 [100]) 2 0 demo.btc [demo.btc] demo.start).2 79 "connection refused"
      rfl rfl rfl⟩

/-- The pass of the previous witness in full: the alert is sent, the notifier
fails, and the pass still returns nil. -/
theorem RunMonitor_notifier_down :
    RunMonitor demo.notifierDownEnv (demo.svc (demo.client 79 [100, 100, 100]) 0) demo.start =
      ({ trace :=
          [.tickers "BINANCE" 10, .ctxCheck "BINANCE" "BTCUSDT",
           .latestPrice "BINANCE" "BTCUSDT",
           .upsert { Symbol := "BTCUSDT", Exchange := "BINANCE", Price := 79,
                     Timestamp := 1700000000000 } false,
           .klines "BINANCE" "BTCUSDT" "1d" 30,
           .alert "BINANCE" "BTCUSDT" 79 100 20.999999999999996 20 true],
         store := (RunMonitor demo.notifierDownEnv
           (demo.svc (demo.client 79 [100, 100, 100]) 0) demo.start).1.store }, .nil) := by
  decide


/-! ## The arithmetic of `float64` -/

theorem float64.bitsFrom_eq_size (q : Nat) :
    ∀ j b : Nat, b ≤ Nat.size q → Nat.size q < b + 2 ^ j →
      float64.bitsFrom j q b = Nat.size q := by
  intro j
  induction j with
  | zero =>
    intro b h1 h2
    simp only [float64.bitsFrom]
    omega
  | succ j ih =>
    intro b h1 h2
    have hpos : 0 < 2 ^ j := Nat.two_pow_pos j
    have hiff : q >>> (b + 2 ^ j - 1) = 0 ↔ Nat.size q < b + 2 ^ j := by
      rw [Nat.shiftRight_eq_div_pow, Nat.div_eq_zero_iff (Nat.two_pow_pos _),
        ← Nat.size_le]
      omega
    rw [float64.bitsFrom]
    by_cases hz : q >>> (b + 2 ^ j - 1) = 0
    · rw [if_pos hz]
      exact ih b h1 (hiff.1 hz)
    · rw [if_neg hz]
      have hge : b + 2 ^ j ≤ Nat.size q := Nat.le_of_not_lt (fun h => hz (hiff.2 h))
      refine ih (b + 2 ^ j) hge ?_
      rw [pow_succ] at h2
      omega

/-- The bisection of `bits` finds the number of binary digits. -/
theorem float64.bits_eq_size (q : Nat) (h : q < 2 ^ 4095) : float64.bits q = Nat.size q := by
  have h1 : Nat.size q ≤ 4095 := Nat.size_le.2 h
  have h2 : Nat.size q < 0 + 2 ^ 12 := by
    rw [show (2 : Nat) ^ 12 = 4096 by norm_num]
    exact Nat.lt_of_le_of_lt h1 (by decide)
  exact float64.bitsFrom_eq_size q 12 0 (Nat.zero_le _) h2

theorem float64.shiftLeft_lt (n a b c : Nat) (h : a + b ≤ c) (hn : n < 2 ^ a) :
    n <<< b < 1 <<< c := by
  rw [Nat.shiftLeft_eq, Nat.one_shiftLeft]
  calc n * 2 ^ b < 2 ^ a * 2 ^ b := Nat.mul_lt_mul_of_pos_right hn (Nat.two_pow_pos _)
    _ = 2 ^ (a + b) := (pow_add 2 a b).symm
    _ ≤ 2 ^ c := Nat.pow_le_pow_right (by decide) h

theorem float64.lt_pow_of_lt_shiftLeft (n c d : Nat) (h : c ≤ d) (hn : n < 1 <<< c) :
    n < 2 ^ d := by
  rw [Nat.one_shiftLeft] at hn
  exact Nat.lt_of_lt_of_le hn (Nat.pow_le_pow_right (by decide) h)

theorem float64.mul_one_shiftLeft (n e : Nat) : n * (1 <<< e) = n <<< e := by
  simp [Nat.shiftLeft_eq]

/-- A magnitude with at most 53 significant bits below 2^2098 units is a value
of the type: rounding leaves it as it is. -/
theorem float64.round_representable (s : Bool) (m k : Nat) (hm : m < 2 ^ 53)
    (hlt : m <<< k < 1 <<< 2098) :
    float64.round s (m <<< k) 1 = .finite s (m <<< k) := by
  have hdvd : 2 ^ (Nat.size (m <<< k) - 53) ∣ m <<< k := by
    by_cases hm0 : m = 0
    · subst hm0
      simp
    · have hsm : Nat.size m ≤ 53 := Nat.size_le.2 hm
      rw [Nat.size_shiftLeft hm0 k, Nat.shiftLeft_eq]
      exact Dvd.dvd.mul_left (Nat.pow_dvd_pow 2 (by omega)) m
  generalize m <<< k = N at hlt hdvd ⊢
  have hbits : float64.bits (N / 1) = Nat.size N := by
    rw [Nat.div_one]
    exact float64.bits_eq_size _ (float64.lt_pow_of_lt_shiftLeft N 2098 4095 (by decide) hlt)
  generalize hS : 2 ^ (Nat.size N - 53) = S at hdvd
  have hS0 : 0 < S := by rw [← hS]; exact Nat.two_pow_pos _
  have hmod : N % S = 0 := Nat.mod_eq_zero_of_dvd hdvd
  have hdiv : N / S * S = N := Nat.div_mul_cancel hdvd
  unfold float64.round
  simp only [hbits, Nat.one_shiftLeft (Nat.size N - 53), hS, Nat.one_mul, hmod, Nat.mul_zero,
    hS0, if_true, hdiv]
  rw [if_neg (Nat.not_le.2 hlt)]

/-- The conversion `float64(n)` of an integer below 2^53 is exact. -/
theorem float64.ofNat_exact (n : Nat) (h : n < 2 ^ 53) :
    float64.ofNat n = .finite false (n <<< 1074) := by
  unfold float64.ofNat float64.one
  rw [float64.mul_one_shiftLeft]
  exact float64.round_representable false n 1074 h
    (float64.shiftLeft_lt n 53 1074 2098 (by decide) h)

set_option maxRecDepth 8000 in
/-- Values of the arithmetic that IEEE 754 fixes: the sum 0.1 + 0.2, ties
rounding to even at 2^53, overflow, the smallest value halved, divisions by
zero, and comparisons with NaN and between the zeros. -/
theorem float64.arithmetic_examples :
    (0.1 + 0.2 : float64) = 0.30000000000000004 ∧
    (0.1 + 0.2 : float64) ≠ 0.3 ∧
    (9007199254740992 + 1 : float64) = 9007199254740992 ∧
    (9007199254740992 + 3 : float64) = 9007199254740996 ∧
    (1.7976931348623157e308 + 1.7976931348623157e308 : float64) = .Inf false ∧
    (5e-324 : float64) = .finite false 1 ∧
    (5e-324 / 2 : float64) = .finite false 0 ∧
    (1 / 3 : float64) = 0.3333333333333333 ∧
    (1 / 0 : float64) = .Inf false ∧ (-1 / 0 : float64) = .Inf true ∧
    (0 / 0 : float64) = .NaN ∧
    ¬ ((.NaN : float64) < 1) ∧ ¬ ((1 : float64) < .NaN) ∧ ¬ ((.NaN : float64) ≤ .NaN) ∧
    ¬ ((.finite true 0 : float64) < 0) ∧ (.finite true 0 : float64) ≤ 0 := by
  decide

/-! ## Exact values of `float64` -/

theorem float64.val_shiftLeft (s : Bool) (m k : Nat) (hk : k ≤ 1074) :
    (float64.finite s (m <<< k)).val =
      (if s then -1 else 1) * ((m : ℚ) / 2 ^ (1074 - k)) := by
  have h : (2 : ℚ) ^ 1074 = 2 ^ k * 2 ^ (1074 - k) := by
    rw [← pow_add]
    congr 1
    omega
  have hk0 : (2 : ℚ) ^ k ≠ 0 := pow_ne_zero _ (by norm_num)
  have hk1 : (2 : ℚ) ^ (1074 - k) ≠ 0 := pow_ne_zero _ (by norm_num)
  cases s <;> simp only [float64.val, Nat.shiftLeft_eq, Nat.cast_mul, Nat.cast_pow,
    Nat.cast_ofNat, h] <;> field_simp <;> ring

theorem float64.position_val {a : float64} (h : a.IsFinite) :
    ∃ x : Int, a.position = some x ∧ a.val = (x : ℚ) / 2 ^ 1074 := by
  cases a with
  | NaN => exact absurd h id
  | Inf s => exact absurd h id
  | finite s u =>
    cases s
    · exact ⟨(u : Int), rfl, by simp [float64.val]⟩
    · exact ⟨-(u : Int), rfl, by simp [float64.val, neg_div]⟩

theorem float64.lt_iff_val {a b : float64} (ha : a.IsFinite) (hb : b.IsFinite) :
    a < b ↔ a.val < b.val := by
  obtain ⟨x, hx, hxv⟩ := float64.position_val ha
  obtain ⟨y, hy, hyv⟩ := float64.position_val hb
  have hpos : (0 : ℚ) < 2 ^ 1074 := by positivity
  rw [float64.lt_iff, hxv, hyv, div_lt_div_iff_of_pos_right hpos, Int.cast_lt]
  constructor
  · rintro ⟨x1, y1, hx1, hy1, hlt⟩
    rw [hx] at hx1
    rw [hy] at hy1
    cases hx1
    cases hy1
    exact hlt
  · intro hlt
    exact ⟨x, y, hx, hy, hlt⟩

theorem float64.lt_irrefl (a : float64) : ¬ a < a := by
  intro h
  obtain ⟨x, y, hx, hy, hlt⟩ := (float64.lt_iff a a).1 h
  rw [hx] at hy
  cases hy
  exact Int.lt_irrefl _ hlt

theorem float64.zero_eq : (0 : float64) = .finite false 0 := by decide

theorem exactSum_foldl (prices : List float64) :
    ∀ sum : float64, float64.ExactSum sum prices →
      (prices.foldl (fun sum price => sum + price) sum).val =
        sum.val + (prices.map float64.val).sum := by
  induction prices with
  | nil => intro sum _; simp
  | cons price prices ih =>
    intro sum h
    obtain ⟨hadd, hrest⟩ := h
    rw [List.foldl_cons, ih _ hrest, hadd.2, List.map_cons, List.sum_cons]
    ring

theorem drop_above_threshold {mean p t : ℚ} (hmean : mean > 0) (hp : p < mean * (1 - t)) :
    (1 - p / mean) * 100 > t * 100 := by
  have h1 : p / mean < 1 - t := by
    rw [div_lt_iff₀ hmean]
    linarith [mul_comm mean (1 - t)]
  linarith

theorem drop_above_threshold_exact {mean latestPrice threshold : float64}
    (hm : mean.IsFinite) (hp : latestPrice.IsFinite)
    (h1 : float64.Exact (1 - threshold) (1 - threshold.val))
    (h2 : float64.Exact (mean * (1 - threshold)) (mean.val * (1 - threshold).val))
    (h3 : float64.Exact (latestPrice / mean) (latestPrice.val / mean.val))
    (h4 : float64.Exact (1 - latestPrice / mean) (1 - (latestPrice / mean).val))
    (h5 : float64.Exact ((1 - latestPrice / mean) * 100) ((1 - latestPrice / mean).val * 100))
    (h6 : float64.Exact (threshold * 100) (threshold.val * 100))
    (hmean : mean > 0) (hlt : latestPrice < mean * (1 - threshold)) :
    (1 - latestPrice / mean) * 100 > threshold * 100 := by
  have h0 : (0 : float64).IsFinite := by rw [float64.zero_eq]; exact trivial
  have hmean' : mean.val > 0 := by
    have := (float64.lt_iff_val h0 hm).1 hmean
    rwa [float64.zero_eq, float64.val, Nat.cast_zero, zero_div] at this
  have hlt' : latestPrice.val < mean.val * (1 - threshold.val) := by
    have := (float64.lt_iff_val hp h2.1).1 hlt
    rwa [h2.2, h1.2] at this
  have hq := drop_above_threshold hmean' hlt'
  refine (float64.lt_iff_val h6.1 h5.1).2 ?_
  rw [h6.2, h5.2, h4.2, h3.2]
  exact hq

/-! ## The mean and the alert -/

theorem processTicker_success (env : Env) (s : PriceMonitorService) (exchangeName : String)
    (client : ExchangeClient) (ticker : Ticker) (w : World) (latestPrice : float64)
    (klines : List Kline)
    (hprice : client.GetLatestPrice w.clock ticker.Symbol = .ok latestPrice)
    (hdb : (env.db (w.clock + 1)).failure = none)
    (hklines : client.GetKlines (w.clock + 2) ticker.Symbol KlineInterval KlineLimit = .ok klines)
    (hne : klines ≠ []) :
    (processTicker env s exchangeName client ticker w).2 = .reachedDelay ∧
    (processTicker env s exchangeName client ticker w).1.trace =
      w.trace ++
        [.latestPrice exchangeName ticker.Symbol,
         .upsert { Symbol := ticker.Symbol, Exchange := exchangeName, Price := latestPrice,
                   Timestamp := env.now (w.clock + 1) } false,
         .klines exchangeName ticker.Symbol KlineInterval KlineLimit] ++
        (if CalculateAveragePrice (klines.map (fun k => k.Close)) > 0 ∧
            latestPrice <
              CalculateAveragePrice (klines.map (fun k => k.Close)) * (1 - s.defaultThreshold) then
          [.alert exchangeName ticker.Symbol latestPrice
            (CalculateAveragePrice (klines.map (fun k => k.Close)))
            ((1 - latestPrice / CalculateAveragePrice (klines.map (fun k => k.Close))) * 100)
            (s.defaultThreshold * 100) (env.notifier (w.clock + 3)).isSome]
        else []) := by
  have hlen : klines.length ≠ 0 := by simpa using hne
  unfold processTicker
  simp only
  rw [FetchAndStorePrice_ok env client ticker.Symbol exchangeName w latestPrice hprice hdb]
  have hclock : World.clock
      { trace := w.trace ++ [.latestPrice exchangeName ticker.Symbol,
          .upsert { Symbol := ticker.Symbol, Exchange := exchangeName, Price := latestPrice,
                    Timestamp := env.now (w.clock + 1) } false],
        store := (UpsertExchangePrice (env.db (w.clock + 1)) w.store
          { Symbol := ticker.Symbol, Exchange := exchangeName, Price := latestPrice,
            Timestamp := env.now (w.clock + 1) }).1 } = w.clock + 2 := by
    simp [World.clock]
  simp only [hclock, hklines, if_neg hlen]
  split_ifs with hcond
  · refine ⟨rfl, ?_⟩
    simp [World.log, World.clock]
  · refine ⟨rfl, ?_⟩
    simp [World.log]

theorem processTicker_empty (env : Env) (s : PriceMonitorService) (exchangeName : String)
    (client : ExchangeClient) (ticker : Ticker) (w : World) (latestPrice : float64)
    (hprice : client.GetLatestPrice w.clock ticker.Symbol = .ok latestPrice)
    (hdb : (env.db (w.clock + 1)).failure = none)
    (hklines : client.GetKlines (w.clock + 2) ticker.Symbol KlineInterval KlineLimit = .ok []) :
    (processTicker env s exchangeName client ticker w).2 = .continue_ ∧
    (processTicker env s exchangeName client ticker w).1.trace =
      w.trace ++
        [.latestPrice exchangeName ticker.Symbol,
         .upsert { Symbol := ticker.Symbol, Exchange := exchangeName, Price := latestPrice,
                   Timestamp := env.now (w.clock + 1) } false,
         .klines exchangeName ticker.Symbol KlineInterval KlineLimit] := by
  unfold processTicker
  simp only
  rw [FetchAndStorePrice_ok env client ticker.Symbol exchangeName w latestPrice hprice hdb]
  have hclock : World.clock
      { trace := w.trace ++ [.latestPrice exchangeName ticker.Symbol,
          .upsert { Symbol := ticker.Symbol, Exchange := exchangeName, Price := latestPrice,
                    Timestamp := env.now (w.clock + 1) } false],
        store := (UpsertExchangePrice (env.db (w.clock + 1)) w.store
          { Symbol := ticker.Symbol, Exchange := exchangeName, Price := latestPrice,
            Timestamp := env.now (w.clock + 1) }).1 } = w.clock + 2 := by
    simp [World.clock]
  simp only [hclock, hklines]
  simp [World.log]

/-- C1, counterexample. With the latest price 31.98, one candle closing at 39
and the threshold 0.18, the body of the `RunMonitor` loop sends an alert, with
the drop 17.999999999999993: in `float64`, `1 - 0.18` is 0.8200000000000001 and
`39 * 0.8200000000000001` is 31.980000000000004. On the exact values of the
same three numbers `p < mean * (1 - t)` is false. And on the first example of
the specification the drop reported is 20.999999999999996, not 21. -/
theorem alert_by_rounding :
    (processTicker demo.env { demo.svc (demo.client 31.98 [39]) 0 with defaultThreshold := 0.18 }
        "BINANCE" (demo.client 31.98 [39]) demo.btc demo.start).1.trace =
      [.latestPrice "BINANCE" "BTCUSDT",
       .upsert { Symbol := "BTCUSDT", Exchange := "BINANCE", Price := 31.98,
                 Timestamp := 1700000000000 } false,
       .klines "BINANCE" "BTCUSDT" "1d" 30,
       .alert "BINANCE" "BTCUSDT" 31.98 39 17.999999999999993 18 false] ∧
    CalculateAveragePrice [39] = 39 ∧
    (1 - 0.18 : float64) = 0.8200000000000001 ∧
    (39 * (1 - 0.18) : float64) = 31.980000000000004 ∧
    ¬ ((31.98 : float64).val < (39 : float64).val * (1 - (0.18 : float64).val)) ∧
    (processTicker demo.env (demo.svc (demo.client 79 [100, 100, 100]) 0) "BINANCE"
        (demo.client 79 [100, 100, 100]) demo.btc demo.start).1.trace =
      [.latestPrice "BINANCE" "BTCUSDT",
       .upsert { Symbol := "BTCUSDT", Exchange := "BINANCE", Price := 79,
                 Timestamp := 1700000000000 } false,
       .klines "BINANCE" "BTCUSDT" "1d" 30,
       .alert "BINANCE" "BTCUSDT" 79 100 20.999999999999996 20 false] ∧
    (20.999999999999996 : float64) ≠ 21 := by
  refine ⟨by decide, by decide, by decide, by decide, ?_, by decide, by decide⟩
  have h1 : (31.98 : float64) = .finite false (9001569755206779 <<< 1026) := by decide
  have h2 : (39 : float64) = .finite false (39 <<< 1074) := by decide
  have h3 : (0.18 : float64) = .finite false (3242591731706757 <<< 1020) := by decide
  rw [h1, h2, h3, float64.val_shiftLeft _ _ _ (by decide),
    float64.val_shiftLeft _ _ _ (by decide), float64.val_shiftLeft _ _ _ (by decide)]
  norm_num

set_option maxRecDepth 8000 in
/-- C23, counterexample. On the prices 1e16, 1, 1, 1, 1 `CalculateAveragePrice`
returns 2e15: each addition of 1 to 1e16 rounds back to 1e16. The sum of the
five prices divided by 5 is 2000000000000000.8. On the prices 1e308, 1e308 the
sum overflows and `CalculateAveragePrice` returns the positive infinity. -/
theorem CalculateAveragePrice_rounds :
    CalculateAveragePrice [1e16, 1, 1, 1, 1] = 2e15 ∧
    (1e16 + 1 : float64) = 1e16 ∧
    CalculateAveragePrice [1e308, 1e308] = .Inf false ∧
    (([1e16, 1, 1, 1, 1] : List float64).map float64.val).sum / 5 = 2000000000000000.8 ∧
    (2e15 : float64).val = 2000000000000000 := by
  have h1 : (1e16 : float64) = .finite false (10000000000000000 <<< 1074) := by decide
  have h2 : (1 : float64) = .finite false (1 <<< 1074) := by decide
  have h3 : (2e15 : float64) = .finite false (2000000000000000 <<< 1074) := by decide
  refine ⟨by decide, by decide, by decide, ?_, ?_⟩
  · simp only [List.map_cons, List.map_nil, List.sum_cons, List.sum_nil]
    rw [h1, h2, float64.val_shiftLeft _ _ _ (by decide),
      float64.val_shiftLeft _ _ _ (by decide)]
    norm_num
  · rw [h3, float64.val_shiftLeft _ _ _ (by decide)]
    norm_num

/-- C23, amended. On a non-empty list `CalculateAveragePrice` returns the
`float64` sum of the prices, added from left to right starting at 0, divided by
their number; the exact value of the result is the arithmetic mean of the exact
values of the prices whenever none of these operations rounds. On the empty
list it returns 0. A ticker for whose candles it returns a value that is not
above 0 gets no alert from the body of the `RunMonitor` loop, and neither does
a ticker whose candle list is empty, whatever the latest price and the
threshold. -/
theorem CalculateAveragePrice_mean :
    (∀ prices : List float64, prices ≠ [] →
      CalculateAveragePrice prices =
        prices.foldl (fun sum price => sum + price) 0 / (prices.length : float64)) ∧
    (∀ prices : List float64, prices ≠ [] →
      float64.ExactSum 0 prices →
      float64.Exact (prices.length : float64) (prices.length : ℚ) →
      float64.Exact
        (prices.foldl (fun sum price => sum + price) 0 / (prices.length : float64))
        ((prices.foldl (fun sum price => sum + price) 0).val /
          (prices.length : float64).val) →
      (CalculateAveragePrice prices).val =
        (prices.map float64.val).sum / (prices.length : ℚ)) ∧
    CalculateAveragePrice [] = 0 ∧
    (∀ (env : Env) (s : PriceMonitorService) (exchangeName : String) (client : ExchangeClient)
        (ticker : Ticker) (w : World) (latestPrice : float64) (klines : List Kline),
      client.GetLatestPrice w.clock ticker.Symbol = .ok latestPrice →
      (env.db (w.clock + 1)).failure = none →
      client.GetKlines (w.clock + 2) ticker.Symbol KlineInterval KlineLimit = .ok klines →
      (klines = [] ∨ ¬ CalculateAveragePrice (klines.map (fun k => k.Close)) > 0) →
      (processTicker env s exchangeName client ticker w).1.trace =
        w.trace ++
          [.latestPrice exchangeName ticker.Symbol,
           .upsert { Symbol := ticker.Symbol, Exchange := exchangeName, Price := latestPrice,
                     Timestamp := env.now (w.clock + 1) } false,
           .klines exchangeName ticker.Symbol KlineInterval KlineLimit]) := by
  refine ⟨fun prices h => CalculateAveragePrice_eq prices h, ?_, rfl, ?_⟩
  · intro prices hne hsum hlen hdiv
    rw [CalculateAveragePrice_eq prices hne, hdiv.2, exactSum_foldl prices 0 hsum, hlen.2,
      float64.zero_eq, float64.val, Nat.cast_zero, zero_div, zero_add]
  · intro env s exchangeName client ticker w latestPrice klines hprice hdb hklines hcase
    by_cases hne : klines = []
    · subst hne
      exact (processTicker_empty env s exchangeName client ticker w latestPrice hprice hdb
        hklines).2
    · rcases hcase with h | h
      · exact absurd h hne
      · rw [(processTicker_success env s exchangeName client ticker w latestPrice klines hprice
          hdb hklines hne).2, if_neg (fun hc => h hc.1)]
        simp

/-- Witness of C23: the mean of 100, 100, 100, where nothing rounds, and a
ticker with no candles. -/
theorem CalculateAveragePrice_mean_witness :
    ([100, 100, 100] : List float64) ≠ [] ∧
    float64.ExactSum 0 [100, 100, 100] ∧
    CalculateAveragePrice [100, 100, 100] = 100 ∧
    (CalculateAveragePrice [100, 100, 100]).val =
      (([100, 100, 100] : List float64).map float64.val).sum /
        ((([100, 100, 100] : List float64).length : Nat) : ℚ) ∧
    (processTicker demo.env (demo.svc (demo.client 79 []) 0) "BINANCE" (demo.client 79 [])
        demo.btc demo.start).1.trace =
      demo.start.trace ++
        [.latestPrice "BINANCE" demo.btc.Symbol,
         .upsert { Symbol := demo.btc.Symbol, Exchange := "BINANCE", Price := 79,
                   Timestamp := demo.env.now (demo.start.clock + 1) } false,
         .klines "BINANCE" demo.btc.Symbol KlineInterval KlineLimit] := by
  have h0 : (0 : float64) = .finite false 0 := by decide
  have h100 : (100 : float64) = .finite false (100 <<< 1074) := by decide
  have h200 : (0 + 100 + 100 : float64) = .finite false (200 <<< 1074) := by decide
  have h300 : (0 + 100 + 100 + 100 : float64) = .finite false (300 <<< 1074) := by decide
  have h3 : ((3 : Nat) : float64) = .finite false (3 <<< 1074) := by decide
  have ha : (0 + 100 : float64) = 100 := by decide
  have hq : ((0 + 100 + 100 + 100 : float64) / ((3 : Nat) : float64)) = 100 := by decide
  have hv0 : (0 : float64).val = 0 := by rw [h0]; simp [float64.val]
  have hv100 : (100 : float64).val = 100 := by
    rw [h100, float64.val_shiftLeft _ _ _ (by decide)]; norm_num
  have hv200 : (0 + 100 + 100 : float64).val = 200 := by
    rw [h200, float64.val_shiftLeft _ _ _ (by decide)]; norm_num
  have hv300 : (0 + 100 + 100 + 100 : float64).val = 300 := by
    rw [h300, float64.val_shiftLeft _ _ _ (by decide)]; norm_num
  have hv3 : ((3 : Nat) : float64).val = 3 := by
    rw [h3, float64.val_shiftLeft _ _ _ (by decide)]; norm_num
  have hsum : float64.ExactSum 0 [100, 100, 100] := by
    refine ⟨⟨by rw [ha, h100]; exact trivial, by rw [ha, hv100, hv0]; norm_num⟩,
      ⟨by rw [h200]; exact trivial, by rw [hv200, ha, hv100]; norm_num⟩,
      ⟨by rw [h300]; exact trivial, by rw [hv300, hv200, hv100]; norm_num⟩, trivial⟩
  refine ⟨by simp, hsum, by decide, ?_, ?_⟩
  · refine CalculateAveragePrice_mean.2.1 [100, 100, 100] (by simp) hsum ?_ ?_
    · exact ⟨by show (((3 : Nat) : float64)).IsFinite; rw [h3]; exact trivial,
        by show (((3 : Nat) : float64)).val = ((3 : Nat) : ℚ); rw [hv3]; norm_num⟩
    · refine ⟨?_, ?_⟩
      · show ((0 + 100 + 100 + 100 : float64) / ((3 : Nat) : float64)).IsFinite
        rw [hq, h100]; exact trivial
      · show ((0 + 100 + 100 + 100 : float64) / ((3 : Nat) : float64)).val =
          (0 + 100 + 100 + 100 : float64).val / ((3 : Nat) : float64).val
        rw [hq, hv100, hv300, hv3]; norm_num
  · exact CalculateAveragePrice_mean.2.2.2 demo.env (demo.svc (demo.client 79 []) 0) "BINANCE"
      (demo.client 79 []) demo.btc demo.start 79 [] rfl rfl rfl (Or.inl rfl)

theorem onlyComputed_refl (t : float64) (w : World) : OnlyComputedAlerts t w w :=
  fun _ he => Or.inl he

theorem onlyComputed_trans {t : float64} {a b c : World} (h1 : OnlyComputedAlerts t a b)
    (h2 : OnlyComputedAlerts t b c) : OnlyComputedAlerts t a c := by
  intro e he
  rcases h2 e he with h | h
  · exact h1 e h
  · exact Or.inr h

theorem onlyComputed_log (t : float64) (w : World) (e : Event) (he : e.alertAsComputed t) :
    OnlyComputedAlerts t w (w.log e) := by
  intro e1 he1
  simp only [World.log, List.mem_append, List.mem_singleton] at he1
  rcases he1 with h | h
  · exact Or.inl h
  · subst h
    exact Or.inr he

theorem FetchAndStorePrice_computed (t : float64) (env : Env) (client : ExchangeClient)
    (symbol exchangeName : String) (w : World) :
    OnlyComputedAlerts t w (FetchAndStorePrice env client symbol exchangeName w).1 := by
  have hlog := onlyComputed_log t w (.latestPrice exchangeName symbol) trivial
  unfold FetchAndStorePrice
  split
  · exact hlog
  · exact hlog
  · simp only
    split
    · intro e he
      simp only [World.log, List.append_assoc, List.mem_append, List.mem_singleton,
        List.mem_cons, List.mem_nil_iff, or_false] at he
      rcases he with h | h | h
      · exact Or.inl h
      · subst h; exact Or.inr trivial
      · subst h; exact Or.inr trivial
    · intro e he
      simp only [World.log, List.append_assoc, List.mem_append, List.mem_singleton,
        List.mem_cons, List.mem_nil_iff, or_false] at he
      rcases he with h | h | h
      · exact Or.inl h
      · subst h; exact Or.inr trivial
      · subst h; exact Or.inr trivial

theorem processTicker_computed (env : Env) (s : PriceMonitorService) (exchangeName : String)
    (client : ExchangeClient) (ticker : Ticker) (w : World) :
    OnlyComputedAlerts s.defaultThreshold w
      (processTicker env s exchangeName client ticker w).1 := by
  have h := FetchAndStorePrice_computed s.defaultThreshold env client ticker.Symbol
    exchangeName w
  unfold processTicker
  simp only
  split
  · rename_i w1 m heq
    rw [heq] at h
    exact h
  · rename_i w1 e heq
    rw [heq] at h
    exact h
  · rename_i w1 latestPrice heq
    rw [heq] at h
    have hk : OnlyComputedAlerts s.defaultThreshold w
        (w1.log (.klines exchangeName ticker.Symbol KlineInterval KlineLimit)) :=
      onlyComputed_trans h (onlyComputed_log _ _ _ trivial)
    split
    · exact hk
    · exact hk
    · split_ifs with hlen hcond
      · exact hk
      · exact onlyComputed_trans hk
          (onlyComputed_log _ _ _ ⟨hcond.1, hcond.2, rfl, rfl⟩)
      · exact hk

theorem tickerLoop_computed (env : Env) (s : PriceMonitorService) (exchangeName : String)
    (client : ExchangeClient) (len : Nat) (tickers : List Ticker) :
    ∀ (i : Nat) (w : World),
      OnlyComputedAlerts s.defaultThreshold w
        (tickerLoop env s exchangeName client len i tickers w).1 := by
  induction tickers with
  | nil =>
    intro i w
    rw [tickerLoop]
    exact onlyComputed_refl _ _
  | cons ticker rest ih =>
    intro i w
    have h := onlyComputed_trans
      (onlyComputed_log s.defaultThreshold w (.ctxCheck exchangeName ticker.Symbol) trivial)
      (processTicker_computed env s exchangeName client ticker
        (w.log (.ctxCheck exchangeName ticker.Symbol)))
    rw [tickerLoop_cons]
    by_cases hdone : env.ctxDone w.clock = true
    · rw [if_pos hdone]
      exact onlyComputed_refl _ _
    · rw [if_neg hdone]
      generalize processTicker env s exchangeName client ticker
        (w.log (.ctxCheck exchangeName ticker.Symbol)) = p at h ⊢
      obtain ⟨w1, step⟩ := p
      have h1 : OnlyComputedAlerts s.defaultThreshold w w1 := h
      cases step with
      | panic m => exact h1
      | continue_ => exact onlyComputed_trans h1 (ih _ _)
      | reachedDelay =>
        simp only
        split_ifs
        · exact h1
        · exact onlyComputed_trans h1
            (onlyComputed_trans
              (onlyComputed_log _ w1 (.delay exchangeName s.apiRequestDelay) trivial) (ih _ _))
        · exact onlyComputed_trans h1 (ih _ _)

theorem exchangeLoop_computed (env : Env) (s : PriceMonitorService)
    (clients : List (String × ExchangeClient)) :
    ∀ w : World, OnlyComputedAlerts s.defaultThreshold w (exchangeLoop env s clients w).1 := by
  induction clients with
  | nil =>
    intro w
    rw [exchangeLoop]
    exact onlyComputed_refl _ _
  | cons head rest ih =>
    intro w
    obtain ⟨exchangeName, client⟩ := head
    have hlog := onlyComputed_log s.defaultThreshold w (.tickers exchangeName s.topNSymbols)
      trivial
    rw [exchangeLoop]
    split
    · exact hlog
    · exact onlyComputed_trans hlog (ih _)
    · rename_i tickers _
      split_ifs
      · exact onlyComputed_trans hlog (ih _)
      · have h := tickerLoop_computed env s exchangeName client tickers.length tickers 0
          (w.log (.tickers exchangeName s.topNSymbols))
        split
        · rename_i w2 heq
          rw [heq] at h
          exact onlyComputed_trans hlog (onlyComputed_trans h (ih _))
        · rename_i w2 exit _ heq
          rw [heq] at h
          exact onlyComputed_trans hlog h

/-- C26, counterexample. A pass over one ticker with the latest price 31.98,
one candle closing at 39 and the threshold 0.18 sends an alert that reports the
drop 17.999999999999993 against the threshold 18: the drop reported is below
the threshold reported. The drop of the same three numbers taken exactly,
`(1 - p / mean) * 100`, is below `t * 100` as well. -/
theorem alert_drop_below_threshold :
    (RunMonitor demo.env { demo.svc (demo.client 31.98 [39]) 0 with defaultThreshold := 0.18 }
        demo.start).1.trace =
      [.tickers "BINANCE" 10, .ctxCheck "BINANCE" "BTCUSDT",
       .latestPrice "BINANCE" "BTCUSDT",
       .upsert { Symbol := "BTCUSDT", Exchange := "BINANCE", Price := 31.98,
                 Timestamp := 1700000000000 } false,
       .klines "BINANCE" "BTCUSDT" "1d" 30,
       .alert "BINANCE" "BTCUSDT" 31.98 39 17.999999999999993 18 false] ∧
    (17.999999999999993 : float64) < 18 ∧
    ¬ ((17.999999999999993 : float64) > 18) ∧
    (1 - (31.98 : float64) / 39) * 100 = 17.999999999999993 ∧
    (0.18 : float64) * 100 = 18 ∧
    (1 - (31.98 : float64).val / (39 : float64).val) * 100 < (0.18 : float64).val * 100 := by
  refine ⟨by decide, by decide, by decide, by decide, by decide, ?_⟩
  have h1 : (31.98 : float64) = .finite false (9001569755206779 <<< 1026) := by decide
  have h2 : (39 : float64) = .finite false (39 <<< 1074) := by decide
  have h3 : (0.18 : float64) = .finite false (3242591731706757 <<< 1020) := by decide
  rw [h1, h2, h3, float64.val_shiftLeft _ _ _ (by decide),
    float64.val_shiftLeft _ _ _ (by decide), float64.val_shiftLeft _ _ _ (by decide)]
  norm_num

/-- C26, amended. Every alert a pass of `RunMonitor` sends reports a latest
price and a mean for which `mean > 0` and `latestPrice < mean * (1 -
threshold)` hold in `float64` arithmetic, the drop `(1 - latestPrice / mean) *
100` and the threshold `threshold * 100` as `float64` computes them. When none
of these operations rounds, the drop reported is strictly above the threshold
reported, as it is for all rational numbers. A ticker whose latest price is the
`float64` product `mean * (1 - threshold)` itself gets no alert. -/
theorem alert_drop_exceeds_threshold :
    (∀ (env : Env) (s : PriceMonitorService) (w : World),
      ∀ e ∈ (RunMonitor env s w).1.trace,
        e ∈ w.trace ∨ e.alertAsComputed s.defaultThreshold) ∧
    (∀ mean latestPrice threshold : float64, mean.IsFinite → latestPrice.IsFinite →
      float64.Exact (1 - threshold) (1 - threshold.val) →
      float64.Exact (mean * (1 - threshold)) (mean.val * (1 - threshold).val) →
      float64.Exact (latestPrice / mean) (latestPrice.val / mean.val) →
      float64.Exact (1 - latestPrice / mean) (1 - (latestPrice / mean).val) →
      float64.Exact ((1 - latestPrice / mean) * 100) ((1 - latestPrice / mean).val * 100) →
      float64.Exact (threshold * 100) (threshold.val * 100) →
      mean > 0 → latestPrice < mean * (1 - threshold) →
      (1 - latestPrice / mean) * 100 > threshold * 100) ∧
    (∀ mean latestPrice threshold : ℚ, mean > 0 → latestPrice < mean * (1 - threshold) →
      (1 - latestPrice / mean) * 100 > threshold * 100) ∧
    (∀ (env : Env) (s : PriceMonitorService) (exchangeName : String) (client : ExchangeClient)
        (ticker : Ticker) (w : World) (latestPrice : float64) (klines : List Kline),
      client.GetLatestPrice w.clock ticker.Symbol = .ok latestPrice →
      (env.db (w.clock + 1)).failure = none →
      client.GetKlines (w.clock + 2) ticker.Symbol KlineInterval KlineLimit = .ok klines →
      klines ≠ [] →
      latestPrice =
        CalculateAveragePrice (klines.map (fun k => k.Close)) * (1 - s.defaultThreshold) →
      (processTicker env s exchangeName client ticker w).1.trace =
        w.trace ++
          [.latestPrice exchangeName ticker.Symbol,
           .upsert { Symbol := ticker.Symbol, Exchange := exchangeName, Price := latestPrice,
                     Timestamp := env.now (w.clock + 1) } false,
           .klines exchangeName ticker.Symbol KlineInterval KlineLimit]) := by
  refine ⟨fun env s w => exchangeLoop_computed env s s.exchangeClients w,
    fun mean latestPrice threshold hm hp h1 h2 h3 h4 h5 h6 hmean hlt =>
      drop_above_threshold_exact hm hp h1 h2 h3 h4 h5 h6 hmean hlt,
    fun mean latestPrice threshold hm hp => drop_above_threshold hm hp, ?_⟩
  intro env s exchangeName client ticker w latestPrice klines hprice hdb hklines hne heq
  rw [(processTicker_success env s exchangeName client ticker w latestPrice klines
    hprice hdb hklines hne).2,
    if_neg (fun hc => absurd hc.2 (by rw [← heq]; exact float64.lt_irrefl _))]
  simp

/-- Witness of C26: mean 100, price 50 and threshold 0.25, where no operation
rounds and the drop 50 is above the threshold 25; and price 80 against closes
100, 100, 100 with threshold 0.20, exactly at the bound, which gets no
alert. -/
theorem alert_drop_exceeds_threshold_witness :
    ((1 - (50 : float64) / 100) * 100 = 50 ∧ (0.25 : float64) * 100 = 25 ∧
      (1 - (50 : float64) / 100) * 100 > (0.25 : float64) * 100) ∧
    ((80 : float64) = CalculateAveragePrice
        ((List.map demo.kline [100, 100, 100]).map (fun k => k.Close)) *
          (1 - (demo.svc (demo.client 80 [100, 100, 100]) 0).defaultThreshold) ∧
      (processTicker demo.env (demo.svc (demo.client 80 [100, 100, 100]) 0) "BINANCE"
          (demo.client 80 [100, 100, 100]) demo.btc demo.start).1.trace =
        [.latestPrice "BINANCE" "BTCUSDT",
         .upsert { Symbol := "BTCUSDT", Exchange := "BINANCE", Price := 80,
                   Timestamp := 1700000000000 } false,
         .klines "BINANCE" "BTCUSDT" "1d" 30]) := by
  have e100 : (100 : float64) = .finite false (100 <<< 1074) := by decide
  have e50 : (50 : float64) = .finite false (50 <<< 1074) := by decide
  have e25 : (25 : float64) = .finite false (25 <<< 1074) := by decide
  have e1 : (1 : float64) = .finite false (1 <<< 1074) := by decide
  have et : (0.25 : float64) = .finite false (1 <<< 1072) := by decide
  have e75 : (75 : float64) = .finite false (75 <<< 1074) := by decide
  have ec : (0.75 : float64) = .finite false (3 <<< 1072) := by decide
  have eh : (0.5 : float64) = .finite false (1 <<< 1073) := by decide
  have v100 : (100 : float64).val = 100 := by
    rw [e100, float64.val_shiftLeft _ _ _ (by decide)]; norm_num
  have v50 : (50 : float64).val = 50 := by
    rw [e50, float64.val_shiftLeft _ _ _ (by decide)]; norm_num
  have v25 : (25 : float64).val = 25 := by
    rw [e25, float64.val_shiftLeft _ _ _ (by decide)]; norm_num
  have v75 : (75 : float64).val = 75 := by
    rw [e75, float64.val_shiftLeft _ _ _ (by decide)]; norm_num
  have vt : (0.25 : float64).val = 1 / 4 := by
    rw [et, float64.val_shiftLeft _ _ _ (by decide)]; norm_num
  have vc : (0.75 : float64).val = 3 / 4 := by
    rw [ec, float64.val_shiftLeft _ _ _ (by decide)]; norm_num
  have vh : (0.5 : float64).val = 1 / 2 := by
    rw [eh, float64.val_shiftLeft _ _ _ (by decide)]; norm_num
  have o1 : (1 - (0.25 : float64)) = 0.75 := by decide
  have o2 : ((100 : float64) * 0.75) = 75 := by decide
  have o3 : ((50 : float64) / 100) = 0.5 := by decide
  have o4 : (1 - (0.5 : float64)) = 0.5 := by decide
  have o5 : ((0.5 : float64) * 100) = 50 := by decide
  have o6 : ((0.25 : float64) * 100) = 25 := by decide
  refine ⟨⟨by decide, by decide, ?_⟩, by decide, ?_⟩
  · refine alert_drop_exceeds_threshold.2.1 100 50 0.25 (by rw [e100]; exact trivial)
      (by rw [e50]; exact trivial) ?_ ?_ ?_ ?_ ?_ ?_ (by decide) (by decide)
    · exact ⟨by rw [o1, ec]; exact trivial, by rw [o1, vc, vt]; norm_num⟩
    · exact ⟨by rw [o1, o2, e75]; exact trivial, by rw [o1, o2, v75, v100, vc]; norm_num⟩
    · exact ⟨by rw [o3, eh]; exact trivial, by rw [o3, vh, v50, v100]; norm_num⟩
    · exact ⟨by rw [o3, o4, eh]; exact trivial, by rw [o3, o4, vh]; norm_num⟩
    · exact ⟨by rw [o3, o4, o5, e50]; exact trivial, by rw [o3, o4, o5, v50, vh]; norm_num⟩
    · exact ⟨by rw [o6, e25]; exact trivial, by rw [o6, v25, vt]; norm_num⟩
  · exact alert_drop_exceeds_threshold.2.2.2 demo.env (demo.svc (demo.client 80 [100, 100, 100]) 0)
      "BINANCE" (demo.client 80 [100, 100, 100]) demo.btc demo.start 80
      (List.map demo.kline [100, 100, 100]) rfl rfl rfl (by simp) (by decide)

/-! ## The highest volumes -/

theorem topN_eq_take (tickers : List Ticker) (limit : Int) (h : 0 ≤ limit) :
    topN tickers limit = .ok ((sortSlice volumeLess tickers).take limit.toNat) := by
  unfold topN
  simp only
  split_ifs with h1 h2
  · omega
  · rfl
  · rw [List.take_of_length_le]
    omega

theorem topN_highest (tickers : List Ticker) (limit : Int) (h : 0 ≤ limit)
    (hx : ∀ t ∈ tickers, t.Volume ≠ .NaN) :
    ∃ returned leftOut, topN tickers limit = .ok returned ∧
      (returned ++ leftOut).Perm tickers ∧
      (returned ++ leftOut).Pairwise (fun a b => a.Volume ≥ b.Volume) ∧
      (returned.length : Int) = min limit (tickers.length : Int) := by
  refine ⟨(sortSlice volumeLess tickers).take limit.toNat,
    (sortSlice volumeLess tickers).drop limit.toNat, topN_eq_take tickers limit h, ?_, ?_, ?_⟩
  · rw [List.take_append_drop]
    exact sortSlice_perm _ _
  · rw [List.take_append_drop]
    exact sortSlice_volume_sorted _ hx
  · rw [List.length_take, (sortSlice_perm volumeLess tickers).length_eq]
    omega

/-- C25, counterexample. On a 200 reply with the volumes "1", "NaN" and "3"
(`strconv.ParseFloat` reads "NaN" as NaN with a nil error) and the limit 1,
both clients return the ticker of volume 1 alone: the eligible ticker of volume
3 is left out although its volume is above that of the returned one. -/
theorem GetTopVolumeTickers_misses_highest :
    BinanceClient.GetTopVolumeTickers parseDigitsOrNaN
        (.answered StatusOK "200 OK" (.decoded
          [{ Symbol := "AUSDT", LastPrice := "1", Volume := "1" },
           { Symbol := "BUSDT", LastPrice := "1", Volume := "NaN" },
           { Symbol := "CUSDT", LastPrice := "1", Volume := "3" }])) 1 =
      .ok [{ Symbol := "AUSDT", Price := 1, Volume := 1 }] ∧
    OKEXClient.GetTopVolumeTickers parseDigitsOrNaN
        (.answered StatusOK "200 OK" (.decoded { Code := "0", Msg := "", Data :=
          [{ InstID := "A-USDT", LastPrice := "1", Vol24h := "1" },
           { InstID := "B-USDT", LastPrice := "1", Vol24h := "NaN" },
           { InstID := "C-USDT", LastPrice := "1", Vol24h := "3" }] })) 1 =
      .ok [{ Symbol := "AUSDT", Price := 1, Volume := 1 }] ∧
    BinanceClient.eligible parseDigitsOrNaN
      { Symbol := "CUSDT", LastPrice := "1", Volume := "3" } = true ∧
    BinanceClient.tickerOfRaw parseDigitsOrNaN
        { Symbol := "CUSDT", LastPrice := "1", Volume := "3" } =
      some { Symbol := "CUSDT", Price := 1, Volume := 3 } ∧
    (3 : float64) > 1 ∧ ¬ ((3 : float64) ≤ 1) := by
  decide

/-- C25, amended. For a limit `n >= 0` and a decodable 200 reply (OKEX: with
code "0") in which no eligible ticker has a volume that parses to NaN,
`GetTopVolumeTickers` returns a list `returned` for which some list `leftOut`
makes `returned ++ leftOut` a rearrangement of the eligible tickers in
descending order of volume, `returned` having `min n available` elements: the
result is sorted, every eligible ticker left out has a volume at most that of
every returned one, and every returned ticker is built from a raw ticker of
the reply. -/
theorem GetTopVolumeTickers_highest (ParseFloat : String → Option float64) (limit : Int)
    (hlimit : 0 ≤ limit) :
    (∀ status rawTickers, (∀ raw ∈ rawTickers, BinanceClient.eligible ParseFloat raw = true →
        ParseFloat raw.Volume ≠ some .NaN) →
      ∃ returned leftOut,
      BinanceClient.GetTopVolumeTickers ParseFloat
        (.answered StatusOK status (.decoded rawTickers)) limit = .ok returned ∧
      (returned ++ leftOut).Perm (rawTickers.filterMap (BinanceClient.tickerOfRaw ParseFloat)) ∧
      (returned ++ leftOut).Pairwise (fun a b => a.Volume ≥ b.Volume) ∧
      (∀ a ∈ returned, ∀ b ∈ leftOut, b.Volume ≤ a.Volume) ∧
      (returned.length : Int) =
        min limit ((rawTickers.filter (BinanceClient.eligible ParseFloat)).length : Int) ∧
      (∀ t ∈ returned, ∃ raw ∈ rawTickers, BinanceClient.eligible ParseFloat raw = true ∧
        t.Symbol = raw.Symbol ∧ ParseFloat raw.LastPrice = some t.Price ∧
        ParseFloat raw.Volume = some t.Volume)) ∧
    (∀ status msg data, (∀ raw ∈ data, OKEXClient.eligible ParseFloat raw = true →
        ParseFloat raw.Vol24h ≠ some .NaN) →
      ∃ returned leftOut,
      OKEXClient.GetTopVolumeTickers ParseFloat
        (.answered StatusOK status (.decoded { Code := "0", Msg := msg, Data := data }))
        limit = .ok returned ∧
      (returned ++ leftOut).Perm (data.filterMap (OKEXClient.tickerOfRaw ParseFloat)) ∧
      (returned ++ leftOut).Pairwise (fun a b => a.Volume ≥ b.Volume) ∧
      (∀ a ∈ returned, ∀ b ∈ leftOut, b.Volume ≤ a.Volume) ∧
      (returned.length : Int) =
        min limit ((data.filter (OKEXClient.eligible ParseFloat)).length : Int) ∧
      (∀ t ∈ returned, ∃ raw ∈ data, OKEXClient.eligible ParseFloat raw = true ∧
        t.Symbol = ReplaceAll raw.InstID "-" "" ∧ ParseFloat raw.LastPrice = some t.Price ∧
        ParseFloat raw.Vol24h = some t.Volume)) := by
  constructor
  · intro status rawTickers hnan
    obtain ⟨returned, leftOut, htop, hperm, hsorted, hlen⟩ :=
      topN_highest (rawTickers.filterMap (BinanceClient.tickerOfRaw ParseFloat)) limit hlimit
        (binance_volume_ne_NaN hnan)
    refine ⟨returned, leftOut, by simpa [BinanceClient.GetTopVolumeTickers] using htop, hperm,
      hsorted, ?_, ?_, ?_⟩
    · intro a ha b hb
      exact (List.pairwise_append.1 hsorted).2.2 a ha b hb
    · rw [hlen, length_filterMap_isSome _ _ (binance_tickerOfRaw_isSome ParseFloat)]
    · intro t ht
      obtain ⟨raw, hraw, hsome⟩ := List.mem_filterMap.1 (topN_mem htop ht)
      obtain ⟨-, h2, h3, h4⟩ := binance_tickerOfRaw_some hsome
      refine ⟨raw, hraw, ?_, h2, h3, h4⟩
      rw [← binance_tickerOfRaw_isSome, hsome]
      rfl
  · intro status msg data hnan
    obtain ⟨returned, leftOut, htop, hperm, hsorted, hlen⟩ :=
      topN_highest (data.filterMap (OKEXClient.tickerOfRaw ParseFloat)) limit hlimit
        (okex_volume_ne_NaN hnan)
    refine ⟨returned, leftOut, by simpa [OKEXClient.GetTopVolumeTickers] using htop, hperm,
      hsorted, ?_, ?_, ?_⟩
    · intro a ha b hb
      exact (List.pairwise_append.1 hsorted).2.2 a ha b hb
    · rw [hlen, length_filterMap_isSome _ _ (okex_tickerOfRaw_isSome ParseFloat)]
    · intro t ht
      obtain ⟨raw, hraw, hsome⟩ := List.mem_filterMap.1 (topN_mem htop ht)
      obtain ⟨-, h2, h3, h4⟩ := okex_tickerOfRaw_some hsome
      refine ⟨raw, hraw, ?_, h2, h3, h4⟩
      rw [← okex_tickerOfRaw_isSome, hsome]
      rfl

/-- Witness of C25: a Binance reply with three eligible tickers, no volume that
reads as NaN, and the limit 2. -/
theorem GetTopVolumeTickers_highest_witness :
    (0 : Int) ≤ 2 ∧
    (∀ raw ∈ ([⟨"BTCUSDT", "1", "5"⟩, ⟨"ETHUSDT", "2", "7"⟩, ⟨"ETHBTC", "3", "9"⟩,
        ⟨"SOLUSDT", "4", "6"⟩] : List BinanceRawTicker),
      BinanceClient.eligible parseDigits raw = true → parseDigits raw.Volume ≠ some .NaN) ∧
    ∃ returned leftOut,
      BinanceClient.GetTopVolumeTickers parseDigits
        (.answered StatusOK "200 OK" (.decoded
          [⟨"BTCUSDT", "1", "5"⟩, ⟨"ETHUSDT", "2", "7"⟩, ⟨"ETHBTC", "3", "9"⟩,
           ⟨"SOLUSDT", "4", "6"⟩])) 2 = .ok returned ∧
      (returned ++ leftOut).Perm
        (List.filterMap (BinanceClient.tickerOfRaw parseDigits)
          [⟨"BTCUSDT", "1", "5"⟩, ⟨"ETHUSDT", "2", "7"⟩, ⟨"ETHBTC", "3", "9"⟩,
           ⟨"SOLUSDT", "4", "6"⟩]) ∧
      (returned ++ leftOut).Pairwise (fun a b => a.Volume ≥ b.Volume) ∧
      (∀ a ∈ returned, ∀ b ∈ leftOut, b.Volume ≤ a.Volume) ∧
      (returned.length : Int) =
        min 2 ((List.filter (BinanceClient.eligible parseDigits)
          [⟨"BTCUSDT", "1", "5"⟩, ⟨"ETHUSDT", "2", "7"⟩, ⟨"ETHBTC", "3", "9"⟩,
           ⟨"SOLUSDT", "4", "6"⟩]).length : Int) ∧
      (∀ t ∈ returned, ∃ raw ∈
          ([⟨"BTCUSDT", "1", "5"⟩, ⟨"ETHUSDT", "2", "7"⟩, ⟨"ETHBTC", "3", "9"⟩,
            ⟨"SOLUSDT", "4", "6"⟩] : List BinanceRawTicker),
        BinanceClient.eligible parseDigits raw = true ∧
        t.Symbol = raw.Symbol ∧ parseDigits raw.LastPrice = some t.Price ∧
        parseDigits raw.Volume = some t.Volume) :=
  ⟨by decide, by decide, (GetTopVolumeTickers_highest parseDigits 2 (by decide)).1 "200 OK"
    [⟨"BTCUSDT", "1", "5"⟩, ⟨"ETHUSDT", "2", "7"⟩, ⟨"ETHBTC", "3", "9"⟩, ⟨"SOLUSDT", "4", "6"⟩]
    (by decide)⟩

/-- The reply of the previous witness evaluated: the two highest volumes. -/
theorem GetTopVolumeTickers_example :
    BinanceClient.GetTopVolumeTickers parseDigits
        (.answered StatusOK "200 OK" (.decoded
          [⟨"BTCUSDT", "1", "5"⟩, ⟨"ETHUSDT", "2", "7"⟩, ⟨"ETHBTC", "3", "9"⟩,
           ⟨"SOLUSDT", "4", "6"⟩])) 2 =
      .ok [⟨"ETHUSDT", 2, 7⟩, ⟨"SOLUSDT", 4, 6⟩] := by
  decide

/-! ## The delay between symbols -/

/-- C24. A pass with an inter-symbol delay of 500 ms over BTCUSDT and ETHUSDT.
When every request is answered, the pass pauses once, after BTCUSDT. When the
price fetch of BTCUSDT fails, the pass goes from BTCUSDT to ETHUSDT without any
pause, although BTCUSDT is not the last ticker. -/
theorem delay_skipped_after_failure :
    (0 : Int) < 500000000 ∧
    (RunMonitor demo.env (demo.svc demo.steadyClient 500000000) demo.start).1.trace =
      [.tickers "BINANCE" 10,
       .ctxCheck "BINANCE" "BTCUSDT", .latestPrice "BINANCE" "BTCUSDT",
       .upsert { Symbol := "BTCUSDT", Exchange := "BINANCE", Price := 79,
                 Timestamp := 1700000000000 } false,
       .klines "BINANCE" "BTCUSDT" "1d" 30,
       .delay "BINANCE" 500000000,
       .ctxCheck "BINANCE" "ETHUSDT", .latestPrice "BINANCE" "ETHUSDT",
       .upsert { Symbol := "ETHUSDT", Exchange := "BINANCE", Price := 79,
                 Timestamp := 1700000000000 } false,
       .klines "BINANCE" "ETHUSDT" "1d" 30] ∧
    (RunMonitor demo.env (demo.svc demo.flakyClient 500000000) demo.start).1.trace =
      [.tickers "BINANCE" 10,
       .ctxCheck "BINANCE" "BTCUSDT", .latestPrice "BINANCE" "BTCUSDT",
       .ctxCheck "BINANCE" "ETHUSDT", .latestPrice "BINANCE" "ETHUSDT",
       .upsert { Symbol := "ETHUSDT", Exchange := "BINANCE", Price := 79,
                 Timestamp := 1700000000000 } false,
       .klines "BINANCE" "ETHUSDT" "1d" 30] ∧
    (RunMonitor demo.env (demo.svc demo.flakyClient 500000000) demo.start).2 = .nil := by
  refine ⟨by decide, by decide, by decide, by decide⟩

/-- Where the ticker loop pauses: after an iteration that reaches the end of
its body, when a delay is configured and the ticker is not the last one; an
iteration ended by `continue` goes to the next ticker at once. -/
theorem tickerLoop_delay (env : Env) (s : PriceMonitorService) (exchangeName : String)
    (client : ExchangeClient) (len i : Nat) (ticker : Ticker) (rest : List Ticker)
    (w w1 : World) (hctx : env.ctxDone w.clock = false) :
    (processTicker env s exchangeName client ticker
        (w.log (.ctxCheck exchangeName ticker.Symbol)) = (w1, .reachedDelay) →
      s.apiRequestDelay > 0 → (i : Int) < (len : Int) - 1 → env.ctxDone w1.clock = false →
      tickerLoop env s exchangeName client len i (ticker :: rest) w =
        tickerLoop env s exchangeName client len (i + 1) rest
          (w1.log (.delay exchangeName s.apiRequestDelay))) ∧
    (processTicker env s exchangeName client ticker
        (w.log (.ctxCheck exchangeName ticker.Symbol)) = (w1, .reachedDelay) →
      ¬ (s.apiRequestDelay > 0 ∧ (i : Int) < (len : Int) - 1) →
      tickerLoop env s exchangeName client len i (ticker :: rest) w =
        tickerLoop env s exchangeName client len (i + 1) rest w1) ∧
    (processTicker env s exchangeName client ticker
        (w.log (.ctxCheck exchangeName ticker.Symbol)) = (w1, .continue_) →
      tickerLoop env s exchangeName client len i (ticker :: rest) w =
        tickerLoop env s exchangeName client len (i + 1) rest w1) := by
  refine ⟨?_, ?_, ?_⟩
  · intro hproc hdelay hi hdone
    rw [tickerLoop_cons, if_neg (by simp [hctx]), hproc]
    simp only
    rw [if_pos ⟨hdelay, hi⟩, if_neg (by simp [hdone])]
  · intro hproc hnot
    rw [tickerLoop_cons, if_neg (by simp [hctx]), hproc]
    simp only
    rw [if_neg hnot]
  · intro hproc
    rw [tickerLoop_cons, if_neg (by simp [hctx]), hproc]

/-! ## The window of the average -/

open server

/-- No step of `Start` assigns the field `scheduler`. -/
theorem Start_keeps_scheduler_field (p : Process) (doErr : Option String) (s : Nat) :
    (Start.launch p doErr).1.server = p.server ∧ (Start.finish p s).1.server = p.server := by
  cases doErr <;> exact ⟨rfl, rfl⟩

/-- C27. A server built by `NewTaskServer` and started: `Start` builds the
scheduler 0 and starts it, the field `scheduler` of the server is still nil,
and `Stop` panics on the nil pointer and leaves the scheduler of `Start`
running. The same holds once `Start` has returned. -/
theorem Stop_on_unset_scheduler :
    (Start.launch
      { server := NewTaskServer 300 (demo.svc (demo.client 79 [100]) 0), schedulers := [] }
      none).2 = (0, none) ∧
    (Start.launch
      { server := NewTaskServer 300 (demo.svc (demo.client 79 [100]) 0), schedulers := [] }
      none).1.schedulers = [true] ∧
    (Start.launch
      { server := NewTaskServer 300 (demo.svc (demo.client 79 [100]) 0), schedulers := [] }
      none).1.server.scheduler = none ∧
    (Stop (Start.launch
      { server := NewTaskServer 300 (demo.svc (demo.client 79 [100]) 0), schedulers := [] }
      none).1).2 = .panic "invalid memory address or nil pointer dereference" ∧
    (Stop (Start.launch
      { server := NewTaskServer 300 (demo.svc (demo.client 79 [100]) 0), schedulers := [] }
      none).1).1.schedulers = [true] ∧
    (Stop (Start.finish (Start.launch
      { server := NewTaskServer 300 (demo.svc (demo.client 79 [100]) 0), schedulers := [] }
      none).1 0).1).2 = .panic "invalid memory address or nil pointer dereference" :=
  ⟨rfl, rfl, rfl, rfl, rfl, rfl⟩

/-! ## The schedule -/

end Klineio
